import Mathlib

/-!
# V4ToCdpDebugger: the CDP <-> V4 protocol adapter

A shallow embedding of `V4ToCdpFrontend/V4CdpMapper.cpp`, `V4Helpers.cpp`, `V4CdpHelper.h`
and `CdpDebuggerFrontend.cpp`, and of the settings loader `CdpTestClient/raw_settings.cpp`,
followed by theorems about the pending-request table, the request/response mappers, the
WebSocket message handlers, the HTTP discovery routes and the loader.

Modelling conventions.
* `QVariant` is the dynamic value shared by both protocols. `QJsonValue`, `QJsonObject` and
  `QJsonDocument` are represented by the same type: `QJsonObject::toVariantMap` and
  `QJsonDocument::fromVariant` are the identity on it. The invalid `QVariant` and the JSON
  `null` are one constructor (both serialise to `null` and every conversion used by the
  adapter treats them alike). Floating-point numbers are outside the model.
* `QVariantMap` (`QMap<QString, QVariant>`) is a key-sorted association list; `operator[]`
  assignment is `QMap.insert`.
* C++ `int` is 32 bits wide: conversions to `int` wrap with `toInt32`.
* Reference parameters that a function mutates are returned next to its result.
* Socket writes, the `sendRequestToBackend` signal and calls of the synchronous backend
  functor are recorded as a list of `Effect`s in program order.
-/

/-! ## Dynamic values -/

/-- The dynamic value of both protocols (`QVariant` and `QJsonValue`). -/
inductive QVariant where
  | null
  | bool (b : Bool)
  | num (n : Int)
  | str (s : String)
  | list (xs : List QVariant)
  | map (kvs : List (String × QVariant))
deriving Repr, Inhabited

/-- A `QMap<QString, QVariant>`: association list kept sorted by key. -/
abbrev QVariantMap := List (String × QVariant)

/-- A `QVariantList`. -/
abbrev QVariantList := List QVariant

/-! ## QString helpers -/

/-- Two's-complement narrowing of an integer to the 32-bit C++ type int. -/
def toInt32 (n : Int) : Int := (n + 2147483648) % 4294967296 - 2147483648

/-- Whether an integer is representable in the 32-bit C++ type int. -/
def inIntRange (n : Int) : Prop := -2147483648 ≤ n ∧ n ≤ 2147483647

instance (n : Int) : Decidable (inIntRange n) := by unfold inIntRange; infer_instance

/-- The predicate `QChar::isSpace`. -/
def QChar.isSpace (c : Char) : Bool :=
  let n := c.toNat
  n == 32 || (9 ≤ n && n ≤ 13) || n == 133 || n == 160 || n == 5760 ||
  (8192 ≤ n && n ≤ 8202) || n == 8232 || n == 8233 || n == 8239 || n == 8287 || n == 12288

/-- ASCII decimal digit. -/
def isAsciiDigit (c : Char) : Bool := 48 ≤ c.toNat && c.toNat ≤ 57

/-- Value of an ASCII decimal digit. -/
def digitValue (c : Char) : Nat := c.toNat - 48

/-- The list behind `QString::trimmed`: white space removed at both ends. -/
def trimmedChars (cs : List Char) : List Char :=
  ((cs.dropWhile QChar.isSpace).reverse.dropWhile QChar.isSpace).reverse

/-- The method `QString::trimmed`. -/
def QString.trimmed (s : String) : String := String.mk (trimmedChars s.data)

/-- Decimal value of a digit string, most significant digit first. -/
def digitsValue (cs : List Char) : Nat := cs.foldl (fun acc c => 10 * acc + digitValue c) 0

/-- Signed decimal parse of `[+-]digits`; `none` when the text is not of that shape. -/
def parseSignedDecimal (cs : List Char) : Option Int :=
  let body (ds : List Char) : Option Nat :=
    if ds.isEmpty || !ds.all isAsciiDigit then none else some (digitsValue ds)
  match cs with
  | '-' :: ds => (body ds).map (fun n => - (n : Int))
  | '+' :: ds => (body ds).map (fun n => (n : Int))
  | ds => (body ds).map (fun n => (n : Int))

/-- The method `QString::toInt(bool *ok)`: surrounding white space is ignored, the text must be
a signed decimal number that fits `int`; `none` stands for `ok == false` (the value is then 0). -/
def QString.toInt (s : String) : Option Int :=
  match parseSignedDecimal (trimmedChars s.data) with
  | some n => if inIntRange n then some n else none
  | none => none

/-- The method `QString::toLongLong(bool *ok)`: like `QString::toInt`, for the 64-bit range. -/
def QString.toLongLong (s : String) : Option Int :=
  match parseSignedDecimal (trimmedChars s.data) with
  | some n =>
    if -9223372036854775808 ≤ n ∧ n ≤ 9223372036854775807 then some n else none
  | none => none

/-- The function `QString::number(int)`. -/
def QString.number (n : Int) : String := toString n

/-- The method `QString::toLower`, on ASCII letters. -/
def QString.toLower (s : String) : String := String.mk (s.data.map Char.toLower)

/-- The method `QString::count(QChar)`. -/
def QString.count (s : String) (c : Char) : Nat := s.data.count c

/-- Index of the first occurrence of `pat` in `cs`, counted from `i`. -/
def indexOfFrom (pat : List Char) : List Char → Nat → Option Nat
  | [], i => if pat.isEmpty then some i else none
  | c :: cs, i => if pat.isPrefixOf (c :: cs) then some i else indexOfFrom pat cs (i + 1)

/-- The method `QString::indexOf(QString)`; `none` stands for -1. -/
def QString.indexOf (s : String) (pat : String) : Option Nat := indexOfFrom pat.data s.data 0

/-- Index of the last occurrence of the character `c`, scanning `cs` from position `i`. -/
def lastIndexOfFrom (c : Char) : List Char → Nat → Option Nat
  | [], _ => none
  | d :: ds, i =>
    match lastIndexOfFrom c ds (i + 1) with
    | some j => some j
    | none => if d = c then some i else none

/-- The method `QString::lastIndexOf` for a one-character needle; `none` stands for -1. -/
def QString.lastIndexOf (s : String) (c : Char) : Option Nat := lastIndexOfFrom c s.data 0

/-- The method `QString::left`. -/
def QString.left (s : String) (n : Nat) : String := String.mk (s.data.take n)

/-- The method `QString::mid` with one argument. -/
def QString.mid (s : String) (n : Nat) : String := String.mk (s.data.drop n)

/-! ### QString::arg -/

/-- Progress of the place-marker scanner of `QString::arg` (`findArgEscapes`). -/
inductive ArgScan where
  | lit
  | pct
  | pctL
  | dig (d : Nat)

/-- A piece of a format string: literal text (`none`) or a place marker with its number. -/
abbrev ArgPiece := Option Nat × List Char

/-- One pass of `findArgEscapes`: `pend` is the text of the marker being read. A marker is
`%`, an optional `L`, then one or two decimal digits. -/
def argScan : ArgScan → List Char → List Char → List ArgPiece
  | .lit, _, [] => []
  | .pct, pend, [] => [(none, pend)]
  | .pctL, pend, [] => [(none, pend)]
  | .dig d, pend, [] => [(some d, pend)]
  | .lit, _, c :: cs =>
    if c = '%' then argScan .pct [c] cs else (none, [c]) :: argScan .lit [] cs
  | .pct, pend, c :: cs =>
    if c = 'L' then argScan .pctL (pend ++ [c]) cs
    else if isAsciiDigit c then argScan (.dig (digitValue c)) (pend ++ [c]) cs
    else if c = '%' then (none, pend) :: argScan .pct [c] cs
    else (none, pend) :: (none, [c]) :: argScan .lit [] cs
  | .pctL, pend, c :: cs =>
    if isAsciiDigit c then argScan (.dig (digitValue c)) (pend ++ [c]) cs
    else if c = '%' then (none, pend) :: argScan .pct [c] cs
    else (none, pend) :: (none, [c]) :: argScan .lit [] cs
  | .dig d, pend, c :: cs =>
    if isAsciiDigit c then (some (10 * d + digitValue c), pend ++ [c]) :: argScan .lit [] cs
    else if c = '%' then (some d, pend) :: argScan .pct [c] cs
    else (some d, pend) :: (none, [c]) :: argScan .lit [] cs

/-- The lowest place-marker number among the pieces, if there is a marker. -/
def argMinEscape : List ArgPiece → Option Nat
  | [] => none
  | (none, _) :: ps => argMinEscape ps
  | (some n, _) :: ps =>
    match argMinEscape ps with
    | some m => some (min n m)
    | none => some n

/-- The method `QString::arg(QString)`: every occurrence of the lowest-numbered place marker is
replaced by `a`; a string without markers is returned unchanged. -/
def QString.arg (s : String) (a : String) : String :=
  let pieces := argScan .lit [] s.data
  match argMinEscape pieces with
  | none => s
  | some m =>
    String.mk ((pieces.map (fun p => if p.1 = some m then a.data else p.2)).flatten)

/-! ### The regular expression of normalizeScriptName -/

/-- The class `\s` of the regular-expression engine (ASCII white space). -/
def reSpace (c : Char) : Bool :=
  let n := c.toNat
  n == 32 || (9 ≤ n && n ≤ 13)

/-- The class `.`: any character except the line feed. -/
def reDot (c : Char) : Bool := c.toNat != 10

/-- The class `[^()]`. -/
def reNoParen (c : Char) : Bool := c != '(' && c != ')'

/-- Greedy `p*` followed by the continuation `k`: the longest run is tried first and given
back one character at a time. -/
def reStar {α : Type} (p : Char → Bool) (k : List Char → Option α) : List Char → Option α
  | [] => k []
  | c :: cs =>
    if p c then
      match reStar p k cs with
      | some r => some r
      | none => k (c :: cs)
    else k (c :: cs)

/-- Greedy `p+` followed by the continuation `k`. -/
def rePlus {α : Type} (p : Char → Bool) (k : List Char → Option α) : List Char → Option α
  | [] => none
  | c :: cs => if p c then reStar p k cs else none

/-- A literal followed by the continuation `k`. -/
def reLit {α : Type} (lit : List Char) (k : List Char → Option α) (cs : List Char) : Option α :=
  if lit.isPrefixOf cs then k (cs.drop lit.length) else none

/-- The anchor `$` after `\s*`: end of subject, or just before a final line feed. -/
def reEnd (cs : List Char) : Option Unit :=
  match cs with
  | [] => some ()
  | [c] => if c.toNat == 10 then some () else none
  | _ => none

/-- The tail `\s*$` of the pattern. -/
def reTail (cs : List Char) : Option Unit := reStar reSpace reEnd cs

/-- The optional group `(?:\s*\(\d+\))?` followed by the tail: the group is tried first. -/
def reSuffix (cs : List Char) : Option Unit :=
  let closing (r : List Char) : Option Unit := reLit [')'] reTail r
  let opening (r : List Char) : Option Unit := reLit ['('] (rePlus isAsciiDigit closing) r
  match reStar reSpace opening cs with
  | some u => some u
  | none => reTail cs

/-- The lazy capture group `([^()]+?)` followed by the rest of the pattern: `acc` is what the
group holds so far; the shortest capture that lets the rest match wins. -/
def reName (acc : List Char) : List Char → Option (List Char)
  | [] => none
  | c :: cs =>
    if reNoParen c then
      match reSuffix cs with
      | some _ => some (acc ++ [c])
      | none => reName (acc ++ [c]) cs
    else none

/-- The pattern from `\s*([^()]+?)` onwards; the result is capture group 1. -/
def reAfterScheme (cs : List Char) : Option (List Char) := reStar reSpace (reName []) cs

/-- Capture group 1 of `^\s*(?:.*://)?\s*([^()]+?)(?:\s*\(\d+\))?\s*$` on the subject, with
the priorities of a backtracking engine; `none` when the subject does not match. -/
def reScriptName (cs : List Char) : Option (List Char) :=
  reStar reSpace (fun r =>
    match reStar reDot (reLit [':', '/', '/'] reAfterScheme) r with
    | some cap => some cap
    | none => reAfterScheme r) cs

/-- The helper `normalizeScriptName` of V4CdpMapper.cpp. -/
def normalizeScriptName (input : String) : String :=
  match reScriptName input.data with
  | some name => QString.trimmed (String.mk name)
  | none => QString.trimmed input

/-! ## QVariant conversions -/

/-- The method `QVariant::toInt(bool *ok)`: value and success flag. A string is converted with
`QString::toLongLong` and the number narrowed to `int`, the flag staying `true`. -/
def QVariant.toIntOk : QVariant → Int × Bool
  | .num n => (toInt32 n, true)
  | .bool b => (if b then 1 else 0, true)
  | .str s =>
    match QString.toLongLong s with
    | some n => (toInt32 n, true)
    | none => (0, false)
  | _ => (0, false)

/-- The method `QVariant::toInt()`. -/
def QVariant.toInt (v : QVariant) : Int := v.toIntOk.1

/-- The method `QVariant::toString()`. -/
def QVariant.toString : QVariant → String
  | .str s => s
  | .num n => QString.number n
  | .bool b => if b then "true" else "false"
  | _ => ""

/-- The method `QVariant::toMap()`. -/
def QVariant.toMap : QVariant → QVariantMap
  | .map m => m
  | _ => []

/-- The method `QVariant::toList()`. -/
def QVariant.toList : QVariant → QVariantList
  | .list xs => xs
  | _ => []

/-- The method `QVariant::toBool()`. -/
def QVariant.toBool : QVariant → Bool
  | .bool b => b
  | .num n => n != 0
  | .str s => !(s.isEmpty || s == "0" || QString.toLower s == "false")
  | _ => false

/-- The test `canConvert<QVariantMap>()`. -/
def QVariant.canConvertMap : QVariant → Bool
  | .map _ => true
  | _ => false

/-- The test `typeId() == QMetaType::QString`. -/
def QVariant.isString : QVariant → Bool
  | .str _ => true
  | _ => false

/-- The method `QJsonValue::toInt(int defaultValue)`: only a number that fits `int` converts. -/
def QJsonValue.toInt (v : QVariant) (defaultValue : Int) : Int :=
  match v with
  | .num n => if inIntRange n then n else defaultValue
  | _ => defaultValue

/-- The method `QJsonValue::toString()`: only a JSON string converts. -/
def QJsonValue.toString : QVariant → String
  | .str s => s
  | _ => ""

/-! ## QMap -/

/-- Lexicographic order on character lists, by code point. -/
def charsLt : List Char → List Char → Bool
  | [], [] => false
  | [], _ :: _ => true
  | _ :: _, [] => false
  | a :: as, b :: bs =>
    if a.toNat < b.toNat then true
    else if a = b then charsLt as bs
    else false

/-- The key order of `QMap<QString, _>` (`QString::operator<`, which compares code units; the
two orders agree on the Basic Multilingual Plane below the surrogates). -/
def keyLt (a b : String) : Bool := charsLt a.data b.data

/-- The method `QMap::value(key, defaultValue)`. -/
def QMap.valueD : QVariantMap → String → QVariant → QVariant
  | [], _, d => d
  | (k', v) :: rest, k, d => if k' = k then v else QMap.valueD rest k d

/-- The method `QMap::value(key)`; the default is the invalid QVariant. -/
def QMap.value (m : QVariantMap) (k : String) : QVariant := QMap.valueD m k .null

/-- The method `QMap::contains`. -/
def QMap.contains : QVariantMap → String → Bool
  | [], _ => false
  | (k', _) :: rest, k => if k' = k then true else QMap.contains rest k

/-- The assignment `m[k] = v` (`QMap::insert`): replaces the value of an existing key. -/
def QMap.insert : QVariantMap → String → QVariant → QVariantMap
  | [], k, v => [(k, v)]
  | (k', v') :: rest, k, v =>
    if keyLt k k' then (k, v) :: (k', v') :: rest
    else if k = k' then (k, v) :: rest
    else (k', v') :: QMap.insert rest k v

/-- The initializer-list constructor `QVariantMap{{k1, v1}, ...}`. -/
def QMap.ofList (kvs : List (String × QVariant)) : QVariantMap :=
  kvs.foldl (fun m kv => QMap.insert m kv.1 kv.2) []

/-! ## V4Helpers -/

/-- The loop of `V4Helpers::getNestedValue`, from the current value on. -/
def getNestedValueFrom (defaultValue : QVariant) : QVariant → List String → QVariant
  | current, [] => current
  | current, key :: path =>
    if !current.canConvertMap then defaultValue
    else if !QMap.contains current.toMap key then defaultValue
    else getNestedValueFrom defaultValue (QMap.value current.toMap key) path

/-- The function `V4Helpers::getNestedValue` with an explicit default. -/
def V4Helpers.getNestedValueD (map : QVariantMap) (path : List String)
    (defaultValue : QVariant) : QVariant :=
  getNestedValueFrom defaultValue (.map map) path

/-- The function `V4Helpers::getNestedValue` with the default `QVariant()`. -/
def V4Helpers.getNestedValue (map : QVariantMap) (path : List String) : QVariant :=
  V4Helpers.getNestedValueD map path .null

/-! ## The pending-request table -/

/-- The static table `s_origCdpRequests`, a `QHash<int, QVariantMap>`. -/
abbrev OrigCdpRequests := List (Int × QVariantMap)

/-- The method `QHash::contains`. -/
def QHash.contains (t : OrigCdpRequests) (id : Int) : Bool := t.any (fun e => e.1 == id)

/-- The method `QHash::value`: the stored mapping, or an empty one. -/
def QHash.value : OrigCdpRequests → Int → QVariantMap
  | [], _ => []
  | (k, v) :: rest, id => if k = id then v else QHash.value rest id

/-- The method `QHash::remove`. -/
def QHash.remove (t : OrigCdpRequests) (id : Int) : OrigCdpRequests :=
  t.filter (fun e => e.1 != id)

/-- The method `QHash::insert`: a key is held once, a second insert replaces the value. -/
def QHash.insert (t : OrigCdpRequests) (id : Int) (v : QVariantMap) : OrigCdpRequests :=
  (id, v) :: QHash.remove t id

/-- The method `QHash::take`: the stored value and the table without the key. -/
def QHash.take (t : OrigCdpRequests) (id : Int) : QVariantMap × OrigCdpRequests :=
  (QHash.value t id, QHash.remove t id)

/-- Number of entries held under a key. -/
def QHash.countKey (t : OrigCdpRequests) (id : Int) : Nat := (t.filter (fun e => e.1 == id)).length

/-- The function `V4CdpMapper::storeOrigCdpRequest`. -/
def V4CdpMapper.storeOrigCdpRequest (t : OrigCdpRequests) (id : Int) (cdpRequest : QVariantMap) :
    OrigCdpRequests :=
  QHash.insert t id cdpRequest

/-- The function `V4CdpMapper::takeOrigCdpRequest`: the result and the table afterwards. -/
def V4CdpMapper.takeOrigCdpRequest (t : OrigCdpRequests) (id : Int) :
    QVariantMap × OrigCdpRequests :=
  if !QHash.contains t id then ([], t)
  else QHash.take t id

/-! ## V4CdpMapper: requests -/

/-- The key `MAPPER_METADATA`. -/
abbrev MAPPER_METADATA : String := "_mapper_metadata"

/-- The key `INTERNAL_MAPPER`. -/
abbrev INTERNAL_MAPPER : String := "_mapper_internal"

/-- The key `MAPPER_PASSTHROUGH`. -/
abbrev MAPPER_PASSTHROUGH : String := "_mapper_passthrough"

/-- The module name `V4CdpMapper::Modules::Debugger`. -/
abbrev V4CdpMapper.Modules.Debugger : String := "Debugger"

/-- The module name `V4CdpMapper::Modules::Runtime`. -/
abbrev V4CdpMapper.Modules.Runtime : String := "Runtime"

/-- The enumeration `V4CdpMapper::V4OnlyCommands`. -/
inductive V4CdpMapper.V4OnlyCommands where
  | GetContextCount
  | GetContextInfo
  | GetScripts
  | GetScriptsDelta
  | ScriptsCheckpoint
  | RunToLocation
  | RunToLocationById
  | GetThisObject
  | Request
  | None
deriving DecidableEq, Repr

/-- The cast `static_cast<int>` of a `V4OnlyCommands` enumerator. -/
def V4CdpMapper.V4OnlyCommands.toInt : V4CdpMapper.V4OnlyCommands → Int
  | .GetContextCount => 0
  | .GetContextInfo => 1
  | .GetScripts => 2
  | .GetScriptsDelta => 3
  | .ScriptsCheckpoint => 4
  | .RunToLocation => 5
  | .RunToLocationById => 6
  | .GetThisObject => 7
  | .Request => 8
  | .None => 9

/-- The helper `createNoOpCdpToV4`: fills `v4Request` in place. -/
def createNoOpCdpToV4 (v4Request cdpRequest : QVariantMap) : QVariantMap :=
  let v4Request := QMap.insert v4Request "ID" (QMap.value cdpRequest "id")
  let v4Request := QMap.insert v4Request "Command" (.map (QMap.ofList [("type", .str "NoOp")]))
  QMap.insert v4Request MAPPER_PASSTHROUGH (.bool true)

/-- The function `V4CdpMapper::mapCdpToV4Request_helper_evaluate`. -/
def V4CdpMapper.mapCdpToV4Request_helper_evaluate (method : String) (cdpRequest : QVariantMap) :
    QVariantMap :=
  let params := (QMap.value cdpRequest "params").toMap
  let id := (QMap.value cdpRequest "id").toInt
  if method ≠ "Runtime.evaluate" ∧ method ≠ "Debugger.evaluateOnCallFrame" then []
  else
    let v4 := QMap.insert [] "ID" (.num id)
    let cmd := QMap.insert [] "type" (.str "Evaluate")
    if method = "Runtime.evaluate" then
      let attrs := QMap.insert [] "program" (QMap.value params "expression")
      let cmd := QMap.insert cmd "attributes" (.map attrs)
      QMap.insert v4 "Command" (.map cmd)
    else
      let expr := (QMap.value params "expression").toString
      if expr = "this" then
        let attrs := QMap.insert [] "contextIndex" (.num (QMap.value params "callFrameId").toInt)
        let cmd := QMap.insert cmd "type" (.str "GetThisObject")
        let v4 := QMap.insert v4 INTERNAL_MAPPER (.num V4OnlyCommands.GetThisObject.toInt)
        let cmd := QMap.insert cmd "attributes" (.map attrs)
        QMap.insert v4 "Command" (.map cmd)
      else
        let attrs := QMap.insert [] "program" (.str expr)
        let attrs :=
          QMap.insert attrs "contextIndex" (.str (QMap.value params "callFrameId").toString)
        let cmd := QMap.insert cmd "attributes" (.map attrs)
        QMap.insert v4 "Command" (.map cmd)

/-- The function `V4CdpMapper::v4Request_scripts`. -/
def V4CdpMapper.v4Request_scripts (method : V4CdpMapper.V4OnlyCommands) (id : Int) (since : Int) :
    QVariantMap :=
  let v4Request := QMap.insert [] "ID" (.num id)
  let v4Request := QMap.insert v4Request "Command" .null
  match method with
  | .GetScripts =>
    QMap.insert v4Request "Command" (.map (QMap.ofList [("type", .str "GetScripts")]))
  | .ScriptsCheckpoint =>
    QMap.insert v4Request "Command" (.map (QMap.ofList [("type", .str "ScriptsCheckpoint")]))
  | .GetScriptsDelta =>
    let attrs := QMap.insert [] "since" (.num since)
    QMap.insert v4Request "Command"
      (.map (QMap.ofList [("type", .str "GetScriptsDelta"), ("attributes", .map attrs)]))
  | _ => []

/-- The function `V4CdpMapper::mapCdpToV4Request_debugger`: the backend command and the CDP
request as the call leaves it. -/
def V4CdpMapper.mapCdpToV4Request_debugger (cdpRequest : QVariantMap) :
    QVariantMap × QVariantMap :=
  let v4Request := QMap.insert [] "ID" (QMap.value cdpRequest "id")
  let v4Request := QMap.insert v4Request "Command" .null
  let method := (QMap.value cdpRequest "method").toString
  let params := (QMap.value cdpRequest "params").toMap
  let handled (v4 : QVariantMap) : QVariantMap × QVariantMap :=
    (v4, QMap.insert cdpRequest MAPPER_METADATA (.str Modules.Debugger))
  let command (c : QVariantMap) : QVariantMap × QVariantMap :=
    handled (QMap.insert v4Request "Command" (.map c))
  if method = "Debugger.enable" then command (QMap.ofList [("type", .str "Attach")])
  else if method = "Debugger.disable" then command (QMap.ofList [("type", .str "Detach")])
  else if method = "Debugger.pause" then command (QMap.ofList [("type", .str "Interrupt")])
  else if method = "Debugger.resume" then command (QMap.ofList [("type", .str "Continue")])
  else if method = "Debugger.stepInto" then command (QMap.ofList [("type", .str "StepInto")])
  else if method = "Debugger.stepOver" then command (QMap.ofList [("type", .str "StepOver")])
  else if method = "Debugger.stepOut" then command (QMap.ofList [("type", .str "StepOut")])
  else if method = "Debugger.setBreakpointByUrl" then
    let bpData := QMap.ofList [
      ("fileName", .str (normalizeScriptName (QMap.value params "url").toString)),
      ("lineNumber", QMap.value params "lineNumber"),
      ("condtion", QMap.value params "condition"),
      ("enabled", .bool true)]
    let attributes := QMap.insert [] "breakpointData" (.map bpData)
    command (QMap.ofList [("type", .str "SetBreakpoint"), ("attributes", .map attributes)])
  else if method = "Debugger.removeBreakpoint" then
    let attributes := QMap.ofList [("breakpointId", QMap.value params "breakpointId")]
    command (QMap.ofList [("type", .str "DeleteBreakpoint"), ("attributes", .map attributes)])
  else if method = "Debugger.getPossibleBreakpoints" then
    command (QMap.ofList [("type", .str "GetBreakpoints")])
  else if method = "Debugger.getScriptSource" then
    let attributes := QMap.ofList [("scriptId", QMap.value params "scriptId")]
    command (QMap.ofList [("type", .str "GetScriptData"), ("attributes", .map attributes)])
  else if method = "Debugger.getStackTrace" then
    command (QMap.ofList [("type", .str "GetBacktrace")])
  else if method = "Debugger.setPauseOnExceptions" ∨
      method = "Debugger.setAsyncCallStackDepth" ∨
      method = "Debugger.setBlackboxPatterns" then
    handled (createNoOpCdpToV4 v4Request cdpRequest)
  else if method = "Debugger.evaluateOnCallFrame" then
    handled (mapCdpToV4Request_helper_evaluate method cdpRequest)
  else ([], cdpRequest)

/-- The function `V4CdpMapper::mapCdpToV4Request_runtime`: the backend command and the CDP
request as the call leaves it. -/
def V4CdpMapper.mapCdpToV4Request_runtime (cdpRequest : QVariantMap) :
    QVariantMap × QVariantMap :=
  let v4Request := QMap.insert [] "ID" (QMap.value cdpRequest "id")
  let v4Request := QMap.insert v4Request "Command" .null
  let method := (QMap.value cdpRequest "method").toString
  let params := (QMap.value cdpRequest "params").toMap
  let handled (v4 : QVariantMap) : QVariantMap × QVariantMap :=
    (v4, QMap.insert cdpRequest MAPPER_METADATA (.str Modules.Runtime))
  let command (c : QVariantMap) : QVariantMap × QVariantMap :=
    handled (QMap.insert v4Request "Command" (.map c))
  if method = "Runtime.evaluate" then
    handled (mapCdpToV4Request_helper_evaluate method cdpRequest)
  else if method = "Runtime.getProperties" then
    let attributes := QMap.ofList [("iteratorId", QMap.value params "objectId")]
    command (QMap.ofList [("type", .str "GetPropertiesByIterator"),
      ("attributes", .map attributes)])
  else if method = "Runtime.callFunctionOn" then
    let attributes := QMap.ofList [("scriptValue", .map (QMap.ofList [
      ("type", .str "ObjectValue"), ("value", QMap.value params "functionDeclaration")]))]
    command (QMap.ofList [("type", .str "ScriptValueToString"), ("attributes", .map attributes)])
  else if method = "Runtime.addBinding" ∨
      method = "Runtime.removeBinding" ∨
      method = "Runtime.releaseObject" ∨
      method = "Runtime.releaseObjectGroup" ∨
      method = "Runtime.getHeapUsage" ∨
      method = "Runtime.awaitPromise" then
    handled (createNoOpCdpToV4 v4Request cdpRequest)
  else ([], cdpRequest)

/-- The variables the lambda `tryMap` of the dispatcher captures by reference. -/
structure MapCdpState where
  v4 : QVariantMap
  cdpRequest : QVariantMap
  table : OrigCdpRequests

/-- The lambda `tryMap` inside `V4CdpMapper::mapCdpToV4Request`. -/
def V4CdpMapper.tryMap (mapper : QVariantMap → QVariantMap × QVariantMap) (s : MapCdpState) :
    Bool × MapCdpState :=
  let r := mapper s.cdpRequest
  if QMap.contains r.2 MAPPER_METADATA then
    (true, { v4 := r.1, cdpRequest := r.2,
             table := storeOrigCdpRequest s.table (QMap.value r.2 "id").toInt r.2 })
  else
    (false, { v4 := r.1, cdpRequest := r.2, table := s.table })

/-- The dispatcher `V4CdpMapper::mapCdpToV4Request`: the returned command together with the
request and the pending-request table as the call leaves them. -/
def V4CdpMapper.mapCdpToV4Request (cdpRequest : QVariantMap) (table : OrigCdpRequests) :
    QVariantMap × QVariantMap × OrigCdpRequests :=
  let s0 : MapCdpState := { v4 := [], cdpRequest := cdpRequest, table := table }
  let r1 := tryMap mapCdpToV4Request_debugger s0
  if r1.1 then (r1.2.v4, r1.2.cdpRequest, r1.2.table)
  else
    let r2 := tryMap mapCdpToV4Request_runtime r1.2
    if r2.1 then (r2.2.v4, r2.2.cdpRequest, r2.2.table)
    else ([], r2.2.cdpRequest, r2.2.table)

/-! ## V4CdpMapper: responses -/

/-- The string branch of the frame loop in `mapV4ToCdpResponse_helper_stack`: the naive parse
of `func at file:line`. -/
def stackFrameOfString (s : String) : QVariantMap :=
  let parsed : String × String × Int :=
    match QString.indexOf s " at " with
    | some atPos =>
      let rest := QString.mid s (atPos + 4)
      match QString.lastIndexOf rest ':' with
      | some colon =>
        (QString.left s atPos, QString.left rest colon,
          (QString.toInt (QString.mid rest (colon + 1))).getD 0)
      | none => (QString.left s atPos, rest, 0)
    | none => ("", "", 0)
  let cf := QMap.insert [] "functionName" (.str parsed.1)
  let cf := QMap.insert cf "url" (.str parsed.2.1)
  QMap.insert cf "lineNumber" (.num parsed.2.2)

/-- The map branch of the frame loop in `mapV4ToCdpResponse_helper_stack`. -/
def stackFrameOfMap (fm : QVariantMap) : QVariantMap :=
  let cf := QMap.insert [] "functionName" (QMap.value fm "functionName")
  let cf := QMap.insert cf "url" (QMap.value fm "fileName")
  QMap.insert cf "lineNumber" (QMap.value fm "lineNumber")

/-- One round of the frame loop: what the frame appends to `callFrames`, if anything. -/
def stackFrame (f : QVariant) : Option QVariant :=
  if f.isString then some (.map (stackFrameOfString f.toString))
  else if f.canConvertMap then some (.map (stackFrameOfMap f.toMap))
  else none

/-- The function `V4CdpMapper::mapV4ToCdpResponse_helper_stack`. -/
def V4CdpMapper.mapV4ToCdpResponse_helper_stack (v4Response origCdpRequest : QVariantMap) :
    QVariantMap :=
  let id := (QMap.value v4Response "ID").toInt
  let cdp := QMap.insert [] "id" (.num id)
  let method := (QMap.value origCdpRequest "method").toString
  if method = "Debugger.getStackTrace" then
    let frames := (QMap.value v4Response "Result").toList
    let callFrames := frames.filterMap stackFrame
    QMap.insert cdp "result" (.map (QMap.ofList [("callFrames", .list callFrames)]))
  else []

/-- The function `V4CdpMapper::mapV4ToCdpResponse_debugger`. -/
def V4CdpMapper.mapV4ToCdpResponse_debugger (v4Response origCdpRequest : QVariantMap) :
    QVariantMap :=
  let method := (QMap.value origCdpRequest "method").toString
  let cdpResponse := QMap.insert [] "id" (QMap.value v4Response "ID")
  let v4Result := (QMap.value v4Response "Result").toMap
  if method = "Debugger.getScriptSource" then
    let result := QMap.insert [] "scriptSource"
      (V4Helpers.getNestedValue v4Response ["Result", "result", "contents"])
    QMap.insert cdpResponse "result" (.map result)
  else if method = "Debugger.removeBreakpoint" then
    QMap.insert cdpResponse "result" (.map [])
  else if method = "Debugger.setBreakpointByUrl" then
    let scriptId := (V4Helpers.getNestedValue v4Response ["Result", "result"]).toIntOk
    if scriptId.2 then
      let result := QMap.insert [] "breakpointId" (.str (QString.number scriptId.1))
      QMap.insert cdpResponse "result" (.map result)
    else
      let unknownScript := (V4Helpers.getNestedValue origCdpRequest ["params", "url"]).toString
      QMap.insert cdpResponse "error" (.map (QMap.ofList [
        ("code", .num (-32000)),
        ("message", .str (QString.arg "No script matching %1" unknownScript))]))
  else if method = "Debugger.getStackTrace" then
    mapV4ToCdpResponse_helper_stack v4Response origCdpRequest
  else if method = "Debugger.getPossibleBreakpoints" then
    let v4List := (V4Helpers.getNestedValue v4Response ["Result", "result"]).toList
    let outList := v4List.map (fun b =>
      let bm := b.toMap
      let e := QMap.insert [] "lineNumber" (QMap.value bm "lineNumber")
      QVariant.map (QMap.insert e "scriptId" (QMap.value bm "scriptId")))
    QMap.insert cdpResponse "result" (.map (QMap.ofList [("locations", .list outList)]))
  else if method = "Debugger.evaluateOnCallFrame" then
    let out :=
      if QMap.contains v4Result "type" ∧ (QMap.value v4Result "type").toString = "ObjectValue" then
        QMap.insert [] "result" (.map (QMap.ofList [
          ("type", .str "object"), ("objectId", QMap.value v4Result "value")]))
      else QMap.insert [] "result" (.map v4Result)
    QMap.insert cdpResponse "result" (.map out)
  else if method = "Debugger.setPauseOnExceptions" ∨
      method = "Debugger.setAsyncCallStackDepth" ∨
      method = "Debugger.setBlackboxPatterns" then
    QMap.insert cdpResponse "result" (.map [])
  else QMap.insert cdpResponse "result" (.map v4Result)

/-- The function `V4CdpMapper::mapV4ToCdpResponse_runtime`. -/
def V4CdpMapper.mapV4ToCdpResponse_runtime (v4Response origCdpRequest : QVariantMap) :
    QVariantMap :=
  let method := (QMap.value origCdpRequest "method").toString
  let cdpResponse := QMap.insert [] "id" (QMap.value v4Response "ID")
  let cdpResponse :=
    QMap.insert cdpResponse "_mapper_metadata" (QMap.value origCdpRequest "_mapper_metadata")
  if method = "Runtime.evaluate" then
    let result := QMap.insert [] "result" (.map (QMap.ofList [
      ("type", .str "string"), ("value", QMap.value v4Response "Result")]))
    QMap.insert cdpResponse "result" (.map result)
  else if method = "Runtime.getProperties" then
    let result := QMap.insert [] "result" (.list (QMap.value v4Response "Result").toList)
    QMap.insert cdpResponse "result" (.map result)
  else if method = "Runtime.callFunctionOn" then
    QMap.insert cdpResponse "result" (QMap.value v4Response "Result")
  else if method = "Runtime.addBinding" ∨
      method = "Runtime.removeBinding" ∨
      method = "Runtime.releaseObject" ∨
      method = "Runtime.releaseObjectGroup" ∨
      method = "Runtime.getHeapUsage" ∨
      method = "Runtime.awaitPromise" then
    QMap.insert cdpResponse "result" (.map [])
  else QMap.insert cdpResponse "result" (QMap.value v4Response "Result")

/-- The static table `mappers` of `mapV4ToCdpResponse`: module name to response mapper. -/
def V4CdpMapper.mappers (type : String) : Option (QVariantMap → QVariantMap → QVariantMap) :=
  if type = Modules.Debugger then some mapV4ToCdpResponse_debugger
  else if type = Modules.Runtime then some mapV4ToCdpResponse_runtime
  else none

/-- The dispatcher `V4CdpMapper::mapV4ToCdpResponse`: the CDP response and the pending-request
table as the call leaves it. -/
def V4CdpMapper.mapV4ToCdpResponse (v4Response : QVariantMap) (table : OrigCdpRequests) :
    QVariantMap × OrigCdpRequests :=
  let id := (QMap.value v4Response "ID").toInt
  if id < 0 then ([], table)
  else
    let taken := takeOrigCdpRequest table id
    let orig := taken.1
    if orig.isEmpty then
      let cdp := QMap.insert [] "id" (.num id)
      let cdp :=
        if QMap.contains v4Response "Result" then
          QMap.insert cdp "result" (QMap.value v4Response "Result")
        else if QMap.contains v4Response "Response" then
          QMap.insert cdp "result" (QMap.value v4Response "Response")
        else QMap.insert cdp "result" (.map [])
      (cdp, taken.2)
    else
      let type := (QMap.value orig MAPPER_METADATA).toString
      match mappers type with
      | some mapper => (mapper v4Response orig, taken.2)
      | none =>
        let cdp := QMap.insert [] "id" (.num id)
        (QMap.insert cdp "result" (QMap.value v4Response "Result"), taken.2)

/-! ## Effects -/

/-- What the adapter does to the outside world. -/
inductive Effect where
  | sendTextMessage (sock : Nat) (doc : QVariant)
  | sendRequestToBackend (request : QVariant)
  | backendSyncCall (request : QVariant)
deriving Repr

/-! ## V4CdpMapper: events -/

/-- The function `V4CdpMapper::mapV4EventToCdp`: the CDP notification and the synchronous
backend calls made on the way. -/
def V4CdpMapper.mapV4EventToCdp (v4Resp : QVariantMap) (backendSyncCall : QVariant → QVariant) :
    QVariantMap × List Effect :=
  let v4Event := (QMap.value v4Resp "Event").toMap
  let type := (QMap.value v4Event "type").toString
  let attrs := (QMap.value v4Event "attributes").toMap
  let paused (reason : String) : QVariantMap :=
    let cdp := QMap.insert [] "method" (.str "Debugger.paused")
    QMap.insert cdp "params" (.map (QMap.ofList [
      ("reason", .str reason), ("callFrames", .list [])]))
  if type = "Interrupted" then (paused "interrupted", [])
  else if type = "Breakpoint" then
    let cdp := QMap.insert [] "method" (.str "Debugger.paused")
    let p := QMap.insert [] "reason" (.str "other")
    let hits := [QVariant.str (QMap.valueD attrs "breakPointId" (.num (-1))).toString]
    let p := QMap.insert p "hitBreakpoints" (.list hits)
    let p := QMap.insert p "callFrames" (.list [])
    (QMap.insert cdp "params" (.map p), [])
  else if type = "SteppingFinished" then (paused "step", [])
  else if type = "LocationReached" then (paused "location", [])
  else if type = "DebuggerInvocationRequest" then
    (paused "debuggerStatement DebuggerInvocationRequest", [])
  else if type = "Exception" then
    let cdp := QMap.insert [] "method" (.str "Runtime.exceptionThrown")
    let ed := QMap.insert [] "text" (.str (QMap.value attrs "message").toString)
    let ed := QMap.insert ed "exception" (QMap.value attrs "value")
    (QMap.insert cdp "params" (.map (QMap.ofList [("exceptionDetails", .map ed)])), [])
  else if type = "InlineEvalFinished" then
    let request := QMap.ofList [("method", .str "Debugger.getStackTrace")]
    let mapped := mapCdpToV4Request_debugger request
    let v4StackTraceReq := mapped.1
    let v4StackTraceResp := (backendSyncCall (.map v4StackTraceReq)).toMap
    let _cdpResponse := mapV4ToCdpResponse_helper_stack v4StackTraceResp mapped.2
    (paused "debuggerStatement InlineEvalFinished", [Effect.backendSyncCall (.map v4StackTraceReq)])
  else if type = "Trace" then
    let cdp := QMap.insert [] "method" (.str "Console.messageAdded")
    let msg := QMap.insert [] "text" (.str (QMap.value attrs "message").toString)
    let msg := QMap.insert msg "level" (.str (QMap.value attrs "level").toString)
    (QMap.insert cdp "params" (.map (QMap.ofList [("message", .map msg)])), [])
  else ([], [])

/-! ## V4CdpHelper -/

/-- The function `V4CdpHelper::cdpScriptParsedEventBuilder`; `sha256Hex` stands for the library
call `QCryptographicHash::hash(_, Sha256).toHex()`. -/
def V4CdpHelper.cdpScriptParsedEventBuilder (sha256Hex : String → String) (s : QVariantMap)
    (contextId : Int) (frontendName : String) : QVariantMap :=
  let contents := (QMap.value s "contents").toString
  let hash := sha256Hex contents
  let endLine := QString.count contents '\n'
  QMap.ofList [
    ("method", .str "Debugger.scriptParsed"),
    ("params", .map (QMap.ofList [
      ("scriptId", .str (QString.number (QMap.valueD s "id" (.num 1)).toInt)),
      ("url", .str (QString.arg (QString.arg "%1://%2" frontendName)
        (QMap.valueD s "fileName" (.str "main.js")).toString)),
      ("startLine", .num 0),
      ("startColumn", .num 0),
      ("endLine", .num endLine),
      ("endColumn", .num 0),
      ("executionContextId", .num contextId),
      ("hash", .str hash)]))]

/-! ## CdpDebuggerFrontend -/

/-- A client socket: its identity and whether `state()` is `ConnectedState`. -/
structure QWebSocket where
  sock : Nat
  connected : Bool
deriving DecidableEq, Repr

/-- The members of `CdpDebuggerFrontend` the handlers read. A `QPointer` that has become null
is `none`. -/
structure CdpDebuggerFrontend where
  m_getHandledByBackend : QVariant → QVariant
  m_frontendName : String
  m_responseClients : List (Option QWebSocket)
  sha256Hex : String → String

/-- The method `CdpDebuggerFrontend::sendToClient`. -/
def CdpDebuggerFrontend.sendToClient (client : Option QWebSocket) (doc : QVariant) :
    List Effect :=
  match client with
  | some c => if c.connected then [Effect.sendTextMessage c.sock doc] else []
  | none => []

/-- The method `CdpDebuggerFrontend::blockingV4BackendCall`: the reply and the call made. -/
def CdpDebuggerFrontend.blockingV4BackendCall (fe : CdpDebuggerFrontend)
    (request : QVariantMap) : QVariant × List Effect :=
  let request := QMap.insert request "ID" (.num 0)
  (fe.m_getHandledByBackend (.map request), [Effect.backendSyncCall (.map request)])

/-- The method `CdpDebuggerFrontend::createAndSentScriptParsedEvents`. -/
def CdpDebuggerFrontend.createAndSentScriptParsedEvents (fe : CdpDebuggerFrontend)
    (client : Option QWebSocket) : List Effect :=
  let v4Req := V4CdpMapper.v4Request_scripts .GetScripts 0 0
  let called := fe.blockingV4BackendCall v4Req
  let scripts := (QMap.value (QMap.value called.1.toMap "Result").toMap "result").toList
  let contextId : Int := 1
  called.2 ++ (scripts.map (fun scriptVar =>
    sendToClient client (.map (V4CdpHelper.cdpScriptParsedEventBuilder fe.sha256Hex
      scriptVar.toMap contextId (QString.toLower fe.m_frontendName))))).flatten

/-- The method `CdpDebuggerFrontend::sendInitialEvents`. -/
def CdpDebuggerFrontend.sendInitialEvents (fe : CdpDebuggerFrontend)
    (client : Option QWebSocket) : List Effect :=
  match client with
  | none => []
  | some c =>
    if !c.connected then []
    else
      let contextCreatedEvent := QMap.ofList [
        ("method", .str "Runtime.executionContextCreated"),
        ("params", .map (QMap.ofList [
          ("context", .map (QMap.ofList [
            ("id", .num 1),
            ("origin", .str (QString.arg "%1://javascript" (QString.toLower fe.m_frontendName))),
            ("name", .str (QString.arg "%1 JavaScript Context" fe.m_frontendName)),
            ("uniqueId",
              .str (QString.arg "%1-js-context" (QString.toLower fe.m_frontendName)))]))]))]
      sendToClient client (.map contextCreatedEvent) ++ fe.createAndSentScriptParsedEvents client

/-- The object after the non-const `QJsonObject::operator[]` was applied to it with `key`: a
key that was missing is now there, with the value null. -/
def QJsonObject.withKey (obj : QVariantMap) (key : String) : QVariantMap :=
  if QMap.contains obj key then obj else QMap.insert obj key .null

/-- The method `CdpDebuggerFrontend::onCdpMessageReceived`. The text frame is given by the
result `doc` of `QJsonDocument::fromJson` (`none` for a parse error). Returns the
pending-request table afterwards and the effects in program order. -/
def CdpDebuggerFrontend.onCdpMessageReceived (fe : CdpDebuggerFrontend)
    (table : OrigCdpRequests) (doc : Option QVariant) (client : Option QWebSocket) :
    OrigCdpRequests × List Effect :=
  match client with
  | none => (table, [])
  | some _ =>
    match doc with
    | none => (table, [])
    | some d =>
      if !d.canConvertMap then (table, [])
      else
        let cmd := d.toMap
        if QMap.contains cmd "id" then
          let id := QJsonValue.toInt (QMap.value cmd "id") (-1)
          if id = -1 then (table, [])
          else
            let method := QJsonValue.toString (QMap.value cmd "method")
            if method = "Runtime.enable" then
              let response := QMap.ofList [("id", .num id), ("result", .map [])]
              (table, sendToClient client (.map response))
            else if method = "Debugger.enable" then
              let response := QMap.ofList [("id", .num id), ("result", .map (QMap.ofList [
                ("debuggerId",
                  .str (QString.arg "%1-debugger-1" (QString.toLower fe.m_frontendName)))]))]
              (table, sendToClient client (.map response) ++
                fe.createAndSentScriptParsedEvents client)
            else if method = "Debugger.disable" then
              let response := QMap.ofList [("id", .num id), ("result", .map [])]
              (table, sendToClient client (.map response))
            else
              let cdpReq := QJsonObject.withKey cmd "method"
              let mapped := V4CdpMapper.mapCdpToV4Request cdpReq table
              let v4Map := mapped.1
              if QMap.contains v4Map MAPPER_PASSTHROUGH ∧
                  (QMap.value v4Map MAPPER_PASSTHROUGH).toBool then
                let cdpResponse := V4CdpMapper.mapV4ToCdpResponse v4Map mapped.2.2
                (cdpResponse.2, sendToClient client (.map cdpResponse.1))
              else if !v4Map.isEmpty then
                (mapped.2.2, [Effect.sendRequestToBackend (.map v4Map)])
              else
                let errorResp := QMap.ofList [("id", .num id), ("error", .map (QMap.ofList [
                  ("code", .num (-32601)), ("message", .str "Method not found")]))]
                (mapped.2.2, sendToClient client (.map errorResp))
        else (table, [])

/-- The method `CdpDebuggerFrontend::autoReplyForSomeEvents`: the returned flag and the
synchronous call made. -/
def CdpDebuggerFrontend.autoReplyForSomeEvents (fe : CdpDebuggerFrontend)
    (v4Resp : QVariantMap) : Bool × List Effect :=
  if (V4Helpers.getNestedValue v4Resp ["Event", "type"]).toString = "InlineEvalFinished" ∧
      (V4Helpers.getNestedValue v4Resp ["Event", "attributes", "message"]).toString
        = "undefined" then
    let v4Req := QMap.insert [] "Command" (.map (QMap.ofList [
      ("type", .str "Resume"), ("attributes", .map [])]))
    (true, (fe.blockingV4BackendCall v4Req).2)
  else (false, [])

/-- The loop `for (client : m_responseClients)` with its null check around `sendToClient`. -/
def CdpDebuggerFrontend.sendToAll (fe : CdpDebuggerFrontend) (doc : QVariant) : List Effect :=
  (fe.m_responseClients.map (fun client =>
    match client with
    | none => []
    | some c => sendToClient (some c) doc)).flatten

/-- The slot `CdpDebuggerFrontend::onBackendResponse`: the pending-request table afterwards
and the effects in program order. -/
def CdpDebuggerFrontend.onBackendResponse (fe : CdpDebuggerFrontend)
    (table : OrigCdpRequests) (response : QVariant) : OrigCdpRequests × List Effect :=
  if !response.canConvertMap then (table, [])
  else
    let v4Response := response.toMap
    let id := (QMap.valueD v4Response "ID" (.num (-1))).toInt
    if id = -1 then
      if QMap.contains v4Response "Event" then
        let auto := fe.autoReplyForSomeEvents v4Response
        if auto.1 then (table, auto.2)
        else
          let cdpEvent := V4CdpMapper.mapV4EventToCdp v4Response fe.m_getHandledByBackend
          if !cdpEvent.1.isEmpty then
            (table, auto.2 ++ cdpEvent.2 ++ fe.sendToAll (.map cdpEvent.1))
          else (table, auto.2 ++ cdpEvent.2)
      else (table, [])
    else
      let cdpResp := V4CdpMapper.mapV4ToCdpResponse v4Response table
      (cdpResp.2, fe.sendToAll (.map cdpResp.1))

/-! ## Sessions: sequences of handler calls -/

/-- What the adapter is handed: a text frame of a client, or a message of the backend. -/
inductive Incoming where
  | cdpMessage (doc : Option QVariant) (client : Option QWebSocket)
  | backendResponse (response : QVariant)

/-- The pending-request table between two handler calls, next to the ids of the commands that
were forwarded to the backend and have not been answered yet. -/
structure Session where
  table : OrigCdpRequests
  inFlight : List Int

/-- The state before any message: empty table, nothing in flight. -/
def Session.initial : Session := { table := [], inFlight := [] }

/-- The correlator ids of the commands a handler call emitted with `sendRequestToBackend`. -/
def forwardedIds : List Effect → List Int
  | [] => []
  | .sendRequestToBackend request :: es => (QMap.value request.toMap "ID").toInt :: forwardedIds es
  | _ :: es => forwardedIds es

/-- The correlator id of the command a backend message answers: its integer `ID`, if it has
one (an event has none). -/
def answeredId (response : QVariant) : Option Int :=
  match QMap.value response.toMap "ID" with
  | .num i => some i
  | _ => none

/-- One handler call: a forwarded command becomes in flight, a backend response answers the
command in flight with its id. -/
def Session.step (fe : CdpDebuggerFrontend) (s : Session) : Incoming → Session
  | .cdpMessage doc client =>
    let r := fe.onCdpMessageReceived s.table doc client
    { table := r.1, inFlight := s.inFlight ++ forwardedIds r.2 }
  | .backendResponse response =>
    let r := fe.onBackendResponse s.table response
    { table := r.1,
      inFlight :=
        match answeredId response with
        | some i => s.inFlight.erase i
        | none => s.inFlight }

/-- The handler calls of a sequence, in order. -/
def Session.run (fe : CdpDebuggerFrontend) (s : Session) (es : List Incoming) : Session :=
  es.foldl (Session.step fe) s

/-- The backend message is a mapping whose `ID` is the integer id of a command in flight. -/
def Session.answers (s : Session) (response : QVariant) : Bool :=
  response.canConvertMap &&
    match answeredId response with
    | some i => s.inFlight.contains i
    | none => false

/-- Every backend response of the sequence answers a command that is in flight when it
arrives. -/
def Session.answering (fe : CdpDebuggerFrontend) : Session → List Incoming → Bool
  | _, [] => true
  | s, .cdpMessage doc client :: es =>
    Session.answering fe (s.step fe (.cdpMessage doc client)) es
  | s, .backendResponse response :: es =>
    s.answers response && Session.answering fe (s.step fe (.backendResponse response)) es

/-- The frame, when it is a JSON object, does not carry the reserved key `_mapper_metadata`,
and its `id`, when it is a number, is non-negative and not the id of a command in flight. -/
def Session.freshRequest (s : Session) (doc : Option QVariant) : Bool :=
  match doc with
  | some (.map cmd) =>
    !QMap.contains cmd MAPPER_METADATA &&
      match QMap.value cmd "id" with
      | .num n => decide (0 ≤ n) && !s.inFlight.contains n
      | _ => true
  | _ => true

/-- Every backend response of the sequence answers a command in flight, and every client
frame is a fresh request. -/
def Session.admissible (fe : CdpDebuggerFrontend) : Session → List Incoming → Bool
  | _, [] => true
  | s, .cdpMessage doc client :: es =>
    s.freshRequest doc && Session.admissible fe (s.step fe (.cdpMessage doc client)) es
  | s, .backendResponse response :: es =>
    s.answers response && Session.admissible fe (s.step fe (.backendResponse response)) es

/-- An adapter instance for concrete runs: two connected clients, one closed socket and a
backend that knows no scripts. -/
def demoFrontend : CdpDebuggerFrontend :=
  { m_getHandledByBackend := fun _ => .null
    m_frontendName := "JsRunner"
    m_responseClients := [some { sock := 1, connected := true },
                          some { sock := 2, connected := true },
                          some { sock := 3, connected := false }]
    sha256Hex := fun _ => "" }

/-- The methods `mapCdpToV4Request_debugger` maps to a command for the backend. -/
def debuggerForwarded : List String :=
  ["Debugger.enable", "Debugger.disable", "Debugger.pause", "Debugger.resume",
   "Debugger.stepInto", "Debugger.stepOver", "Debugger.stepOut", "Debugger.setBreakpointByUrl",
   "Debugger.removeBreakpoint", "Debugger.getPossibleBreakpoints", "Debugger.getScriptSource",
   "Debugger.getStackTrace", "Debugger.evaluateOnCallFrame"]

/-- The Debugger methods answered through the NoOp passthrough. -/
def debuggerNoOp : List String :=
  ["Debugger.setPauseOnExceptions", "Debugger.setAsyncCallStackDepth",
   "Debugger.setBlackboxPatterns"]

/-- The methods `mapCdpToV4Request_runtime` maps to a command for the backend. -/
def runtimeForwarded : List String :=
  ["Runtime.evaluate", "Runtime.getProperties", "Runtime.callFunctionOn"]

/-- The Runtime methods answered through the NoOp passthrough. -/
def runtimeNoOp : List String :=
  ["Runtime.addBinding", "Runtime.removeBinding", "Runtime.releaseObject",
   "Runtime.releaseObjectGroup", "Runtime.getHeapUsage", "Runtime.awaitPromise"]

/-- The methods `onCdpMessageReceived` answers itself, before the mapper is tried. -/
def locallyHandled : List String := ["Runtime.enable", "Debugger.enable", "Debugger.disable"]

/-- The messages a handler call wrote to the socket `sock`, in order. -/
def sentTo (sock : Nat) : List Effect → List QVariant
  | [] => []
  | .sendTextMessage s doc :: es => if s = sock then doc :: sentTo sock es else sentTo sock es
  | _ :: es => sentTo sock es

/-- The requests a handler call passed to the backend, asynchronous or synchronous. -/
def backendRequests : List Effect → List QVariant
  | [] => []
  | .sendRequestToBackend r :: es => r :: backendRequests es
  | .backendSyncCall r :: es => r :: backendRequests es
  | _ :: es => backendRequests es

/-- The sockets of the registry that are in connected state, in registry order. -/
def connectedSocks : List (Option QWebSocket) → List Nat
  | [] => []
  | some c :: cs => if c.connected then c.sock :: connectedSocks cs else connectedSocks cs
  | none :: cs => connectedSocks cs

/-- Whether a message is a JSON object with an `id` field. -/
def hasId (doc : QVariant) : Bool := QMap.contains doc.toMap "id"

/-- The error reply of `onCdpMessageReceived` to a method no mapper knows. -/
def methodNotFound (id : Int) : QVariant :=
  .map [("error", .map [("code", .num (-32601)), ("message", .str "Method not found")]),
        ("id", .num id)]

/-- The table holds an entry exactly for the ids in flight, no id is in flight twice, and the
ids in flight are non-negative C++ ints. -/
def Session.consistent (s : Session) : Prop :=
  (∀ id : Int, QHash.contains s.table id = true ↔ id ∈ s.inFlight) ∧
  s.inFlight.Nodup ∧
  ∀ id ∈ s.inFlight, 0 ≤ id ∧ inIntRange id

/-- A `Runtime.evaluate` request that already carries the reserved key `_mapper_metadata`. -/
def presetMetadataRequest : QVariantMap :=
  [("_mapper_metadata", .str "x"), ("id", .num 1), ("method", .str "Runtime.evaluate"),
   ("params", .map [("expression", .str "1+1")])]

/-- The request of scenario S1:
`{"id":52,"method":"Debugger.setBreakpointByUrl","params":{"lineNumber":2,
"url":"jsrunner://test.js","columnNumber":0,"condition":""}}`. -/
def setBreakpointRequest : QVariantMap :=
  [("id", .num 52), ("method", .str "Debugger.setBreakpointByUrl"),
   ("params", .map [("columnNumber", .num 0), ("condition", .str ""), ("lineNumber", .num 2),
     ("url", .str "jsrunner://test.js")])]

/-- A session in which every frame is a fresh request and the response answers a command
in flight: `Debugger.pause` (id 7), `Runtime.addBinding` (id 8), then the reply to id 7. -/
def demoSession : List Incoming :=
  [.cdpMessage (some (.map [("id", .num 7), ("method", .str "Debugger.pause")]))
      (some { sock := 1, connected := true }),
   .cdpMessage (some (.map [("id", .num 8), ("method", .str "Runtime.addBinding")]))
      (some { sock := 2, connected := true }),
   .backendResponse (.map [("ID", .num 7), ("Result", .map [])])]

/-- One frame: a NoOp passthrough request with the negative id -5. -/
def negativeIdSession : List Incoming :=
  [.cdpMessage (some (.map [("id", .num (-5)), ("method", .str "Runtime.addBinding")]))
      (some { sock := 1, connected := true })]

/-- One frame: an unmapped method on a request that carries the key `_mapper_metadata`. -/
def presetMetadataSession : List Incoming :=
  [.cdpMessage (some (.map [("_mapper_metadata", .str "x"), ("id", .num 1),
      ("method", .str "Profiler.enable")])) (some { sock := 1, connected := true })]

/-- Two forwarded requests that use the id 1, then one backend reply with that id. -/
def reusedIdSession : List Incoming :=
  [.cdpMessage (some (.map [("id", .num 1), ("method", .str "Debugger.pause")]))
      (some { sock := 1, connected := true }),
   .cdpMessage (some (.map [("id", .num 1), ("method", .str "Debugger.resume")]))
      (some { sock := 1, connected := true }),
   .backendResponse (.map [("ID", .num 1), ("Result", .map [])])]

/-- The Debugger methods whose backend command carries a type and nothing else, each with
that type. -/
def debuggerPlainCommands : List (String × String) :=
  [("Debugger.enable", "Attach"), ("Debugger.disable", "Detach"),
   ("Debugger.pause", "Interrupt"), ("Debugger.resume", "Continue"),
   ("Debugger.stepInto", "StepInto"), ("Debugger.stepOver", "StepOver"),
   ("Debugger.stepOut", "StepOut"), ("Debugger.getPossibleBreakpoints", "GetBreakpoints"),
   ("Debugger.getStackTrace", "GetBacktrace")]

/-- The backend event types that become a bare `Debugger.paused`, each with its reason. -/
def pausedReasons : List (String × String) :=
  [("Interrupted", "interrupted"), ("SteppingFinished", "step"),
   ("LocationReached", "location"),
   ("DebuggerInvocationRequest", "debuggerStatement DebuggerInvocationRequest")]

/-- The handler `onCdpMessageReceived` applied to the frames of one client in turn: the table
after the last frame and all effects in order. -/
def CdpDebuggerFrontend.onCdpMessagesReceived (fe : CdpDebuggerFrontend) :
    OrigCdpRequests → List (Option QVariant) → Option QWebSocket → OrigCdpRequests × List Effect
  | table, [], _ => (table, [])
  | table, doc :: docs, client =>
    let r := fe.onCdpMessageReceived table doc client
    let rest := CdpDebuggerFrontend.onCdpMessagesReceived fe r.1 docs client
    (rest.1, r.2 ++ rest.2)

/-- A Runtime NoOp passthrough request that already carries the key `_mapper_metadata`. -/
def presetMetadataNoOp : QVariantMap :=
  [("_mapper_metadata", .str "x"), ("id", .num 5), ("method", .str "Runtime.addBinding")]

/-- An adapter whose backend answers every synchronous call with two scripts; the frontend
name holds a place marker. -/
def scriptsFrontend : CdpDebuggerFrontend :=
  { m_getHandledByBackend := fun _ => .map [("Result", .map [("result", .list [
      .map [("contents", .str "a\nb\n"), ("fileName", .str "test.js"), ("id", .num 4)],
      .map [("contents", .str ""), ("fileName", .str "lib.js"), ("id", .num 5)]])])]
    m_frontendName := "JsRunner"
    m_responseClients := [some { sock := 1, connected := true }]
    sha256Hex := fun _ => "" }

/-- The event types `mapV4EventToCdp` has a branch for. -/
def mappedEventTypes : List String :=
  ["Interrupted", "Breakpoint", "SteppingFinished", "LocationReached",
   "DebuggerInvocationRequest", "Exception", "InlineEvalFinished", "Trace"]

/-- A backend event message of the given type and attributes; it has no `ID`. -/
def eventMessage (type : String) (attributes : QVariantMap) : QVariantMap :=
  [("Event", .map [("attributes", .map attributes), ("type", .str type)])]

/-- Descent along a key sequence in the words of the specification: each step needs a
mapping that contains the next key; `none` as soon as a step is not a mapping or lacks the
key. The empty key sequence reaches the start value. -/
def descend : QVariant → List String → Option QVariant
  | current, [] => some current
  | .map m, key :: path =>
    match m.lookup key with
    | some v => descend v path
    | none => none
  | _, _ :: _ => none

/-- The slot `CdpDebuggerFrontend::onV4EventAvailable`: the loop
`while (remainingEvents-- > 0)` around `wrapperSendRequestToBackend`, the counter being a
32-bit int. -/
def CdpDebuggerFrontend.onV4EventAvailable (fe : CdpDebuggerFrontend)
    (remainingEvents : Int) : List Effect :=
  if remainingEvents > 0 then
    Effect.sendRequestToBackend (.map (QMap.ofList [("Control", .str "PullEvent")])) ::
      CdpDebuggerFrontend.onV4EventAvailable fe (toInt32 (remainingEvents - 1))
  else []
termination_by remainingEvents.toNat
decreasing_by
  simp only [toInt32]
  omega

/-- The methods that reach the last branch ("Default passthrough") of
`mapV4ToCdpResponse_debugger` among those the Debugger request mapper forwards. -/
def debuggerDefaultResponse : List String :=
  ["Debugger.enable", "Debugger.disable", "Debugger.pause", "Debugger.resume",
   "Debugger.stepInto", "Debugger.stepOver", "Debugger.stepOut"]

/-- A `Runtime.evaluate` request: `{"id":3,"method":"Runtime.evaluate",
"params":{"expression":"1+1"}}`. -/
def evaluateRequest : QVariantMap :=
  [("id", .num 3), ("method", .str "Runtime.evaluate"),
   ("params", .map [("expression", .str "1+1")])]

/-- The body of `V4CdpMapper::mapCdpToV4Request` with the two `tryMap` calls made on the
mappers `first` and `second`, in that order. -/
def V4CdpMapper.mapCdpToV4RequestIn
    (first second : QVariantMap → QVariantMap × QVariantMap)
    (cdpRequest : QVariantMap) (table : OrigCdpRequests) :
    QVariantMap × QVariantMap × OrigCdpRequests :=
  let s0 : MapCdpState := { v4 := [], cdpRequest := cdpRequest, table := table }
  let r1 := tryMap first s0
  if r1.1 then (r1.2.v4, r1.2.cdpRequest, r1.2.table)
  else
    let r2 := tryMap second r1.2
    if r2.1 then (r2.2.v4, r2.2.cdpRequest, r2.2.table)
    else ([], r2.2.cdpRequest, r2.2.table)

/-- Whether a frame of a backend stack trace is one the frame loop converts: a string or a
mapping. -/
def isStackFrame (f : QVariant) : Bool := f.isString || f.canConvertMap

/-- The call frame the frame loop builds for a frame it converts. -/
def convertedFrame (f : QVariant) : QVariant :=
  if f.isString then .map (stackFrameOfString f.toString) else .map (stackFrameOfMap f.toMap)

/-- A `Runtime.evaluate` request that already carries the key `_mapper_metadata`. -/
def presetMetadataEvaluate : QVariantMap :=
  [("_mapper_metadata", .str "x"), ("id", .num 1), ("method", .str "Runtime.evaluate"),
   ("params", .map [("expression", .str "1+1")])]

/-- The WebSocket upgrade verifier registered by `CdpDebuggerFrontend::setupHttpRoutes`:
`true` for `accept()`, `false` for `passToNext()`. The argument is `req.url().path()`. -/
def CdpDebuggerFrontend.upgradeVerifier (fe : CdpDebuggerFrontend) (path : String) : Bool :=
  path == QString.arg "/devtools/page/%1-js" (QString.toLower fe.m_frontendName) ||
  path == QString.arg "/devtools/browser/%1-js" (QString.toLower fe.m_frontendName)

/-- The body of the route `/json/version` of `setupHttpRoutes`; `port` is the first server
port, a `quint16`, which `arg` prints in decimal. -/
def CdpDebuggerFrontend.jsonVersion (fe : CdpDebuggerFrontend) (port : Nat) : QVariant :=
  .map (QMap.ofList [
    ("Browser", .str (QString.arg "%1-CDP/1.0" fe.m_frontendName)),
    ("Protocol-Version", .str "1.3"),
    ("User-Agent", .str (QString.arg "%1 JavaScript Debugger" fe.m_frontendName)),
    ("V8-Version", .str "9.4.0"),
    ("webSocketDebuggerUrl",
      .str (QString.arg (QString.arg "ws://localhost:%1/devtools/browser/%2-js"
        (QString.number (port : Int))) (QString.toLower fe.m_frontendName)))])

/-- The body of the route `/json/list` of `setupHttpRoutes`: the array of targets. -/
def CdpDebuggerFrontend.jsonList (fe : CdpDebuggerFrontend) (port : Nat) : QVariant :=
  let target := QMap.ofList [
    ("id", .str (QString.arg "%1-js" (QString.toLower fe.m_frontendName))),
    ("title", .str (QString.arg "%1 JS Debugger" fe.m_frontendName)),
    ("type", .str "page"),
    ("description", .str (QString.arg "%1 V4 JavaScript Execution Context" fe.m_frontendName)),
    ("url", .str (QString.arg "%1://javascript" (QString.toLower fe.m_frontendName))),
    ("devtoolsFrontendUrl",
      .str (QString.arg (QString.arg
        "/devtools/inspector.html?ws=localhost:%1/devtools/page/%2-js"
        (QString.number (port : Int))) (QString.toLower fe.m_frontendName))),
    ("webSocketDebuggerUrl",
      .str (QString.arg (QString.arg "ws://localhost:%1/devtools/page/%2-js"
        (QString.number (port : Int))) (QString.toLower fe.m_frontendName)))]
  .list [.map target]

/-! ## QUrl -/

/-- Value of a hexadecimal digit. -/
def hexValue (c : Char) : Option Nat :=
  let n := c.toNat
  if 48 ≤ n ∧ n ≤ 57 then some (n - 48)
  else if 65 ≤ n ∧ n ≤ 70 then some (n - 55)
  else if 97 ≤ n ∧ n ≤ 102 then some (n - 87)
  else none

/-- Percent-decoding of a URL component: `%HH` becomes the character with the code `HH`.
Codes from 128 on stand for bytes of a multi-byte character and are left encoded here. -/
def percentDecode : List Char → List Char
  | [] => []
  | [c] => [c]
  | [c, a] => [c, a]
  | c :: a :: b :: rest =>
    if c = '%' then
      match hexValue a, hexValue b with
      | some x, some y =>
        if 16 * x + y < 128 then Char.ofNat (16 * x + y) :: percentDecode rest
        else c :: percentDecode (a :: b :: rest)
      | _, _ => c :: percentDecode (a :: b :: rest)
    else c :: percentDecode (a :: b :: rest)

/-- Whether a character ends the authority of a URL. -/
def endsAuthority (c : Char) : Bool := c == '/' || c == '?' || c == '#'

/-- Whether a character ends the path of a URL. -/
def endsPath (c : Char) : Bool := c == '?' || c == '#'

/-- The method `QUrl::path()` (fully decoded) on the text of a URL: what follows the scheme
`...://` and the authority, up to the first `?` or `#`, percent-decoded. For the URL a client
connects to this is `req.url().path()` of the request the server receives. -/
def QUrl.path (url : String) : String :=
  let afterScheme :=
    match QString.indexOf url "://" with
    | some i => url.data.drop (i + 3)
    | none => url.data
  let fromPath := afterScheme.dropWhile (fun c => !endsAuthority c)
  String.mk (percentDecode (fromPath.takeWhile (fun c => !endsPath c)))

/-- Whether a character passes unchanged from a URL into its path: not `?`, `#` or `%`. -/
def plainInPath (c : Char) : Bool := c != '?' && c != '#' && c != '%'

/-- The `webSocketDebuggerUrl` a client reads from the reply of `/json/list`. -/
def CdpDebuggerFrontend.pageUrl (fe : CdpDebuggerFrontend) (port : Nat) : String :=
  (QMap.value ((fe.jsonList port).toList.headD .null).toMap "webSocketDebuggerUrl").toString

/-- The `webSocketDebuggerUrl` a client reads from the reply of `/json/version`. -/
def CdpDebuggerFrontend.browserUrl (fe : CdpDebuggerFrontend) (port : Nat) : String :=
  (QMap.value (fe.jsonVersion port).toMap "webSocketDebuggerUrl").toString

/-- An adapter with the given frontend name, otherwise like `demoFrontend`. -/
def namedFrontend (name : String) : CdpDebuggerFrontend :=
  { m_getHandledByBackend := fun _ => .null
    m_frontendName := name
    m_responseClients := demoFrontend.m_responseClients
    sha256Hex := fun _ => "" }

/-! ## RawSettings (CdpTestClient) -/

/-- The method `QString::startsWith(QChar)`. -/
def QString.startsWith (s : String) (c : Char) : Bool :=
  match s.data with
  | d :: _ => d == c
  | [] => false

/-- The method `QString::endsWith(QChar)`. -/
def QString.endsWith (s : String) (c : Char) : Bool :=
  match s.data.reverse with
  | d :: _ => d == c
  | [] => false

/-- The method `QString::mid` with position and length. -/
def QString.midLen (s : String) (pos n : Nat) : String := String.mk ((s.data.drop pos).take n)

/-- The lines `QTextStream::readLine` yields until `atEnd`: the text is cut at every line
feed; `cur` is the line being read. Text after the last line feed is a line of its own. -/
def textLinesFrom (cur : List Char) : List Char → List String
  | [] => if cur.isEmpty then [] else [String.mk cur]
  | c :: cs => if c = '\n' then String.mk cur :: textLinesFrom [] cs
    else textLinesFrom (cur ++ [c]) cs

/-- The lines of a text, as the loop `while (!in.atEnd()) in.readLine()` sees them. -/
def textLines (text : String) : List String := textLinesFrom [] text.data

/-- The variables of the loop in `RawSettings::readCustomNonStatic`. -/
structure RawSettingsState where
  currentGroup : String
  map : QVariantMap
  groupOrder : List String

/-- One round of the loop in `RawSettings::readCustomNonStatic`, on the line just read. -/
def RawSettings.readLine (st : RawSettingsState) (rawLine : String) : RawSettingsState :=
  let line := QString.trimmed rawLine
  if line = "" ∨ QString.startsWith line '#' = true ∨ QString.startsWith line ';' = true then st
  else if QString.startsWith line '[' = true ∧ QString.endsWith line ']' = true then
    let currentGroup := QString.trimmed (QString.midLen line 1 (line.data.length - 2))
    if currentGroup ≠ "" ∧ currentGroup ∉ st.groupOrder then
      { st with currentGroup := currentGroup, groupOrder := st.groupOrder ++ [currentGroup] }
    else { st with currentGroup := currentGroup }
  else
    match QString.indexOf line "=" with
    | some eq =>
      if eq > 0 then
        let key := QString.trimmed (QString.left line eq)
        let value := QString.mid line (eq + 1)
        let fullKey := if st.currentGroup = "" then key else st.currentGroup ++ "/" ++ key
        { st with map := QMap.insert st.map fullKey (.str value) }
      else st
    | none => st

/-- The method `RawSettings::readCustomNonStatic` on the lines of the device: the map, the
group order and the current group when the loop ends. `groupOrder` is cleared first. -/
def RawSettings.readCustomNonStatic (lines : List String) (map : QVariantMap) :
    RawSettingsState :=
  lines.foldl RawSettings.readLine { currentGroup := "", map := map, groupOrder := [] }

/-- Whether a line is a comment or blank: empty after trimming, or starting with `#` or
`;`. -/
def isCommentOrBlank (rawLine : String) : Prop :=
  QString.trimmed rawLine = "" ∨ QString.startsWith (QString.trimmed rawLine) '#' = true ∨
    QString.startsWith (QString.trimmed rawLine) ';' = true

instance (rawLine : String) : Decidable (isCommentOrBlank rawLine) := by
  unfold isCommentOrBlank
  infer_instance

/-- The name of a `[Name]` group line, trimmed; `none` for a line that is not a group
line. -/
def groupNameOf (rawLine : String) : Option String :=
  let line := QString.trimmed rawLine
  if isCommentOrBlank rawLine then none
  else if QString.startsWith line '[' = true ∧ QString.endsWith line ']' = true then
    some (QString.trimmed (QString.midLen line 1 (line.data.length - 2)))
  else none

/-- Key and value of a `key = value` line: a line that is neither comment, blank nor group
line and has its first `=` after the first character. The key is trimmed, the value is the
text after the `=`. -/
def keyValueOf (rawLine : String) : Option (String × String) :=
  let line := QString.trimmed rawLine
  if isCommentOrBlank rawLine then none
  else if QString.startsWith line '[' = true ∧ QString.endsWith line ']' = true then none
  else
    match QString.indexOf line "=" with
    | some eq =>
      if eq > 0 then some (QString.trimmed (QString.left line eq), QString.mid line (eq + 1))
      else none
    | none => none

/-- Each name once, at the place of its first appearance. -/
def firstAppearance : List String → List String
  | [] => []
  | x :: xs => x :: (firstAppearance xs).filter (fun y => y ≠ x)

/-- The name of the most recent group line among the lines read, empty when there is
none. -/
def mostRecentGroup (lines : List String) : String :=
  ((lines.filterMap groupNameOf).getLast?).getD ""

/-! # Theorems -/

/-! ## Lemmas on QMap and QHash -/

theorem charsLt_irrefl (a : List Char) : charsLt a a = false := by
  induction a with
  | nil => rfl
  | cons c cs ih => simp [charsLt, ih]

theorem keyLt_irrefl (k : String) : keyLt k k = false := charsLt_irrefl k.data

theorem QMap.valueD_insert (m : QVariantMap) (k k' : String) (v d : QVariant) :
    QMap.valueD (QMap.insert m k v) k' d = if k = k' then v else QMap.valueD m k' d := by
  induction m with
  | nil => simp [QMap.insert, QMap.valueD]
  | cons e rest ih =>
    obtain ⟨k0, v0⟩ := e
    simp only [QMap.insert]
    by_cases h1 : keyLt k k0 = true
    · simp [h1, QMap.valueD]
    · simp only [h1]
      by_cases h2 : k = k0
      · subst h2
        by_cases h3 : k = k' <;> simp [QMap.valueD, h3]
      · simp only [h2, if_false, QMap.valueD, ih]
        by_cases h3 : k0 = k'
        · subst h3
          simp [h2]
        · simp [h3]

theorem QMap.value_insert (m : QVariantMap) (k k' : String) (v : QVariant) :
    QMap.value (QMap.insert m k v) k' = if k = k' then v else QMap.value m k' := by
  simp [QMap.value, QMap.valueD_insert]

theorem QMap.contains_insert (m : QVariantMap) (k k' : String) (v : QVariant) :
    QMap.contains (QMap.insert m k v) k' = if k = k' then true else QMap.contains m k' := by
  induction m with
  | nil => simp [QMap.insert, QMap.contains]
  | cons e rest ih =>
    obtain ⟨k0, v0⟩ := e
    simp only [QMap.insert]
    by_cases h1 : keyLt k k0 = true
    · simp [h1, QMap.contains]
    · simp only [h1]
      by_cases h2 : k = k0
      · subst h2
        by_cases h3 : k = k' <;> simp [QMap.contains, h3]
      · simp only [h2, if_false, QMap.contains, ih]
        by_cases h3 : k0 = k'
        · subst h3
          simp [h2]
        · simp [h3]

theorem QMap.insert_ne_nil (m : QVariantMap) (k : String) (v : QVariant) :
    QMap.insert m k v ≠ [] := by
  cases m with
  | nil => simp [QMap.insert]
  | cons e rest =>
    obtain ⟨k0, v0⟩ := e
    simp only [QMap.insert]
    split_ifs <;> simp

theorem QMap.contains_of_value_ne_null (m : QVariantMap) (k : String)
    (h : QMap.value m k ≠ .null) : QMap.contains m k = true := by
  induction m with
  | nil => simp [QMap.value, QMap.valueD] at h
  | cons e rest ih =>
    obtain ⟨k0, v0⟩ := e
    by_cases h1 : k0 = k
    · simp [QMap.contains, h1]
    · simp only [QMap.value, QMap.valueD, h1, if_false] at h
      simp [QMap.contains, h1, ih h]

theorem QHash.contains_remove (t : OrigCdpRequests) (id id' : Int) :
    QHash.contains (QHash.remove t id) id' = (QHash.contains t id' && decide (id' ≠ id)) := by
  rw [Bool.eq_iff_iff]
  simp only [QHash.contains, QHash.remove, List.any_eq_true, List.mem_filter, Bool.and_eq_true,
    decide_eq_true_eq, bne_iff_ne, beq_iff_eq]
  constructor
  · rintro ⟨e, ⟨he, hne⟩, heq⟩
    exact ⟨⟨e, he, heq⟩, heq ▸ hne⟩
  · rintro ⟨⟨e, he, heq⟩, hne⟩
    exact ⟨e, ⟨he, heq ▸ hne⟩, heq⟩

theorem QHash.value_remove (t : OrigCdpRequests) (id id' : Int) (h : id' ≠ id) :
    QHash.value (QHash.remove t id) id' = QHash.value t id' := by
  induction t with
  | nil => simp [QHash.remove, QHash.value]
  | cons e rest ih =>
    obtain ⟨k, v⟩ := e
    simp only [QHash.remove] at ih ⊢
    by_cases h1 : k = id
    · subst h1
      have h3 : ¬ k = id' := fun h' => h h'.symm
      simp [List.filter_cons, QHash.value, h3, ih]
    · by_cases h2 : k = id'
      · subst h2
        simp [List.filter_cons, h1, QHash.value]
      · simp [List.filter_cons, h1, QHash.value, h2, ih]

theorem QHash.value_remove_self (t : OrigCdpRequests) (id : Int) :
    QHash.value (QHash.remove t id) id = [] := by
  induction t with
  | nil => simp [QHash.remove, QHash.value]
  | cons e rest ih =>
    obtain ⟨k, v⟩ := e
    simp only [QHash.remove] at ih ⊢
    by_cases h1 : k = id
    · simp [List.filter_cons, h1, ih]
    · simp [List.filter_cons, h1, QHash.value, ih]

theorem QHash.contains_insert_id (t : OrigCdpRequests) (id id' : Int) (v : QVariantMap) :
    QHash.contains (QHash.insert t id v) id' = (decide (id' = id) || QHash.contains t id') := by
  have h := QHash.contains_remove t id id'
  simp only [QHash.insert, QHash.contains, List.any_cons] at h ⊢
  rw [h]
  by_cases h1 : id' = id
  · simp [h1]
  · have h2 : ¬ id = id' := fun h' => h1 h'.symm
    simp [h1, h2]

theorem QHash.value_insert_self (t : OrigCdpRequests) (id : Int) (v : QVariantMap) :
    QHash.value (QHash.insert t id v) id = v := by
  simp [QHash.insert, QHash.value]

theorem QHash.value_insert_of_ne (t : OrigCdpRequests) (id id' : Int) (v : QVariantMap)
    (h : id' ≠ id) : QHash.value (QHash.insert t id v) id' = QHash.value t id' := by
  have h2 : ¬ id = id' := fun h' => h h'.symm
  simp [QHash.insert, QHash.value, h2, QHash.value_remove t id id' h]

theorem QHash.remove_insert (t : OrigCdpRequests) (id : Int) (v : QVariantMap) :
    QHash.remove (QHash.insert t id v) id = QHash.remove t id := by
  simp [QHash.insert, QHash.remove, List.filter_cons, List.filter_filter]

theorem QHash.eq_nil_of_contains_false (t : OrigCdpRequests)
    (h : ∀ id, QHash.contains t id = false) : t = [] := by
  cases t with
  | nil => rfl
  | cons e rest =>
    have h1 := h e.1
    simp [QHash.contains] at h1

theorem toInt32_of_inIntRange (n : Int) (h : inIntRange n) : toInt32 n = n := by
  unfold inIntRange at h
  unfold toInt32
  omega

theorem V4CdpMapper.takeOrigCdpRequest_store (t : OrigCdpRequests) (id : Int)
    (r : QVariantMap) :
    V4CdpMapper.takeOrigCdpRequest (V4CdpMapper.storeOrigCdpRequest t id r) id
      = (r, QHash.remove t id) := by
  simp [V4CdpMapper.takeOrigCdpRequest, V4CdpMapper.storeOrigCdpRequest, QHash.contains_insert_id,
    QHash.take, QHash.value_insert_self, QHash.remove_insert]

theorem V4CdpMapper.takeOrigCdpRequest_absent (t : OrigCdpRequests) (id : Int)
    (h : QHash.contains t id = false) :
    V4CdpMapper.takeOrigCdpRequest t id = ([], t) := by
  simp [V4CdpMapper.takeOrigCdpRequest, h]

/-! ## The pending-request table (C1, C2) -/

/-- C1: after `storeOrigCdpRequest(id, r)` the call `takeOrigCdpRequest(id)` returns exactly
`r` and removes the entry, a second `takeOrigCdpRequest(id)` returns the empty mapping, and
what the table holds under any other id is the same before the store, after the store and
after the take. It holds for every request `r`, the non-empty ones among them. -/
theorem store_take_roundtrip (t : OrigCdpRequests) (id : Int) (r : QVariantMap) :
    (V4CdpMapper.takeOrigCdpRequest (V4CdpMapper.storeOrigCdpRequest t id r) id).1 = r ∧
    QHash.contains
      (V4CdpMapper.takeOrigCdpRequest (V4CdpMapper.storeOrigCdpRequest t id r) id).2 id = false ∧
    (V4CdpMapper.takeOrigCdpRequest
      (V4CdpMapper.takeOrigCdpRequest (V4CdpMapper.storeOrigCdpRequest t id r) id).2 id).1 = [] ∧
    ∀ other : Int, other ≠ id →
      (QHash.contains (V4CdpMapper.storeOrigCdpRequest t id r) other = QHash.contains t other ∧
       QHash.value (V4CdpMapper.storeOrigCdpRequest t id r) other = QHash.value t other) ∧
      (QHash.contains
          (V4CdpMapper.takeOrigCdpRequest (V4CdpMapper.storeOrigCdpRequest t id r) id).2 other
          = QHash.contains t other ∧
       QHash.value
          (V4CdpMapper.takeOrigCdpRequest (V4CdpMapper.storeOrigCdpRequest t id r) id).2 other
          = QHash.value t other) := by
  rw [V4CdpMapper.takeOrigCdpRequest_store]
  have hgone : QHash.contains (QHash.remove t id) id = false := by
    simp [QHash.contains_remove]
  refine ⟨rfl, hgone, ?_, ?_⟩
  · rw [V4CdpMapper.takeOrigCdpRequest_absent _ _ hgone]
  · intro other hne
    refine ⟨⟨?_, ?_⟩, ?_, ?_⟩
    · simp [V4CdpMapper.storeOrigCdpRequest, QHash.contains_insert_id, hne]
    · exact QHash.value_insert_of_ne t id other r hne
    · simp [QHash.contains_remove, hne]
    · exact QHash.value_remove t id other hne

/-- C2: storing twice under one id overwrites: after `storeOrigCdpRequest(id, a)` and
`storeOrigCdpRequest(id, b)` the table holds exactly one entry for `id`,
`takeOrigCdpRequest(id)` returns `b`, and the next `takeOrigCdpRequest(id)` returns the empty
mapping. It holds for all requests `a` and `b`, the non-empty ones among them. -/
theorem store_duplicate_overwrites (t : OrigCdpRequests) (id : Int) (a b : QVariantMap) :
    QHash.countKey
      (V4CdpMapper.storeOrigCdpRequest (V4CdpMapper.storeOrigCdpRequest t id a) id b) id = 1 ∧
    (V4CdpMapper.takeOrigCdpRequest
      (V4CdpMapper.storeOrigCdpRequest (V4CdpMapper.storeOrigCdpRequest t id a) id b) id).1 = b ∧
    (V4CdpMapper.takeOrigCdpRequest
      (V4CdpMapper.takeOrigCdpRequest
        (V4CdpMapper.storeOrigCdpRequest (V4CdpMapper.storeOrigCdpRequest t id a) id b) id).2
      id).1 = [] := by
  rw [V4CdpMapper.takeOrigCdpRequest_store]
  refine ⟨?_, rfl, ?_⟩
  · simp [QHash.countKey, V4CdpMapper.storeOrigCdpRequest, QHash.insert, QHash.remove,
      List.filter_cons, List.filter_filter]
  · have hgone : QHash.contains
        (QHash.remove (V4CdpMapper.storeOrigCdpRequest t id a) id) id = false := by
      simp [QHash.contains_remove]
    rw [V4CdpMapper.takeOrigCdpRequest_absent _ _ hgone]

/-! ## The response dispatcher (C3) -/

/-- C3: a backend response that has a `Result` and whose `ID` is a non-negative integer (a
C++ int) absent from the pending-request table is answered with exactly the two-key mapping
`{id: ID, result: Result}`, and the table is left as it was. -/
theorem mapV4ToCdpResponse_unknown_id (v4Response : QVariantMap) (table : OrigCdpRequests)
    (n : Int) (hID : QMap.value v4Response "ID" = .num n) (h0 : 0 ≤ n) (hmax : n ≤ 2147483647)
    (hResult : QMap.contains v4Response "Result" = true)
    (habsent : QHash.contains table n = false) :
    V4CdpMapper.mapV4ToCdpResponse v4Response table
      = ([("id", .num n), ("result", QMap.value v4Response "Result")], table) := by
  have hn : toInt32 n = n := toInt32_of_inIntRange n ⟨by omega, hmax⟩
  have hneg : ¬ n < 0 := by omega
  simp only [V4CdpMapper.mapV4ToCdpResponse, hID, QVariant.toInt, QVariant.toIntOk, hn, hneg,
    if_false, V4CdpMapper.takeOrigCdpRequest_absent table n habsent, List.isEmpty_nil, if_true,
    hResult]
  rfl

/-- Witness of C3: the response `{ID: 7, Result: "done"}` on a table that holds only id 3. -/
theorem mapV4ToCdpResponse_unknown_id_witness :
    V4CdpMapper.mapV4ToCdpResponse [("ID", .num 7), ("Result", .str "done")]
        [(3, [("id", .num 3)])]
      = ([("id", .num 7), ("result", .str "done")], [(3, [("id", .num 3)])]) :=
  mapV4ToCdpResponse_unknown_id [("ID", .num 7), ("Result", .str "done")]
    [(3, [("id", .num 3)])] 7 rfl (by decide) (by decide) rfl rfl

/-! ## Lemmas on the domain mappers and the dispatchers -/

theorem debugger_unhandled (req : QVariantMap)
    (h1 : (QMap.value req "method").toString ∉ debuggerForwarded)
    (h2 : (QMap.value req "method").toString ∉ debuggerNoOp) :
    V4CdpMapper.mapCdpToV4Request_debugger req = ([], req) := by
  simp only [debuggerForwarded, debuggerNoOp, List.mem_cons, List.mem_singleton, not_or,
    List.mem_nil_iff, or_false] at h1 h2
  simp [V4CdpMapper.mapCdpToV4Request_debugger, h1, h2]

theorem helper_evaluate_spec (method : String) (req : QVariantMap)
    (h : method = "Runtime.evaluate" ∨ method = "Debugger.evaluateOnCallFrame") :
    V4CdpMapper.mapCdpToV4Request_helper_evaluate method req ≠ [] ∧
    QMap.value (V4CdpMapper.mapCdpToV4Request_helper_evaluate method req) "ID"
      = .num (QMap.value req "id").toInt ∧
    QMap.contains (V4CdpMapper.mapCdpToV4Request_helper_evaluate method req) MAPPER_PASSTHROUGH
      = false := by
  rcases h with rfl | rfl
  · simp [V4CdpMapper.mapCdpToV4Request_helper_evaluate, QMap.insert_ne_nil, QMap.value_insert,
      QMap.contains_insert, QMap.contains,
      MAPPER_PASSTHROUGH, INTERNAL_MAPPER, MAPPER_METADATA]
  · simp only [V4CdpMapper.mapCdpToV4Request_helper_evaluate]
    split_ifs <;>
      simp [QMap.insert_ne_nil, QMap.value_insert, QMap.contains_insert, QMap.contains,
      MAPPER_PASSTHROUGH, INTERNAL_MAPPER, MAPPER_METADATA] at *

theorem debugger_handled (req : QVariantMap)
    (h : (QMap.value req "method").toString ∈ debuggerForwarded) :
    (V4CdpMapper.mapCdpToV4Request_debugger req).2
        = QMap.insert req MAPPER_METADATA (.str "Debugger") ∧
    (V4CdpMapper.mapCdpToV4Request_debugger req).1 ≠ [] ∧
    (QMap.value (V4CdpMapper.mapCdpToV4Request_debugger req).1 "ID" = QMap.value req "id" ∨
     QMap.value (V4CdpMapper.mapCdpToV4Request_debugger req).1 "ID"
       = .num (QMap.value req "id").toInt) ∧
    QMap.contains (V4CdpMapper.mapCdpToV4Request_debugger req).1 MAPPER_PASSTHROUGH = false := by
  have he := helper_evaluate_spec "Debugger.evaluateOnCallFrame" req (Or.inr rfl)
  simp only [debuggerForwarded, List.mem_cons, List.mem_singleton, List.mem_nil_iff,
    or_false] at h
  simp only [V4CdpMapper.mapCdpToV4Request_debugger]
  rcases h with h | h | h | h | h | h | h | h | h | h | h | h | h <;>
    simp [h, QMap.insert_ne_nil, QMap.value_insert, QMap.contains_insert, QMap.contains, he,
      MAPPER_PASSTHROUGH, INTERNAL_MAPPER, MAPPER_METADATA]

theorem createNoOp_spec (v4 req : QVariantMap) :
    createNoOpCdpToV4 v4 req ≠ [] ∧
    QMap.value (createNoOpCdpToV4 v4 req) "ID" = QMap.value req "id" ∧
    QMap.contains (createNoOpCdpToV4 v4 req) MAPPER_PASSTHROUGH = true ∧
    QMap.value (createNoOpCdpToV4 v4 req) MAPPER_PASSTHROUGH = .bool true := by
  simp [createNoOpCdpToV4, QMap.insert_ne_nil, QMap.value_insert, QMap.contains_insert,
    MAPPER_PASSTHROUGH]

theorem debugger_noop (req : QVariantMap)
    (h : (QMap.value req "method").toString ∈ debuggerNoOp) :
    (V4CdpMapper.mapCdpToV4Request_debugger req).2
        = QMap.insert req MAPPER_METADATA (.str "Debugger") ∧
    (V4CdpMapper.mapCdpToV4Request_debugger req).1 ≠ [] ∧
    QMap.value (V4CdpMapper.mapCdpToV4Request_debugger req).1 "ID" = QMap.value req "id" ∧
    QMap.contains (V4CdpMapper.mapCdpToV4Request_debugger req).1 MAPPER_PASSTHROUGH = true ∧
    QMap.value (V4CdpMapper.mapCdpToV4Request_debugger req).1 MAPPER_PASSTHROUGH
      = .bool true := by
  simp only [debuggerNoOp, List.mem_cons, List.mem_singleton, List.mem_nil_iff, or_false] at h
  simp only [V4CdpMapper.mapCdpToV4Request_debugger]
  rcases h with h | h | h <;> simp [h, createNoOp_spec]

theorem runtime_unhandled (req : QVariantMap)
    (h1 : (QMap.value req "method").toString ∉ runtimeForwarded)
    (h2 : (QMap.value req "method").toString ∉ runtimeNoOp) :
    V4CdpMapper.mapCdpToV4Request_runtime req = ([], req) := by
  simp only [runtimeForwarded, runtimeNoOp, List.mem_cons, List.mem_singleton, not_or,
    List.mem_nil_iff, or_false] at h1 h2
  simp [V4CdpMapper.mapCdpToV4Request_runtime, h1, h2]

theorem runtime_handled (req : QVariantMap)
    (h : (QMap.value req "method").toString ∈ runtimeForwarded) :
    (V4CdpMapper.mapCdpToV4Request_runtime req).2
        = QMap.insert req MAPPER_METADATA (.str "Runtime") ∧
    (V4CdpMapper.mapCdpToV4Request_runtime req).1 ≠ [] ∧
    (QMap.value (V4CdpMapper.mapCdpToV4Request_runtime req).1 "ID" = QMap.value req "id" ∨
     QMap.value (V4CdpMapper.mapCdpToV4Request_runtime req).1 "ID"
       = .num (QMap.value req "id").toInt) ∧
    QMap.contains (V4CdpMapper.mapCdpToV4Request_runtime req).1 MAPPER_PASSTHROUGH = false := by
  have he := helper_evaluate_spec "Runtime.evaluate" req (Or.inl rfl)
  simp only [runtimeForwarded, List.mem_cons, List.mem_singleton, List.mem_nil_iff,
    or_false] at h
  simp only [V4CdpMapper.mapCdpToV4Request_runtime]
  rcases h with h | h | h <;>
    simp [h, QMap.insert_ne_nil, QMap.value_insert, QMap.contains_insert, QMap.contains, he,
      MAPPER_PASSTHROUGH, INTERNAL_MAPPER, MAPPER_METADATA]

theorem runtime_noop (req : QVariantMap)
    (h : (QMap.value req "method").toString ∈ runtimeNoOp) :
    (V4CdpMapper.mapCdpToV4Request_runtime req).2
        = QMap.insert req MAPPER_METADATA (.str "Runtime") ∧
    (V4CdpMapper.mapCdpToV4Request_runtime req).1 ≠ [] ∧
    QMap.value (V4CdpMapper.mapCdpToV4Request_runtime req).1 "ID" = QMap.value req "id" ∧
    QMap.contains (V4CdpMapper.mapCdpToV4Request_runtime req).1 MAPPER_PASSTHROUGH = true ∧
    QMap.value (V4CdpMapper.mapCdpToV4Request_runtime req).1 MAPPER_PASSTHROUGH
      = .bool true := by
  simp only [runtimeNoOp, List.mem_cons, List.mem_singleton, List.mem_nil_iff, or_false] at h
  simp only [V4CdpMapper.mapCdpToV4Request_runtime]
  rcases h with h | h | h | h | h | h <;> simp [h, createNoOp_spec]

/-- The `id` of what the Debugger response mapper returns. -/
theorem response_debugger_id (v4Response orig : QVariantMap) :
    QMap.value (V4CdpMapper.mapV4ToCdpResponse_debugger v4Response orig) "id"
        = QMap.value v4Response "ID" ∨
    QMap.value (V4CdpMapper.mapV4ToCdpResponse_debugger v4Response orig) "id"
        = .num (QMap.value v4Response "ID").toInt := by
  simp only [V4CdpMapper.mapV4ToCdpResponse_debugger,
    V4CdpMapper.mapV4ToCdpResponse_helper_stack]
  split_ifs <;> simp [QMap.value_insert]

theorem response_runtime_id (v4Response orig : QVariantMap) :
    QMap.value (V4CdpMapper.mapV4ToCdpResponse_runtime v4Response orig) "id"
        = QMap.value v4Response "ID" := by
  simp only [V4CdpMapper.mapV4ToCdpResponse_runtime]
  split_ifs <;> simp [QMap.value_insert]

theorem dispatch_debugger (req : QVariantMap) (t : OrigCdpRequests)
    (h : (QMap.value req "method").toString ∈ debuggerForwarded ∨
         (QMap.value req "method").toString ∈ debuggerNoOp) :
    V4CdpMapper.mapCdpToV4Request req t
      = ((V4CdpMapper.mapCdpToV4Request_debugger req).1,
         QMap.insert req MAPPER_METADATA (.str "Debugger"),
         V4CdpMapper.storeOrigCdpRequest t (QMap.value req "id").toInt
           (QMap.insert req MAPPER_METADATA (.str "Debugger"))) := by
  have h2 : (V4CdpMapper.mapCdpToV4Request_debugger req).2
      = QMap.insert req MAPPER_METADATA (.str "Debugger") := by
    rcases h with h | h
    · exact (debugger_handled req h).1
    · exact (debugger_noop req h).1
  simp [V4CdpMapper.mapCdpToV4Request, V4CdpMapper.tryMap, h2, QMap.contains_insert,
    QMap.value_insert, MAPPER_METADATA]

theorem dispatch_runtime (req : QVariantMap) (t : OrigCdpRequests)
    (hd1 : (QMap.value req "method").toString ∉ debuggerForwarded)
    (hd2 : (QMap.value req "method").toString ∉ debuggerNoOp)
    (hm : QMap.contains req MAPPER_METADATA = false)
    (h : (QMap.value req "method").toString ∈ runtimeForwarded ∨
         (QMap.value req "method").toString ∈ runtimeNoOp) :
    V4CdpMapper.mapCdpToV4Request req t
      = ((V4CdpMapper.mapCdpToV4Request_runtime req).1,
         QMap.insert req MAPPER_METADATA (.str "Runtime"),
         V4CdpMapper.storeOrigCdpRequest t (QMap.value req "id").toInt
           (QMap.insert req MAPPER_METADATA (.str "Runtime"))) := by
  have h2 : (V4CdpMapper.mapCdpToV4Request_runtime req).2
      = QMap.insert req MAPPER_METADATA (.str "Runtime") := by
    rcases h with h | h
    · exact (runtime_handled req h).1
    · exact (runtime_noop req h).1
  simp [V4CdpMapper.mapCdpToV4Request, V4CdpMapper.tryMap, debugger_unhandled req hd1 hd2, hm,
    h2, QMap.contains_insert, QMap.value_insert, MAPPER_METADATA]

theorem dispatch_none (req : QVariantMap) (t : OrigCdpRequests)
    (hd1 : (QMap.value req "method").toString ∉ debuggerForwarded)
    (hd2 : (QMap.value req "method").toString ∉ debuggerNoOp)
    (hr1 : (QMap.value req "method").toString ∉ runtimeForwarded)
    (hr2 : (QMap.value req "method").toString ∉ runtimeNoOp)
    (hm : QMap.contains req MAPPER_METADATA = false) :
    V4CdpMapper.mapCdpToV4Request req t = ([], req, t) := by
  simp [V4CdpMapper.mapCdpToV4Request, V4CdpMapper.tryMap, debugger_unhandled req hd1 hd2, hm,
    runtime_unhandled req hr1 hr2]

theorem dispatch_preset (req : QVariantMap) (t : OrigCdpRequests)
    (hd1 : (QMap.value req "method").toString ∉ debuggerForwarded)
    (hd2 : (QMap.value req "method").toString ∉ debuggerNoOp)
    (hm : QMap.contains req MAPPER_METADATA = true) :
    V4CdpMapper.mapCdpToV4Request req t
      = ([], req, V4CdpMapper.storeOrigCdpRequest t (QMap.value req "id").toInt req) := by
  simp [V4CdpMapper.mapCdpToV4Request, V4CdpMapper.tryMap, debugger_unhandled req hd1 hd2, hm]

/-- The response dispatcher on a table that holds, under the id of the response, a request
tagged by one of the two modules. -/
theorem response_of_stored (v4Response : QVariantMap) (t : OrigCdpRequests) (n : Int)
    (req : QVariantMap) (tag : String) (htag : tag = "Debugger" ∨ tag = "Runtime")
    (hID : (QMap.value v4Response "ID").toInt = n) (h0 : 0 ≤ n) :
    V4CdpMapper.mapV4ToCdpResponse v4Response
        (V4CdpMapper.storeOrigCdpRequest t n (QMap.insert req MAPPER_METADATA (.str tag)))
      = ((if tag = "Debugger" then V4CdpMapper.mapV4ToCdpResponse_debugger v4Response
            (QMap.insert req MAPPER_METADATA (.str tag))
          else V4CdpMapper.mapV4ToCdpResponse_runtime v4Response
            (QMap.insert req MAPPER_METADATA (.str tag))),
         QHash.remove t n) := by
  have hneg : ¬ n < 0 := by omega
  have hne : (QMap.insert req MAPPER_METADATA (.str tag)).isEmpty = false := by
    have := QMap.insert_ne_nil req MAPPER_METADATA (.str tag)
    cases hh : QMap.insert req MAPPER_METADATA (.str tag) with
    | nil => exact absurd hh this
    | cons a b => rfl
  simp only [V4CdpMapper.mapV4ToCdpResponse, hID, hneg, if_false,
    V4CdpMapper.takeOrigCdpRequest_store, hne, QMap.value_insert, if_true, QVariant.toString,
    V4CdpMapper.mappers]
  rcases htag with rfl | rfl <;> simp [V4CdpMapper.Modules.Debugger, V4CdpMapper.Modules.Runtime]

theorem toInt_num (n : Int) (h : inIntRange n) : (QVariant.num n).toInt = n := by
  simp [QVariant.toInt, QVariant.toIntOk, toInt32_of_inIntRange n h]

/-! ## Id echo (C4) -/

/-- C4: id echo across the round trip: for a CDP request whose `id` is a non-negative integer
(a C++ int) and for which `mapCdpToV4Request` returns a non-empty command, every backend
response whose `ID` equals the `ID` of that command is mapped, in the table state the forward
mapping left, to a CDP response whose `id` equals the `id` of the request. -/
theorem id_echo_round_trip (cdpRequest : QVariantMap) (table : OrigCdpRequests) (n : Int)
    (v4Response : QVariantMap)
    (hid : QMap.value cdpRequest "id" = .num n) (h0 : 0 ≤ n) (hmax : n ≤ 2147483647)
    (hc : (V4CdpMapper.mapCdpToV4Request cdpRequest table).1 ≠ [])
    (hID : QMap.value v4Response "ID"
      = QMap.value (V4CdpMapper.mapCdpToV4Request cdpRequest table).1 "ID") :
    QMap.value (V4CdpMapper.mapV4ToCdpResponse v4Response
        (V4CdpMapper.mapCdpToV4Request cdpRequest table).2.2).1 "id"
      = QMap.value cdpRequest "id" := by
  have hrange : inIntRange n := ⟨by omega, hmax⟩
  have hn : (QVariant.num n).toInt = n := toInt_num n hrange
  by_cases hd : (QMap.value cdpRequest "method").toString ∈ debuggerForwarded ∨
      (QMap.value cdpRequest "method").toString ∈ debuggerNoOp
  · rw [dispatch_debugger cdpRequest table hd] at hID ⊢
    have hcID : QMap.value (V4CdpMapper.mapCdpToV4Request_debugger cdpRequest).1 "ID"
        = .num n := by
      rcases hd with hd | hd
      · rcases (debugger_handled cdpRequest hd).2.2.1 with h | h
        · rw [h, hid]
        · rw [h, hid, hn]
      · rw [(debugger_noop cdpRequest hd).2.2.1, hid]
    simp only at hID ⊢
    rw [hcID] at hID
    rw [hid, hn, response_of_stored v4Response table n cdpRequest "Debugger" (Or.inl rfl)
      (by rw [hID, hn]) h0]
    simp only [if_true]
    rcases response_debugger_id v4Response
      (QMap.insert cdpRequest MAPPER_METADATA (.str "Debugger")) with h | h
    · rw [h, hID]
    · rw [h, hID, hn]
  · have hd1 : (QMap.value cdpRequest "method").toString ∉ debuggerForwarded :=
      fun h => hd (Or.inl h)
    have hd2 : (QMap.value cdpRequest "method").toString ∉ debuggerNoOp :=
      fun h => hd (Or.inr h)
    by_cases hm : QMap.contains cdpRequest MAPPER_METADATA = true
    · rw [dispatch_preset cdpRequest table hd1 hd2 hm] at hc
      exact absurd rfl hc
    · have hm' : QMap.contains cdpRequest MAPPER_METADATA = false := by simpa using hm
      by_cases hr : (QMap.value cdpRequest "method").toString ∈ runtimeForwarded ∨
          (QMap.value cdpRequest "method").toString ∈ runtimeNoOp
      · rw [dispatch_runtime cdpRequest table hd1 hd2 hm' hr] at hID ⊢
        have hcID : QMap.value (V4CdpMapper.mapCdpToV4Request_runtime cdpRequest).1 "ID"
            = .num n := by
          rcases hr with hr | hr
          · rcases (runtime_handled cdpRequest hr).2.2.1 with h | h
            · rw [h, hid]
            · rw [h, hid, hn]
          · rw [(runtime_noop cdpRequest hr).2.2.1, hid]
        simp only at hID ⊢
        rw [hcID] at hID
        rw [hid, hn, response_of_stored v4Response table n cdpRequest "Runtime" (Or.inr rfl)
          (by rw [hID, hn]) h0]
        simp only [show ¬ ("Runtime" = "Debugger") by decide, if_false]
        rw [response_runtime_id, hID]
      · have hr1 : (QMap.value cdpRequest "method").toString ∉ runtimeForwarded :=
          fun h => hr (Or.inl h)
        have hr2 : (QMap.value cdpRequest "method").toString ∉ runtimeNoOp :=
          fun h => hr (Or.inr h)
        rw [dispatch_none cdpRequest table hd1 hd2 hr1 hr2 hm'] at hc
        exact absurd rfl hc

theorem ne_nil_of_isEmpty_false {α : Type} (l : List α) (h : l.isEmpty = false) : l ≠ [] := by
  intro hl
  subst hl
  simp at h

/-- Witness of C4: `Debugger.pause` with id 52, then the backend reply `{ID: 52, Result: {}}`. -/
theorem id_echo_round_trip_witness :
    QMap.value (V4CdpMapper.mapV4ToCdpResponse [("ID", .num 52), ("Result", .map [])]
        (V4CdpMapper.mapCdpToV4Request
          [("id", .num 52), ("method", .str "Debugger.pause")] []).2.2).1 "id"
      = .num 52 :=
  id_echo_round_trip [("id", .num 52), ("method", .str "Debugger.pause")] [] 52
    [("ID", .num 52), ("Result", .map [])] rfl (by decide) (by decide)
    (ne_nil_of_isEmpty_false _ rfl) rfl

/-! ## The request dispatcher (C5) -/

/-- For a request that does not carry the key `_mapper_metadata` the dispatcher returns the
command of the Debugger mapper when that is non-empty, and the command of the Runtime mapper
otherwise (which is empty when no mapper knows the method). -/
theorem dispatch_first_non_empty (req : QVariantMap) (t : OrigCdpRequests)
    (hm : QMap.contains req MAPPER_METADATA = false) :
    ((V4CdpMapper.mapCdpToV4Request_debugger req).1 ≠ [] →
      (V4CdpMapper.mapCdpToV4Request req t).1 = (V4CdpMapper.mapCdpToV4Request_debugger req).1) ∧
    ((V4CdpMapper.mapCdpToV4Request_debugger req).1 = [] →
      (V4CdpMapper.mapCdpToV4Request req t).1 = (V4CdpMapper.mapCdpToV4Request_runtime req).1) := by
  by_cases hd : (QMap.value req "method").toString ∈ debuggerForwarded ∨
      (QMap.value req "method").toString ∈ debuggerNoOp
  · have hne : (V4CdpMapper.mapCdpToV4Request_debugger req).1 ≠ [] := by
      rcases hd with hd | hd
      · exact (debugger_handled req hd).2.1
      · exact (debugger_noop req hd).2.1
    rw [dispatch_debugger req t hd]
    exact ⟨fun _ => rfl, fun h => absurd h hne⟩
  · have hd1 : (QMap.value req "method").toString ∉ debuggerForwarded := fun h => hd (Or.inl h)
    have hd2 : (QMap.value req "method").toString ∉ debuggerNoOp := fun h => hd (Or.inr h)
    have he : (V4CdpMapper.mapCdpToV4Request_debugger req).1 = [] := by
      rw [debugger_unhandled req hd1 hd2]
    refine ⟨fun h => absurd he h, fun _ => ?_⟩
    by_cases hr : (QMap.value req "method").toString ∈ runtimeForwarded ∨
        (QMap.value req "method").toString ∈ runtimeNoOp
    · rw [dispatch_runtime req t hd1 hd2 hm hr]
    · have hr1 : (QMap.value req "method").toString ∉ runtimeForwarded :=
        fun h => hr (Or.inl h)
      have hr2 : (QMap.value req "method").toString ∉ runtimeNoOp := fun h => hr (Or.inr h)
      rw [dispatch_none req t hd1 hd2 hr1 hr2 hm, runtime_unhandled req hr1 hr2]

/-- C5 fails on the code: for the `Runtime.evaluate` request that already carries the key
`_mapper_metadata`, the Debugger mapper returns the empty mapping and the Runtime mapper a
non-empty `Evaluate` command, yet the dispatcher returns the empty mapping (and stores the
request in the pending-request table). -/
theorem dispatcher_drops_runtime_command :
    (V4CdpMapper.mapCdpToV4Request_debugger presetMetadataRequest).1 = [] ∧
    (V4CdpMapper.mapCdpToV4Request_runtime presetMetadataRequest).1
      = [("Command", .map [("attributes", .map [("program", .str "1+1")]),
          ("type", .str "Evaluate")]), ("ID", .num 1)] ∧
    (V4CdpMapper.mapCdpToV4Request presetMetadataRequest []).1 = [] ∧
    (V4CdpMapper.mapCdpToV4Request presetMetadataRequest []).2.2
      = [(1, presetMetadataRequest)] :=
  ⟨rfl, rfl, rfl, rfl⟩

/-! ## The message handler (C6, C7) -/

theorem QJsonValue.toString_not_local (v : QVariant) (h : v.toString ∉ locallyHandled) :
    QJsonValue.toString v ∉ locallyHandled := by
  cases v <;> first | exact h | simp [QJsonValue.toString, locallyHandled]

theorem QJsonValue.toInt_of_inIntRange (n : Int) (h : inIntRange n) : QJsonValue.toInt (.num n) (-1) = n := by
  simp [QJsonValue.toInt, h]

theorem QJsonObject.value_withKey (obj : QVariantMap) (key k : String) :
    QMap.value (QJsonObject.withKey obj key) k = QMap.value obj k := by
  unfold QJsonObject.withKey
  by_cases h : QMap.contains obj key = true
  · rw [if_pos h]
  · rw [if_neg h, QMap.value_insert]
    by_cases hk : key = k
    · rw [if_pos hk]
      subst hk
      by_contra hne
      exact h (QMap.contains_of_value_ne_null obj key (fun h' => hne h'.symm))
    · rw [if_neg hk]

theorem QJsonObject.contains_withKey (obj : QVariantMap) (key k : String) (hk : k ≠ key) :
    QMap.contains (QJsonObject.withKey obj key) k = QMap.contains obj k := by
  unfold QJsonObject.withKey
  by_cases h : QMap.contains obj key = true
  · rw [if_pos h]
  · rw [if_neg h, QMap.contains_insert, if_neg (fun h' => hk h'.symm)]

theorem QJsonObject.withKey_of_contains (obj : QVariantMap) (key : String)
    (h : QMap.contains obj key = true) : QJsonObject.withKey obj key = obj := by
  unfold QJsonObject.withKey
  rw [if_pos h]

/-- A request whose method is in one of the lists of the mappers has the key `method`. -/
theorem contains_method_of_mem (cmd : QVariantMap) (l : List String) (hl : "" ∉ l)
    (h : (QMap.value cmd "method").toString ∈ l) : QMap.contains cmd "method" = true := by
  apply QMap.contains_of_value_ne_null
  intro hnull
  rw [hnull] at h
  exact hl h

/-- What `onCdpMessageReceived` does with a request object of a client once the id is
accepted and the method is not one it answers itself: the three-way branch on the command
the dispatcher returned for the request, which by then has the key `method`. -/
theorem onCdpMessageReceived_mapped_req (fe : CdpDebuggerFrontend) (table : OrigCdpRequests)
    (cmd req : QVariantMap) (c : QWebSocket) (n : Int)
    (hreq : req = QJsonObject.withKey cmd "method")
    (hid : QMap.value cmd "id" = .num n) (hrange : inIntRange n) (hn : n ≠ -1)
    (hlocal : QJsonValue.toString (QMap.value cmd "method") ∉ locallyHandled) :
    fe.onCdpMessageReceived table (some (.map cmd)) (some c)
      = if QMap.contains (V4CdpMapper.mapCdpToV4Request req table).1 MAPPER_PASSTHROUGH = true ∧
            (QMap.value (V4CdpMapper.mapCdpToV4Request req table).1
              MAPPER_PASSTHROUGH).toBool = true then
          ((V4CdpMapper.mapV4ToCdpResponse (V4CdpMapper.mapCdpToV4Request req table).1
              (V4CdpMapper.mapCdpToV4Request req table).2.2).2,
           CdpDebuggerFrontend.sendToClient (some c)
             (.map (V4CdpMapper.mapV4ToCdpResponse (V4CdpMapper.mapCdpToV4Request req table).1
               (V4CdpMapper.mapCdpToV4Request req table).2.2).1))
        else if (V4CdpMapper.mapCdpToV4Request req table).1.isEmpty = false then
          ((V4CdpMapper.mapCdpToV4Request req table).2.2,
           [Effect.sendRequestToBackend (.map (V4CdpMapper.mapCdpToV4Request req table).1)])
        else
          ((V4CdpMapper.mapCdpToV4Request req table).2.2,
           CdpDebuggerFrontend.sendToClient (some c) (methodNotFound n)) := by
  have hc : QMap.contains cmd "id" = true :=
    QMap.contains_of_value_ne_null cmd "id" (by rw [hid]; simp)
  simp only [locallyHandled, List.mem_cons, List.mem_singleton, List.mem_nil_iff, or_false,
    not_or] at hlocal
  simp only [CdpDebuggerFrontend.onCdpMessageReceived, QVariant.canConvertMap, QVariant.toMap,
    hc, hid, QJsonValue.toInt_of_inIntRange n hrange, hn, hlocal.1, hlocal.2.1, hlocal.2.2,
    if_true, if_false, Bool.not_true, Bool.false_eq_true, ← hreq]
  by_cases hp : QMap.contains (V4CdpMapper.mapCdpToV4Request req table).1 MAPPER_PASSTHROUGH
      = true ∧ (QMap.value (V4CdpMapper.mapCdpToV4Request req table).1
        MAPPER_PASSTHROUGH).toBool = true
  · simp only [hp, and_self, if_true]
  · simp only [hp, if_false]
    cases he : (V4CdpMapper.mapCdpToV4Request req table).1 with
    | nil => simp [methodNotFound, QMap.ofList, QMap.insert, keyLt, charsLt]
    | cons a b => simp

/-- The same for a request that has the key `method`: the dispatcher is handed the request
as it came. -/
theorem onCdpMessageReceived_mapped (fe : CdpDebuggerFrontend) (table : OrigCdpRequests)
    (cmd : QVariantMap) (c : QWebSocket) (n : Int)
    (hid : QMap.value cmd "id" = .num n) (hrange : inIntRange n) (hn : n ≠ -1)
    (hlocal : QJsonValue.toString (QMap.value cmd "method") ∉ locallyHandled)
    (hmeth : QMap.contains cmd "method" = true) :
    fe.onCdpMessageReceived table (some (.map cmd)) (some c)
      = if QMap.contains (V4CdpMapper.mapCdpToV4Request cmd table).1 MAPPER_PASSTHROUGH = true ∧
            (QMap.value (V4CdpMapper.mapCdpToV4Request cmd table).1
              MAPPER_PASSTHROUGH).toBool = true then
          ((V4CdpMapper.mapV4ToCdpResponse (V4CdpMapper.mapCdpToV4Request cmd table).1
              (V4CdpMapper.mapCdpToV4Request cmd table).2.2).2,
           CdpDebuggerFrontend.sendToClient (some c)
             (.map (V4CdpMapper.mapV4ToCdpResponse (V4CdpMapper.mapCdpToV4Request cmd table).1
               (V4CdpMapper.mapCdpToV4Request cmd table).2.2).1))
        else if (V4CdpMapper.mapCdpToV4Request cmd table).1.isEmpty = false then
          ((V4CdpMapper.mapCdpToV4Request cmd table).2.2,
           [Effect.sendRequestToBackend (.map (V4CdpMapper.mapCdpToV4Request cmd table).1)])
        else
          ((V4CdpMapper.mapCdpToV4Request cmd table).2.2,
           CdpDebuggerFrontend.sendToClient (some c) (methodNotFound n)) := by
  exact onCdpMessageReceived_mapped_req fe table cmd cmd c n
    (QJsonObject.withKey_of_contains cmd "method" hmeth).symm hid hrange hn hlocal

theorem not_local_of_unmapped (cmd : QVariantMap)
    (hlocal : (QMap.value cmd "method").toString ∉ locallyHandled) :
    QJsonValue.toString (QMap.value cmd "method") ∉ locallyHandled :=
  QJsonValue.toString_not_local _ hlocal

/-- The dispatcher returns the empty mapping for a method no domain mapper knows, whether or
not the request carries the key `_mapper_metadata`. -/
theorem dispatch_unmapped (cmd : QVariantMap) (table : OrigCdpRequests)
    (hd1 : (QMap.value cmd "method").toString ∉ debuggerForwarded)
    (hd2 : (QMap.value cmd "method").toString ∉ debuggerNoOp)
    (hr1 : (QMap.value cmd "method").toString ∉ runtimeForwarded)
    (hr2 : (QMap.value cmd "method").toString ∉ runtimeNoOp) :
    (V4CdpMapper.mapCdpToV4Request cmd table).1 = [] := by
  by_cases hm : QMap.contains cmd MAPPER_METADATA = true
  · rw [dispatch_preset cmd table hd1 hd2 hm]
  · rw [dispatch_none cmd table hd1 hd2 hr1 hr2 (by simpa using hm)]

/-- C6, as amended: a request object with an integer `id` that fits a C++ `int` (32 bits,
signed), other than -1, whose method is neither answered locally nor known to the Debugger
or Runtime mapper makes `onCdpMessageReceived` perform exactly one `sendToClient` on the
originating client, with the
message `{id: id, error: {code: -32601, message: "Method not found"}}`, and nothing else: for
a client in connected state the effects are that single text message, and no request goes to
the backend. -/
theorem onCdpMessageReceived_method_not_found (fe : CdpDebuggerFrontend)
    (table : OrigCdpRequests) (cmd : QVariantMap) (c : QWebSocket) (n : Int)
    (hid : QMap.value cmd "id" = .num n) (hrange : inIntRange n) (hn : n ≠ -1)
    (hlocal : (QMap.value cmd "method").toString ∉ locallyHandled)
    (hd1 : (QMap.value cmd "method").toString ∉ debuggerForwarded)
    (hd2 : (QMap.value cmd "method").toString ∉ debuggerNoOp)
    (hr1 : (QMap.value cmd "method").toString ∉ runtimeForwarded)
    (hr2 : (QMap.value cmd "method").toString ∉ runtimeNoOp) :
    (fe.onCdpMessageReceived table (some (.map cmd)) (some c)).2
        = CdpDebuggerFrontend.sendToClient (some c)
            (.map [("error", .map [("code", .num (-32601)),
              ("message", .str "Method not found")]), ("id", .num n)]) ∧
    (c.connected = true →
      (fe.onCdpMessageReceived table (some (.map cmd)) (some c)).2
        = [Effect.sendTextMessage c.sock
            (.map [("error", .map [("code", .num (-32601)),
              ("message", .str "Method not found")]), ("id", .num n)])]) ∧
    backendRequests (fe.onCdpMessageReceived table (some (.map cmd)) (some c)).2 = [] := by
  have hv4 := dispatch_unmapped (QJsonObject.withKey cmd "method") table
    (by rw [QJsonObject.value_withKey]; exact hd1) (by rw [QJsonObject.value_withKey]; exact hd2)
    (by rw [QJsonObject.value_withKey]; exact hr1) (by rw [QJsonObject.value_withKey]; exact hr2)
  have h := onCdpMessageReceived_mapped_req fe table cmd _ c n rfl hid hrange hn
    (not_local_of_unmapped cmd hlocal)
  simp only [hv4, QMap.contains, List.isEmpty_nil, Bool.false_eq_true, false_and, if_false,
    Bool.true_eq_false] at h
  rw [h]
  refine ⟨rfl, ?_, ?_⟩
  · intro hconn
    simp [CdpDebuggerFrontend.sendToClient, hconn, methodNotFound]
  · cases hconn : c.connected <;>
      simp [CdpDebuggerFrontend.sendToClient, hconn, backendRequests]

/-- Witness of C6: scenario S6, `{"id":99,"method":"Profiler.enable"}` from the connected
client on socket 1. -/
theorem onCdpMessageReceived_method_not_found_witness :
    (demoFrontend.onCdpMessageReceived []
        (some (.map [("id", .num 99), ("method", .str "Profiler.enable")]))
        (some { sock := 1, connected := true })).2
      = [Effect.sendTextMessage 1
          (.map [("error", .map [("code", .num (-32601)),
            ("message", .str "Method not found")]), ("id", .num 99)])] :=
  (onCdpMessageReceived_method_not_found demoFrontend []
    [("id", .num 99), ("method", .str "Profiler.enable")] { sock := 1, connected := true } 99
    rfl (by decide) (by decide) (by decide) (by decide) (by decide) (by decide)
    (by decide)).2.1 rfl

/-- C6 fails on the code as stated: the method `Profiler.enable` is answered by nobody, and
the request `{"id":4294967301,"method":"Profiler.enable"}`, whose integer id does not fit a
C++ `int`, is dropped by the guard on the id: the client gets no error reply, nothing else
happens, and the pending-request table is as before. -/
theorem onCdpMessageReceived_wide_id_no_error :
    "Profiler.enable" ∉ locallyHandled ∧
    "Profiler.enable" ∉ debuggerForwarded ∧ "Profiler.enable" ∉ debuggerNoOp ∧
    "Profiler.enable" ∉ runtimeForwarded ∧ "Profiler.enable" ∉ runtimeNoOp ∧
    QJsonValue.toInt (.num 4294967301) (-1) = -1 ∧
    demoFrontend.onCdpMessageReceived []
        (some (.map [("id", .num 4294967301), ("method", .str "Profiler.enable")]))
        (some { sock := 1, connected := true }) = ([], []) :=
  ⟨by decide, by decide, by decide, by decide, by decide, rfl, rfl⟩

theorem sentTo_append (sock : Nat) (a b : List Effect) :
    sentTo sock (a ++ b) = sentTo sock a ++ sentTo sock b := by
  induction a with
  | nil => rfl
  | cons e rest ih =>
    cases e with
    | sendTextMessage s doc =>
      by_cases h : s = sock <;> simp [sentTo, h, ih]
    | sendRequestToBackend r => simp [sentTo, ih]
    | backendSyncCall r => simp [sentTo, ih]

theorem sendToClient_connected (c : QWebSocket) (doc : QVariant) (h : c.connected = true) :
    CdpDebuggerFrontend.sendToClient (some c) doc = [Effect.sendTextMessage c.sock doc] := by
  simp [CdpDebuggerFrontend.sendToClient, h]

theorem hasId_of_value (m : QVariantMap) (n : Int) (h : QMap.value m "id" = .num n) :
    hasId (.map m) = true :=
  QMap.contains_of_value_ne_null m "id" (by rw [h]; simp)

/-- No `Debugger.scriptParsed` event carries an `id`. -/
theorem scriptParsed_no_id (sha : String → String) (s : QVariantMap) (ctx : Int)
    (name : String) :
    hasId (.map (V4CdpHelper.cdpScriptParsedEventBuilder sha s ctx name)) = false := by
  simp [hasId, QVariant.toMap, V4CdpHelper.cdpScriptParsedEventBuilder, QMap.ofList,
    QMap.contains_insert, QMap.contains]

theorem scriptParsed_events_no_id (fe : CdpDebuggerFrontend) (c : QWebSocket) (ctx : Int)
    (name : String) (scripts : List QVariant) :
    (sentTo c.sock ((scripts.map (fun scriptVar =>
      CdpDebuggerFrontend.sendToClient (some c)
        (.map (V4CdpHelper.cdpScriptParsedEventBuilder fe.sha256Hex scriptVar.toMap ctx
          name)))).flatten)).filter hasId = [] := by
  induction scripts with
  | nil => rfl
  | cons sv rest ih =>
    rw [List.map_cons, List.flatten_cons, sentTo_append, List.filter_append, ih,
      List.append_nil]
    cases hconn : c.connected <;>
      simp [CdpDebuggerFrontend.sendToClient, hconn, sentTo, scriptParsed_no_id]

/-- The script events of `createAndSentScriptParsedEvents` add no message with an `id`. -/
theorem createAndSentScriptParsedEvents_no_id (fe : CdpDebuggerFrontend) (c : QWebSocket) :
    (sentTo c.sock (fe.createAndSentScriptParsedEvents (some c))).filter hasId = [] := by
  simp only [CdpDebuggerFrontend.createAndSentScriptParsedEvents,
    CdpDebuggerFrontend.blockingV4BackendCall, sentTo_append, sentTo, List.nil_append]
  exact scriptParsed_events_no_id fe c 1 _ _

theorem noop_not_local {m : String} (h : m ∈ debuggerNoOp ∨ m ∈ runtimeNoOp) :
    m ∉ locallyHandled := by
  simp only [debuggerNoOp, runtimeNoOp, List.mem_cons, List.mem_singleton, List.mem_nil_iff,
    or_false] at h
  rcases h with (h | h | h) | (h | h | h | h | h | h) <;> subst h <;> decide

theorem runtime_not_debugger {m : String} (h : m ∈ runtimeForwarded ∨ m ∈ runtimeNoOp) :
    m ∉ debuggerForwarded ∧ m ∉ debuggerNoOp := by
  simp only [runtimeForwarded, runtimeNoOp, List.mem_cons, List.mem_singleton,
    List.mem_nil_iff, or_false] at h
  rcases h with (h | h | h) | (h | h | h | h | h | h) <;> subst h <;> decide

/-- The reply to a request object whose method is answered locally. -/
theorem onCdpMessageReceived_local (fe : CdpDebuggerFrontend) (table : OrigCdpRequests)
    (cmd : QVariantMap) (c : QWebSocket) (n : Int)
    (hid : QMap.value cmd "id" = .num n) (hrange : inIntRange n) (hn : n ≠ -1)
    (hlocal : QJsonValue.toString (QMap.value cmd "method") ∈ locallyHandled) :
    (fe.onCdpMessageReceived table (some (.map cmd)) (some c)).1 = table ∧
    ∃ result : QVariant, ∃ more : List Effect,
      (fe.onCdpMessageReceived table (some (.map cmd)) (some c)).2
        = CdpDebuggerFrontend.sendToClient (some c) (.map [("id", .num n), ("result", result)])
            ++ more ∧
      (more = [] ∨ more = fe.createAndSentScriptParsedEvents (some c)) := by
  have hc : QMap.contains cmd "id" = true :=
    QMap.contains_of_value_ne_null cmd "id" (by rw [hid]; simp)
  simp only [locallyHandled, List.mem_cons, List.mem_singleton, List.mem_nil_iff, or_false]
    at hlocal
  simp only [CdpDebuggerFrontend.onCdpMessageReceived, QVariant.canConvertMap, QVariant.toMap,
    hc, hid, QJsonValue.toInt_of_inIntRange n hrange, hn, if_true, if_false, Bool.not_true,
    Bool.false_eq_true]
  rcases hlocal with h | h | h
  · simp only [h, if_true]
    exact ⟨trivial, .map [], [], by simp [QMap.ofList, QMap.insert, keyLt, charsLt], Or.inl rfl⟩
  · simp only [h, show ¬ ("Debugger.enable" = "Runtime.enable") by decide, if_true, if_false]
    exact ⟨trivial, _, _, rfl, Or.inr rfl⟩
  · simp only [h, show ¬ ("Debugger.disable" = "Runtime.enable") by decide,
      show ¬ ("Debugger.disable" = "Debugger.enable") by decide, if_true, if_false]
    exact ⟨trivial, .map [], [], by simp [QMap.ofList, QMap.insert, keyLt, charsLt], Or.inl rfl⟩

/-- A NoOp passthrough request with a non-negative id: the request is stored and taken again,
and one reply with the id of the request goes to the client. -/
theorem onCdpMessageReceived_noop (fe : CdpDebuggerFrontend) (table : OrigCdpRequests)
    (cmd : QVariantMap) (c : QWebSocket) (n : Int)
    (hid : QMap.value cmd "id" = .num n) (hrange : inIntRange n) (h0 : 0 ≤ n)
    (h : (QMap.value cmd "method").toString ∈ debuggerNoOp ∨
      ((QMap.value cmd "method").toString ∈ runtimeNoOp ∧
        QMap.contains cmd MAPPER_METADATA = false)) :
    ∃ resp : QVariantMap,
      fe.onCdpMessageReceived table (some (.map cmd)) (some c)
        = (QHash.remove table n, CdpDebuggerFrontend.sendToClient (some c) (.map resp)) ∧
      QMap.value resp "id" = .num n := by
  have hn : n ≠ -1 := by omega
  have hnum : (QVariant.num n).toInt = n := toInt_num n hrange
  have hlocal : QJsonValue.toString (QMap.value cmd "method") ∉ locallyHandled := by
    apply not_local_of_unmapped
    rcases h with h | h
    · exact noop_not_local (Or.inl h)
    · exact noop_not_local (Or.inr h.1)
  have hmeth : QMap.contains cmd "method" = true := by
    rcases h with h | h
    · exact contains_method_of_mem cmd _ (by decide) h
    · exact contains_method_of_mem cmd _ (by decide) h.1
  rw [onCdpMessageReceived_mapped fe table cmd c n hid hrange hn hlocal hmeth]
  rcases h with h | ⟨h, hm⟩
  · obtain ⟨-, -, hID, hp1, hp2⟩ := debugger_noop cmd h
    rw [dispatch_debugger cmd table (Or.inr h)]
    simp only [hp1, hp2, QVariant.toBool, and_self, if_true, hid, hnum]
    rw [response_of_stored _ table n cmd "Debugger" (Or.inl rfl) (by rw [hID, hid, hnum]) h0]
    refine ⟨_, rfl, ?_⟩
    simp only [if_true]
    rcases response_debugger_id (V4CdpMapper.mapCdpToV4Request_debugger cmd).1
      (QMap.insert cmd MAPPER_METADATA (.str "Debugger")) with h' | h'
    · rw [h', hID, hid]
    · rw [h', hID, hid, hnum]
  · obtain ⟨hd1, hd2⟩ := runtime_not_debugger (Or.inr h)
    obtain ⟨-, -, hID, hp1, hp2⟩ := runtime_noop cmd h
    rw [dispatch_runtime cmd table hd1 hd2 hm (Or.inr h)]
    simp only [hp1, hp2, QVariant.toBool, and_self, if_true, hid, hnum]
    rw [response_of_stored _ table n cmd "Runtime" (Or.inr rfl) (by rw [hID, hid, hnum]) h0]
    refine ⟨_, rfl, ?_⟩
    simp only [show ¬ ("Runtime" = "Debugger") by decide, if_false]
    rw [response_runtime_id, hID, hid]

/-- A request object with an accepted id whose method no mapper knows, or a Runtime NoOp
method on a request that carries the key `_mapper_metadata`: the error reply. -/
theorem onCdpMessageReceived_error (fe : CdpDebuggerFrontend) (table : OrigCdpRequests)
    (cmd : QVariantMap) (c : QWebSocket) (n : Int)
    (hid : QMap.value cmd "id" = .num n) (hrange : inIntRange n) (hn : n ≠ -1)
    (hlocal : QJsonValue.toString (QMap.value cmd "method") ∉ locallyHandled)
    (hv4 : (V4CdpMapper.mapCdpToV4Request (QJsonObject.withKey cmd "method") table).1 = []) :
    fe.onCdpMessageReceived table (some (.map cmd)) (some c)
      = ((V4CdpMapper.mapCdpToV4Request (QJsonObject.withKey cmd "method") table).2.2,
         CdpDebuggerFrontend.sendToClient (some c) (methodNotFound n)) := by
  have h := onCdpMessageReceived_mapped_req fe table cmd _ c n rfl hid hrange hn hlocal
  simp only [hv4, QMap.contains, List.isEmpty_nil, Bool.false_eq_true, false_and, if_false,
    Bool.true_eq_false] at h
  exact h

/-- C7, as amended: a request object with an integer `id` that fits a C++ `int` (32 bits,
signed), other than -1, sent by a connected client, whose method is answered locally
(`Runtime.enable`, `Debugger.enable`, `Debugger.disable`), or is unmapped, or is a NoOp passthrough method and the id is
non-negative, makes `onCdpMessageReceived` send that client exactly one message that has an
`id` field, and that `id` is the id of the request. -/
theorem onCdpMessageReceived_echoes_id (fe : CdpDebuggerFrontend) (table : OrigCdpRequests)
    (cmd : QVariantMap) (c : QWebSocket) (n : Int)
    (hid : QMap.value cmd "id" = .num n) (hrange : inIntRange n) (hn : n ≠ -1)
    (hconn : c.connected = true)
    (hmethod :
      QJsonValue.toString (QMap.value cmd "method") ∈ locallyHandled ∨
      (((QMap.value cmd "method").toString ∈ debuggerNoOp ∨
        (QMap.value cmd "method").toString ∈ runtimeNoOp) ∧ 0 ≤ n) ∨
      ((QMap.value cmd "method").toString ∉ locallyHandled ∧
       (QMap.value cmd "method").toString ∉ debuggerForwarded ∧
       (QMap.value cmd "method").toString ∉ debuggerNoOp ∧
       (QMap.value cmd "method").toString ∉ runtimeForwarded ∧
       (QMap.value cmd "method").toString ∉ runtimeNoOp)) :
    ∃ doc : QVariant,
      (sentTo c.sock (fe.onCdpMessageReceived table (some (.map cmd)) (some c)).2).filter hasId
        = [doc] ∧
      QMap.value doc.toMap "id" = .num n := by
  have herr : ∀ effects : List Effect,
      effects = CdpDebuggerFrontend.sendToClient (some c) (methodNotFound n) →
      ∃ doc : QVariant, (sentTo c.sock effects).filter hasId = [doc] ∧
        QMap.value doc.toMap "id" = .num n := by
    intro effects he
    refine ⟨methodNotFound n, ?_, ?_⟩
    · rw [he, sendToClient_connected c _ hconn]
      simp [sentTo, methodNotFound, hasId, QVariant.toMap, QMap.contains]
    · simp [methodNotFound, QVariant.toMap, QMap.value, QMap.valueD]
  rcases hmethod with hl | ⟨hnoop, h0⟩ | ⟨hl, hd1, hd2, hr1, hr2⟩
  · obtain ⟨-, result, more, heff, hmore⟩ :=
      onCdpMessageReceived_local fe table cmd c n hid hrange hn hl
    refine ⟨.map [("id", .num n), ("result", result)], ?_, ?_⟩
    · rw [heff, sendToClient_connected c _ hconn, sentTo_append, List.filter_append]
      have hrest : (sentTo c.sock more).filter hasId = [] := by
        rcases hmore with h | h
        · rw [h]; rfl
        · rw [h]; exact createAndSentScriptParsedEvents_no_id fe c
      rw [hrest]
      simp [sentTo, hasId, QVariant.toMap, QMap.contains]
    · simp [QVariant.toMap, QMap.value, QMap.valueD]
  · by_cases hcase : (QMap.value cmd "method").toString ∈ debuggerNoOp ∨
        ((QMap.value cmd "method").toString ∈ runtimeNoOp ∧
          QMap.contains cmd MAPPER_METADATA = false)
    · obtain ⟨resp, heq, hrid⟩ := onCdpMessageReceived_noop fe table cmd c n hid hrange h0 hcase
      refine ⟨.map resp, ?_, hrid⟩
      rw [heq, sendToClient_connected c _ hconn]
      simp [sentTo, hasId_of_value resp n hrid]
    · have hr : (QMap.value cmd "method").toString ∈ runtimeNoOp := by
        rcases hnoop with h | h
        · exact absurd (Or.inl h) hcase
        · exact h
      have hm : QMap.contains cmd MAPPER_METADATA = true := by
        by_contra hm
        exact hcase (Or.inr ⟨hr, by simpa using hm⟩)
      obtain ⟨hd1, hd2⟩ := runtime_not_debugger (Or.inr hr)
      have hv4 : (V4CdpMapper.mapCdpToV4Request (QJsonObject.withKey cmd "method") table).1
          = [] := by
        rw [dispatch_preset _ table (by rw [QJsonObject.value_withKey]; exact hd1)
          (by rw [QJsonObject.value_withKey]; exact hd2)
          (by rw [QJsonObject.contains_withKey _ _ _ (by decide)]; exact hm)]
      apply herr
      rw [onCdpMessageReceived_error fe table cmd c n hid hrange hn
        (not_local_of_unmapped cmd (noop_not_local (Or.inr hr))) hv4]
  · apply herr
    rw [onCdpMessageReceived_error fe table cmd c n hid hrange hn
      (not_local_of_unmapped cmd hl) (dispatch_unmapped _ table
        (by rw [QJsonObject.value_withKey]; exact hd1)
        (by rw [QJsonObject.value_withKey]; exact hd2)
        (by rw [QJsonObject.value_withKey]; exact hr1)
        (by rw [QJsonObject.value_withKey]; exact hr2))]

/-- C7 fails on the code as stated: a `Runtime.enable` request with the integer id -1 is
dropped without any reply, so is a `Debugger.disable` request with the integer id
2147483648, which does not fit a C++ `int`, and a NoOp passthrough request with the negative
id -5 is answered with the empty object, a message without an `id` field. -/
theorem onCdpMessageReceived_negative_id_no_echo :
    (demoFrontend.onCdpMessageReceived []
        (some (.map [("id", .num (-1)), ("method", .str "Runtime.enable")]))
        (some { sock := 1, connected := true })).2 = [] ∧
    (demoFrontend.onCdpMessageReceived []
        (some (.map [("id", .num 2147483648), ("method", .str "Debugger.disable")]))
        (some { sock := 1, connected := true })).2 = [] ∧
    (demoFrontend.onCdpMessageReceived []
        (some (.map [("id", .num (-5)), ("method", .str "Runtime.addBinding")]))
        (some { sock := 1, connected := true })).2 = [Effect.sendTextMessage 1 (.map [])] ∧
    (sentTo 1 (demoFrontend.onCdpMessageReceived []
        (some (.map [("id", .num (-5)), ("method", .str "Runtime.addBinding")]))
        (some { sock := 1, connected := true })).2).filter hasId = [] :=
  ⟨rfl, rfl, rfl, rfl⟩

/-- Witness of C7 as amended: scenario S5, `{"id":7,"method":"Runtime.enable"}` from the
connected client on socket 1. -/
theorem onCdpMessageReceived_echoes_id_witness :
    ∃ doc : QVariant,
      (sentTo 1 (demoFrontend.onCdpMessageReceived []
        (some (.map [("id", .num 7), ("method", .str "Runtime.enable")]))
        (some { sock := 1, connected := true })).2).filter hasId = [doc] ∧
      QMap.value doc.toMap "id" = .num 7 :=
  onCdpMessageReceived_echoes_id demoFrontend []
    [("id", .num 7), ("method", .str "Runtime.enable")] { sock := 1, connected := true } 7
    rfl (by decide) (by decide) rfl (Or.inl (by decide))

/-! ## The pending-table invariant (C8) -/

theorem forwardedIds_append (a b : List Effect) :
    forwardedIds (a ++ b) = forwardedIds a ++ forwardedIds b := by
  induction a with
  | nil => rfl
  | cons e rest ih => cases e <;> simp [forwardedIds, ih]

theorem forwardedIds_sendToClient (client : Option QWebSocket) (doc : QVariant) :
    forwardedIds (CdpDebuggerFrontend.sendToClient client doc) = [] := by
  cases client with
  | none => rfl
  | some c => cases h : c.connected <;> simp [CdpDebuggerFrontend.sendToClient, h, forwardedIds]

theorem forwardedIds_events (client : Option QWebSocket) (docOf : QVariant → QVariant)
    (scripts : List QVariant) :
    forwardedIds ((scripts.map (fun scriptVar =>
      CdpDebuggerFrontend.sendToClient client (docOf scriptVar))).flatten) = [] := by
  induction scripts with
  | nil => rfl
  | cons sv rest ih =>
    rw [List.map_cons, List.flatten_cons, forwardedIds_append, ih, forwardedIds_sendToClient]
    rfl

theorem forwardedIds_scriptParsed (fe : CdpDebuggerFrontend) (client : Option QWebSocket) :
    forwardedIds (fe.createAndSentScriptParsedEvents client) = [] := by
  simp only [CdpDebuggerFrontend.createAndSentScriptParsedEvents,
    CdpDebuggerFrontend.blockingV4BackendCall, forwardedIds_append, forwardedIds,
    List.nil_append]
  exact forwardedIds_events client _ _

theorem QJsonValue.toInt_accepts (v : QVariant) (h : QJsonValue.toInt v (-1) ≠ -1) :
    ∃ n, v = .num n ∧ inIntRange n ∧ n ≠ -1 := by
  cases v with
  | num n =>
    by_cases hr : inIntRange n
    · simp only [QJsonValue.toInt, hr, if_true] at h
      exact ⟨n, rfl, hr, h⟩
    · simp [QJsonValue.toInt, hr] at h
  | null => simp [QJsonValue.toInt] at h
  | bool b => simp [QJsonValue.toInt] at h
  | str s => simp [QJsonValue.toInt] at h
  | list xs => simp [QJsonValue.toInt] at h
  | map kvs => simp [QJsonValue.toInt] at h

/-- A frame that is not a request object with an accepted id is dropped. -/
theorem onCdpMessageReceived_dropped (fe : CdpDebuggerFrontend) (table : OrigCdpRequests)
    (doc : Option QVariant) (client : Option QWebSocket)
    (h : client = none ∨ ¬ ∃ cmd n, doc = some (.map cmd) ∧ QMap.value cmd "id" = .num n ∧
      inIntRange n ∧ n ≠ -1) :
    fe.onCdpMessageReceived table doc client = (table, []) := by
  cases client with
  | none => rfl
  | some c =>
    rcases h with h | h
    · cases h
    · cases doc with
      | none => rfl
      | some d =>
        cases d with
        | map cmd =>
          simp only [CdpDebuggerFrontend.onCdpMessageReceived, QVariant.canConvertMap,
            QVariant.toMap, Bool.not_true, Bool.false_eq_true, if_false]
          by_cases h1 : QMap.contains cmd "id" = true
          · by_cases h2 : QJsonValue.toInt (QMap.value cmd "id") (-1) = -1
            · simp only [h1, h2, if_true]
            · exfalso
              obtain ⟨n, hv, hr, hn⟩ := QJsonValue.toInt_accepts _ h2
              exact h ⟨cmd, n, rfl, hv, hr, hn⟩
          · have h1' : QMap.contains cmd "id" = false := by simpa using h1
            simp only [h1', Bool.false_eq_true, if_false]
        | null => rfl
        | bool b => rfl
        | num n => rfl
        | str s => rfl
        | list xs => rfl

/-- A request that a domain mapper turns into a command for the backend: the tagged request
is stored under its id and the command is emitted. -/
theorem onCdpMessageReceived_forwarded (fe : CdpDebuggerFrontend) (table : OrigCdpRequests)
    (cmd : QVariantMap) (c : QWebSocket) (n : Int)
    (hid : QMap.value cmd "id" = .num n) (hrange : inIntRange n) (hn : n ≠ -1)
    (hlocal : QJsonValue.toString (QMap.value cmd "method") ∉ locallyHandled)
    (h : (QMap.value cmd "method").toString ∈ debuggerForwarded ∨
      ((QMap.value cmd "method").toString ∈ runtimeForwarded ∧
        QMap.contains cmd MAPPER_METADATA = false)) :
    ∃ v4 req : QVariantMap,
      fe.onCdpMessageReceived table (some (.map cmd)) (some c)
        = (V4CdpMapper.storeOrigCdpRequest table n req,
           [Effect.sendRequestToBackend (.map v4)]) ∧
      (QMap.value v4 "ID").toInt = n := by
  have hnum : (QVariant.num n).toInt = n := toInt_num n hrange
  have hmeth : QMap.contains cmd "method" = true := by
    rcases h with h | h
    · exact contains_method_of_mem cmd _ (by decide) h
    · exact contains_method_of_mem cmd _ (by decide) h.1
  rw [onCdpMessageReceived_mapped fe table cmd c n hid hrange hn hlocal hmeth]
  rcases h with h | ⟨h, hm⟩
  · obtain ⟨-, hne, hID, hp⟩ := debugger_handled cmd h
    rw [dispatch_debugger cmd table (Or.inl h)]
    have hemp : (V4CdpMapper.mapCdpToV4Request_debugger cmd).1.isEmpty = false := by
      cases hh : (V4CdpMapper.mapCdpToV4Request_debugger cmd).1 with
      | nil => exact absurd hh hne
      | cons a b => rfl
    simp only [hp, Bool.false_eq_true, false_and, if_false, hemp, if_true, hid, hnum]
    refine ⟨_, _, rfl, ?_⟩
    rcases hID with h' | h'
    · rw [h', hid, hnum]
    · rw [h', hid, hnum, hnum]
  · obtain ⟨hd1, hd2⟩ := runtime_not_debugger (Or.inl h)
    obtain ⟨-, hne, hID, hp⟩ := runtime_handled cmd h
    rw [dispatch_runtime cmd table hd1 hd2 hm (Or.inl h)]
    have hemp : (V4CdpMapper.mapCdpToV4Request_runtime cmd).1.isEmpty = false := by
      cases hh : (V4CdpMapper.mapCdpToV4Request_runtime cmd).1 with
      | nil => exact absurd hh hne
      | cons a b => rfl
    simp only [hp, Bool.false_eq_true, false_and, if_false, hemp, if_true, hid, hnum]
    refine ⟨_, _, rfl, ?_⟩
    rcases hID with h' | h'
    · rw [h', hid, hnum]
    · rw [h', hid, hnum, hnum]

/-- The table a response leaves behind: the entry of its id is taken when the id is not
negative. -/
theorem mapV4ToCdpResponse_table (v4Response : QVariantMap) (table : OrigCdpRequests) :
    (V4CdpMapper.mapV4ToCdpResponse v4Response table).2
      = if (QMap.value v4Response "ID").toInt < 0 then table
        else (V4CdpMapper.takeOrigCdpRequest table (QMap.value v4Response "ID").toInt).2 := by
  simp only [V4CdpMapper.mapV4ToCdpResponse]
  split_ifs <;> first | rfl | (split <;> rfl)

theorem QMap.valueD_of_value (m : QVariantMap) (k : String) (v d : QVariant)
    (h : QMap.value m k = v) (hv : v ≠ .null) : QMap.valueD m k d = v := by
  induction m with
  | nil => simp [QMap.value, QMap.valueD] at h; exact absurd h.symm hv
  | cons e rest ih =>
    obtain ⟨k0, v0⟩ := e
    by_cases h1 : k0 = k
    · simp only [QMap.value, QMap.valueD, h1, if_true] at h ⊢
      exact h
    · simp only [QMap.value, QMap.valueD, h1, if_false] at h ⊢
      exact ih h

/-- A backend response whose `ID` is a non-negative C++ int removes the table entry of that
id. -/
theorem onBackendResponse_table (fe : CdpDebuggerFrontend) (table : OrigCdpRequests)
    (m : QVariantMap) (i : Int) (hID : QMap.value m "ID" = .num i) (h0 : 0 ≤ i)
    (hrange : inIntRange i) :
    (fe.onBackendResponse table (.map m)).1 = QHash.remove table i := by
  have hnum : (QVariant.num i).toInt = i := toInt_num i hrange
  have hD : QMap.valueD m "ID" (.num (-1)) = .num i :=
    QMap.valueD_of_value m "ID" (.num i) _ hID (by simp)
  have hne : ¬ i = -1 := by omega
  have hneg : ¬ i < 0 := by omega
  simp only [CdpDebuggerFrontend.onBackendResponse, QVariant.canConvertMap, QVariant.toMap,
    Bool.not_true, Bool.false_eq_true, if_false, hD, hnum, hne, mapV4ToCdpResponse_table, hID,
    hneg]
  by_cases hc : QHash.contains table i = true
  · simp [V4CdpMapper.takeOrigCdpRequest, hc, QHash.take]
  · have hc' : QHash.contains table i = false := by simpa using hc
    rw [V4CdpMapper.takeOrigCdpRequest_absent table i hc']
    simp only [QHash.remove]
    symm
    rw [List.filter_eq_self]
    intro e he
    simp only [QHash.contains, List.any_eq_false, beq_iff_eq] at hc'
    simpa using hc' e he

theorem Session.consistent_initial : Session.initial.consistent := by
  refine ⟨fun id => ?_, List.nodup_nil, fun id h => ?_⟩
  · simp [Session.initial, QHash.contains]
  · simp [Session.initial] at h

theorem Session.consistent_of_same_keys (s : Session) (t : OrigCdpRequests)
    (hs : s.consistent) (h : ∀ id, QHash.contains t id = QHash.contains s.table id) :
    Session.consistent { table := t, inFlight := s.inFlight ++ [] } := by
  obtain ⟨h1, h2, h3⟩ := hs
  refine ⟨fun id => ?_, by simpa using h2, fun id hid => h3 id (by simpa using hid)⟩
  rw [h id, h1 id]
  simp

theorem Session.contains_remove_not_in_flight (s : Session) (hs : s.consistent) (n : Int)
    (hn : n ∉ s.inFlight) (id : Int) :
    QHash.contains (QHash.remove s.table n) id = QHash.contains s.table id := by
  rw [QHash.contains_remove]
  by_cases h : id = n
  · subst h
    have : QHash.contains s.table id = false := by
      cases hc : QHash.contains s.table id with
      | false => rfl
      | true => exact absurd ((hs.1 id).1 hc) hn
    simp [this]
  · simp [h]

theorem Session.step_message_eq (fe : CdpDebuggerFrontend) (s : Session)
    (doc : Option QVariant) (client : Option QWebSocket) (t : OrigCdpRequests)
    (effects : List Effect) (h : fe.onCdpMessageReceived s.table doc client = (t, effects)) :
    s.step fe (.cdpMessage doc client)
      = Session.mk t (s.inFlight ++ forwardedIds effects) := by
  simp only [Session.step, h]

/-- One client frame keeps the table and the ids in flight consistent, provided the frame is a
fresh request; a frame that emits no backend command leaves the set of table keys as it
was. -/
theorem Session.step_message_consistent (fe : CdpDebuggerFrontend) (s : Session)
    (doc : Option QVariant) (client : Option QWebSocket) (hs : s.consistent)
    (hf : s.freshRequest doc = true) :
    (s.step fe (.cdpMessage doc client)).consistent ∧
    (forwardedIds (fe.onCdpMessageReceived s.table doc client).2 = [] →
      ∀ id, QHash.contains (fe.onCdpMessageReceived s.table doc client).1 id
        = QHash.contains s.table id) := by
  have hsame : ∀ (t : OrigCdpRequests) (effects : List Effect),
      fe.onCdpMessageReceived s.table doc client = (t, effects) →
      forwardedIds effects = [] →
      (∀ id, QHash.contains t id = QHash.contains s.table id) →
      (s.step fe (.cdpMessage doc client)).consistent ∧
        (forwardedIds (fe.onCdpMessageReceived s.table doc client).2 = [] →
          ∀ id, QHash.contains (fe.onCdpMessageReceived s.table doc client).1 id
            = QHash.contains s.table id) := by
    intro t effects heq hfw hkeys
    rw [Session.step_message_eq fe s doc client t effects heq, heq, hfw]
    exact ⟨Session.consistent_of_same_keys s t hs hkeys, fun _ => hkeys⟩
  by_cases hv : client = none ∨ ¬ ∃ cmd n, doc = some (.map cmd) ∧
      QMap.value cmd "id" = .num n ∧ inIntRange n ∧ n ≠ -1
  · exact hsame _ _ (onCdpMessageReceived_dropped fe s.table doc client hv) rfl (fun _ => rfl)
  · rw [not_or, not_not] at hv
    obtain ⟨hc, cmd, n, hdoc, hid, hrange, hn⟩ := hv
    obtain ⟨c, hclient⟩ := Option.ne_none_iff_exists'.mp hc
    subst hdoc
    subst hclient
    simp only [Session.freshRequest, hid, Bool.and_eq_true, Bool.not_eq_true',
      decide_eq_true_eq, List.contains_eq_any_beq, List.any_eq_false, beq_iff_eq] at hf
    obtain ⟨hm, h0, hnf⟩ := hf
    have hnf' : n ∉ s.inFlight := fun h => hnf n h rfl
    have hforward : ∀ (v4 req : QVariantMap),
        fe.onCdpMessageReceived s.table (some (.map cmd)) (some c)
          = (V4CdpMapper.storeOrigCdpRequest s.table n req,
             [Effect.sendRequestToBackend (.map v4)]) →
        (QMap.value v4 "ID").toInt = n →
        (s.step fe (.cdpMessage (some (.map cmd)) (some c))).consistent ∧
          (forwardedIds (fe.onCdpMessageReceived s.table (some (.map cmd)) (some c)).2 = [] →
            ∀ id, QHash.contains (fe.onCdpMessageReceived s.table (some (.map cmd))
              (some c)).1 id = QHash.contains s.table id) := by
      intro v4 req heq hID
      rw [Session.step_message_eq fe s _ _ _ _ heq, heq]
      simp only [forwardedIds, QVariant.toMap, hID]
      obtain ⟨h1, h2, h3⟩ := hs
      refine ⟨⟨fun id => ?_, ?_, fun id hmem => ?_⟩, fun h => by simp at h⟩
      · simp only [V4CdpMapper.storeOrigCdpRequest, QHash.contains_insert_id, Bool.or_eq_true,
          decide_eq_true_eq, List.mem_append, List.mem_singleton, h1 id]
        tauto
      · rw [List.nodup_append]
        refine ⟨h2, List.nodup_singleton n, ?_⟩
        intro a ha hb
        rw [List.mem_singleton] at hb
        exact hnf' (hb ▸ ha)
      · rw [List.mem_append, List.mem_singleton] at hmem
        rcases hmem with hmem | hmem
        · exact h3 id hmem
        · subst hmem
          exact ⟨h0, hrange⟩
    by_cases hl : QJsonValue.toString (QMap.value cmd "method") ∈ locallyHandled
    · obtain ⟨htab, result, more, heff, hmore⟩ :=
        onCdpMessageReceived_local fe s.table cmd c n hid hrange hn hl
      refine hsame _ _ (Prod.ext htab heff) ?_ (fun _ => rfl)
      rw [forwardedIds_append, forwardedIds_sendToClient]
      rcases hmore with h | h
      · rw [h]; rfl
      · rw [h, forwardedIds_scriptParsed]; rfl
    · by_cases hd1 : (QMap.value cmd "method").toString ∈ debuggerForwarded
      · obtain ⟨v4, req, heq, hID⟩ := onCdpMessageReceived_forwarded fe s.table cmd c n hid
          hrange hn hl (Or.inl hd1)
        exact hforward v4 req heq hID
      · by_cases hd2 : (QMap.value cmd "method").toString ∈ debuggerNoOp
        · obtain ⟨resp, heq, -⟩ := onCdpMessageReceived_noop fe s.table cmd c n hid hrange h0
            (Or.inl hd2)
          exact hsame _ _ heq (forwardedIds_sendToClient _ _)
            (Session.contains_remove_not_in_flight s hs n hnf')
        · by_cases hr1 : (QMap.value cmd "method").toString ∈ runtimeForwarded
          · obtain ⟨v4, req, heq, hID⟩ := onCdpMessageReceived_forwarded fe s.table cmd c n
              hid hrange hn hl (Or.inr ⟨hr1, hm⟩)
            exact hforward v4 req heq hID
          · by_cases hr2 : (QMap.value cmd "method").toString ∈ runtimeNoOp
            · obtain ⟨resp, heq, -⟩ := onCdpMessageReceived_noop fe s.table cmd c n hid hrange
                h0 (Or.inr ⟨hr2, hm⟩)
              exact hsame _ _ heq (forwardedIds_sendToClient _ _)
                (Session.contains_remove_not_in_flight s hs n hnf')
            · have hnone := dispatch_none (QJsonObject.withKey cmd "method") s.table
                (by rw [QJsonObject.value_withKey]; exact hd1)
                (by rw [QJsonObject.value_withKey]; exact hd2)
                (by rw [QJsonObject.value_withKey]; exact hr1)
                (by rw [QJsonObject.value_withKey]; exact hr2)
                (by rw [QJsonObject.contains_withKey _ _ _ (by decide)]; exact hm)
              have heq := onCdpMessageReceived_error fe s.table cmd c n hid hrange hn hl
                (by rw [hnone])
              rw [hnone] at heq
              exact hsame _ _ heq (forwardedIds_sendToClient _ _) (fun _ => rfl)

/-- One backend response that answers a command in flight keeps the table and the ids in
flight consistent. -/
theorem Session.step_response_consistent (fe : CdpDebuggerFrontend) (s : Session)
    (response : QVariant) (hs : s.consistent) (ha : s.answers response = true) :
    (s.step fe (.backendResponse response)).consistent := by
  cases response with
  | map m =>
    simp only [Session.answers, answeredId, QVariant.canConvertMap, QVariant.toMap,
      Bool.true_and] at ha
    cases hv : QMap.value m "ID" with
    | num i =>
      rw [hv] at ha
      simp only [List.contains_eq_any_beq, List.any_eq_true, beq_iff_eq] at ha
      have hj : i ∈ s.inFlight := by
        obtain ⟨j, hj, hij⟩ := ha
        exact hij ▸ hj
      obtain ⟨h1, h2, h3⟩ := hs
      obtain ⟨h0, hrange⟩ := h3 i hj
      have hstep : s.step fe (.backendResponse (.map m))
          = Session.mk (QHash.remove s.table i) (s.inFlight.erase i) := by
        simp only [Session.step, answeredId, QVariant.toMap, hv,
          onBackendResponse_table fe s.table m i hv h0 hrange]
      rw [hstep]
      refine ⟨fun id => ?_, h2.erase i, fun id hmem => h3 id (List.mem_of_mem_erase hmem)⟩
      simp only [QHash.contains_remove, Bool.and_eq_true, decide_eq_true_eq, h1 id,
        h2.mem_erase_iff]
      tauto
    | null => rw [hv] at ha; simp at ha
    | bool b => rw [hv] at ha; simp at ha
    | str x => rw [hv] at ha; simp at ha
    | list xs => rw [hv] at ha; simp at ha
    | map kvs => rw [hv] at ha; simp at ha
  | null => simp [Session.answers, QVariant.canConvertMap] at ha
  | bool b => simp [Session.answers, QVariant.canConvertMap] at ha
  | num n => simp [Session.answers, QVariant.canConvertMap] at ha
  | str x => simp [Session.answers, QVariant.canConvertMap] at ha
  | list xs => simp [Session.answers, QVariant.canConvertMap] at ha

theorem Session.run_consistent (fe : CdpDebuggerFrontend) (es : List Incoming) :
    ∀ s : Session, s.consistent → Session.admissible fe s es = true →
      (Session.run fe s es).consistent := by
  induction es with
  | nil => intro s hs _; exact hs
  | cons e rest ih =>
    intro s hs ha
    cases e with
    | cdpMessage doc client =>
      simp only [Session.admissible, Bool.and_eq_true] at ha
      exact ih _ (Session.step_message_consistent fe s doc client hs ha.1).1 ha.2
    | backendResponse response =>
      simp only [Session.admissible, Bool.and_eq_true] at ha
      exact ih _ (Session.step_response_consistent fe s response hs ha.1) ha.2

theorem QHash.mem_keys (t : OrigCdpRequests) (id : Int) :
    id ∈ t.map Prod.fst ↔ QHash.contains t id = true := by
  simp [QHash.contains, List.any_eq_true]

theorem QHash.keys_nodup_remove (t : OrigCdpRequests) (id : Int)
    (h : (t.map Prod.fst).Nodup) : ((QHash.remove t id).map Prod.fst).Nodup :=
  h.sublist ((List.filter_sublist t).map Prod.fst)

theorem QHash.keys_nodup_insert (t : OrigCdpRequests) (id : Int) (v : QVariantMap)
    (h : (t.map Prod.fst).Nodup) : ((QHash.insert t id v).map Prod.fst).Nodup := by
  simp only [QHash.insert, List.map_cons, List.nodup_cons]
  refine ⟨?_, QHash.keys_nodup_remove t id h⟩
  rw [QHash.mem_keys, QHash.contains_remove]
  simp

theorem takeOrigCdpRequest_keys_nodup (t : OrigCdpRequests) (id : Int)
    (h : (t.map Prod.fst).Nodup) :
    ((V4CdpMapper.takeOrigCdpRequest t id).2.map Prod.fst).Nodup := by
  simp only [V4CdpMapper.takeOrigCdpRequest, QHash.take]
  split_ifs
  · exact h
  · exact QHash.keys_nodup_remove t id h

theorem mapV4ToCdpResponse_keys_nodup (v4Response : QVariantMap) (t : OrigCdpRequests)
    (h : (t.map Prod.fst).Nodup) :
    ((V4CdpMapper.mapV4ToCdpResponse v4Response t).2.map Prod.fst).Nodup := by
  rw [mapV4ToCdpResponse_table]
  split_ifs
  · exact h
  · exact takeOrigCdpRequest_keys_nodup t _ h

theorem tryMap_keys_nodup (mapper : QVariantMap → QVariantMap × QVariantMap)
    (s : MapCdpState) (h : (s.table.map Prod.fst).Nodup) :
    ((V4CdpMapper.tryMap mapper s).2.table.map Prod.fst).Nodup := by
  simp only [V4CdpMapper.tryMap, V4CdpMapper.storeOrigCdpRequest]
  split_ifs
  · exact QHash.keys_nodup_insert _ _ _ h
  · exact h

theorem mapCdpToV4Request_keys_nodup (req : QVariantMap) (t : OrigCdpRequests)
    (h : (t.map Prod.fst).Nodup) :
    ((V4CdpMapper.mapCdpToV4Request req t).2.2.map Prod.fst).Nodup := by
  have h1 := tryMap_keys_nodup V4CdpMapper.mapCdpToV4Request_debugger
    { v4 := [], cdpRequest := req, table := t } h
  have h2 := tryMap_keys_nodup V4CdpMapper.mapCdpToV4Request_runtime _ h1
  simp only [V4CdpMapper.mapCdpToV4Request]
  split_ifs
  · exact h1
  · exact h2
  · exact h2

/-- The handlers keep the keys of the table distinct, whatever they are handed. -/
theorem onCdpMessageReceived_keys_nodup (fe : CdpDebuggerFrontend) (t : OrigCdpRequests)
    (doc : Option QVariant) (client : Option QWebSocket) (h : (t.map Prod.fst).Nodup) :
    ((fe.onCdpMessageReceived t doc client).1.map Prod.fst).Nodup := by
  have h1 := mapCdpToV4Request_keys_nodup
  have h2 := mapV4ToCdpResponse_keys_nodup
  simp only [CdpDebuggerFrontend.onCdpMessageReceived]
  split
  · exact h
  · split
    · exact h
    · split_ifs <;> first | exact h | exact h1 _ _ h | exact h2 _ _ (h1 _ _ h)

theorem onBackendResponse_keys_nodup (fe : CdpDebuggerFrontend) (t : OrigCdpRequests)
    (response : QVariant) (h : (t.map Prod.fst).Nodup) :
    ((fe.onBackendResponse t response).1.map Prod.fst).Nodup := by
  simp only [CdpDebuggerFrontend.onBackendResponse]
  split_ifs <;> first | exact h | exact mapV4ToCdpResponse_keys_nodup _ _ h

theorem Session.run_keys_nodup (fe : CdpDebuggerFrontend) (es : List Incoming) :
    ∀ s : Session, (s.table.map Prod.fst).Nodup →
      ((Session.run fe s es).table.map Prod.fst).Nodup := by
  induction es with
  | nil => intro s hs; exact hs
  | cons e rest ih =>
    intro s hs
    cases e with
    | cdpMessage doc client =>
      exact ih _ (onCdpMessageReceived_keys_nodup fe s.table doc client hs)
    | backendResponse response =>
      exact ih _ (onBackendResponse_keys_nodup fe s.table response hs)

/-- C8, as amended: start from the empty table and let every client frame be a fresh request
(no key `_mapper_metadata`, a non-negative id that no command in flight uses) and every
backend response answer a command in flight. Then after the whole sequence the table holds an
entry exactly for the ids of the commands forwarded to the backend and not yet answered, its
size is the number of commands in flight, it is empty when no command is in flight, and a
further fresh frame that is answered without emitting a backend command leaves the set of
table keys as it was. -/
theorem pending_table_tracks_in_flight (fe : CdpDebuggerFrontend) (es : List Incoming)
    (h : Session.admissible fe Session.initial es = true) :
    (∀ id : Int, QHash.contains (Session.run fe Session.initial es).table id = true ↔
      id ∈ (Session.run fe Session.initial es).inFlight) ∧
    (Session.run fe Session.initial es).table.length
      = (Session.run fe Session.initial es).inFlight.length ∧
    ((Session.run fe Session.initial es).inFlight = [] →
      (Session.run fe Session.initial es).table = []) ∧
    (∀ (doc : Option QVariant) (client : Option QWebSocket),
      (Session.run fe Session.initial es).freshRequest doc = true →
      forwardedIds
        (fe.onCdpMessageReceived (Session.run fe Session.initial es).table doc client).2 = [] →
      ∀ id : Int, QHash.contains
          (fe.onCdpMessageReceived (Session.run fe Session.initial es).table doc client).1 id
        = QHash.contains (Session.run fe Session.initial es).table id) := by
  have hc := Session.run_consistent fe es Session.initial Session.consistent_initial h
  have hk := Session.run_keys_nodup fe es Session.initial List.nodup_nil
  refine ⟨hc.1, ?_, fun hnil => ?_, fun doc client hf => ?_⟩
  · have hperm : ((Session.run fe Session.initial es).table.map Prod.fst).Perm
        (Session.run fe Session.initial es).inFlight :=
      (List.perm_ext_iff_of_nodup hk hc.2.1).2
        (fun id => by rw [QHash.mem_keys]; exact hc.1 id)
    simpa using hperm.length_eq
  · apply QHash.eq_nil_of_contains_false
    intro id
    cases hcon : QHash.contains (Session.run fe Session.initial es).table id with
    | false => rfl
    | true =>
      have := (hc.1 id).1 hcon
      rw [hnil] at this
      simp at this
  · exact (Session.step_message_consistent fe _ doc client hc hf).2

/-- Witness of C8 as amended: the session `demoSession` is admissible and ends with the
empty table and nothing in flight. -/
theorem pending_table_tracks_in_flight_witness :
    Session.admissible demoFrontend Session.initial demoSession = true ∧
    (Session.run demoFrontend Session.initial demoSession).inFlight = [] ∧
    (Session.run demoFrontend Session.initial demoSession).table = [] :=
  ⟨rfl, rfl, (pending_table_tracks_in_flight demoFrontend demoSession rfl).2.2.1 rfl⟩

/-- C8 fails on the code as stated, on sequences in which every backend response answers a
command in flight: a NoOp passthrough request with a negative id, and an unmapped method on a
request carrying `_mapper_metadata`, each leave a table entry although no backend command
was emitted; and after two forwarded requests with the same id and one reply the table is
empty while one command is still in flight. -/
theorem pending_table_invariant_fails :
    (Session.answering demoFrontend Session.initial negativeIdSession = true ∧
      (Session.run demoFrontend Session.initial negativeIdSession).inFlight = [] ∧
      QHash.contains (Session.run demoFrontend Session.initial negativeIdSession).table (-5)
        = true) ∧
    (Session.answering demoFrontend Session.initial presetMetadataSession = true ∧
      (Session.run demoFrontend Session.initial presetMetadataSession).inFlight = [] ∧
      QHash.contains (Session.run demoFrontend Session.initial presetMetadataSession).table 1
        = true) ∧
    (Session.answering demoFrontend Session.initial reusedIdSession = true ∧
      (Session.run demoFrontend Session.initial reusedIdSession).inFlight = [1] ∧
      (Session.run demoFrontend Session.initial reusedIdSession).table = []) :=
  ⟨⟨rfl, rfl, rfl⟩, ⟨rfl, rfl, rfl⟩, ⟨rfl, rfl, rfl⟩⟩

/-! ## Delivery of backend responses (C9) -/

theorem sendToAll_connected (clients : List (Option QWebSocket)) (doc : QVariant) :
    (clients.map (fun client =>
      match client with
      | none => []
      | some c => CdpDebuggerFrontend.sendToClient (some c) doc)).flatten
      = (connectedSocks clients).map (fun sock => Effect.sendTextMessage sock doc) := by
  induction clients with
  | nil => rfl
  | cons cl rest ih =>
    rw [List.map_cons, List.flatten_cons, ih]
    cases cl with
    | none => simp [connectedSocks]
    | some c =>
      cases hconn : c.connected <;>
        simp [connectedSocks, CdpDebuggerFrontend.sendToClient, hconn]

/-- C9, as amended: for every client registry and every backend response that carries an
`ID` (one that `onBackendResponse` does not read as -1), `onBackendResponse` sends the
translated CDP response exactly once to every registry client in connected state, in
registry order, whoever sent the request, and does nothing else. -/
theorem onBackendResponse_broadcasts_response (fe : CdpDebuggerFrontend)
    (table : OrigCdpRequests) (m : QVariantMap)
    (h : (QMap.valueD m "ID" (.num (-1))).toInt ≠ -1) :
    (fe.onBackendResponse table (.map m)).2
      = (connectedSocks fe.m_responseClients).map (fun sock =>
          Effect.sendTextMessage sock (.map (V4CdpMapper.mapV4ToCdpResponse m table).1)) := by
  simp only [CdpDebuggerFrontend.onBackendResponse, QVariant.canConvertMap, QVariant.toMap,
    Bool.not_true, Bool.false_eq_true, if_false, h, CdpDebuggerFrontend.sendToAll]
  exact sendToAll_connected _ _

/-- Witness of C9 as amended: the reply `{ID: 52, Result: {}}` with the registry of
`demoFrontend` (sockets 1 and 2 connected, socket 3 closed). -/
theorem onBackendResponse_broadcasts_response_witness :
    (demoFrontend.onBackendResponse [] (.map [("ID", .num 52), ("Result", .map [])])).2
      = [Effect.sendTextMessage 1 (.map [("id", .num 52), ("result", .map [])]),
         Effect.sendTextMessage 2 (.map [("id", .num 52), ("result", .map [])])] :=
  onBackendResponse_broadcasts_response demoFrontend [] [("ID", .num 52), ("Result", .map [])]
    (by decide)

/-- C9 fails on the code as stated: the client on socket 1 sends `Debugger.pause` with id 7,
the command is forwarded, and the backend reply is then written to socket 1 and also to
socket 2, a connected client that did not send the request. -/
theorem onBackendResponse_reaches_other_clients :
    (demoFrontend.onCdpMessageReceived []
        (some (.map [("id", .num 7), ("method", .str "Debugger.pause")]))
        (some { sock := 1, connected := true })).2
      = [Effect.sendRequestToBackend
          (.map [("Command", .map [("type", .str "Interrupt")]), ("ID", .num 7)])] ∧
    (demoFrontend.onBackendResponse
        (demoFrontend.onCdpMessageReceived []
          (some (.map [("id", .num 7), ("method", .str "Debugger.pause")]))
          (some { sock := 1, connected := true })).1
        (.map [("ID", .num 7), ("Result", .map [])])).2
      = [Effect.sendTextMessage 1 (.map [("id", .num 7), ("result", .map [])]),
         Effect.sendTextMessage 2 (.map [("id", .num 7), ("result", .map [])])] :=
  ⟨rfl, rfl⟩

/-! ## Debugger.setBreakpointByUrl (C10) -/

/-- The command of the Debugger mapper for every `Debugger.setBreakpointByUrl` request: the
breakpoint data has the keys `condtion`, `enabled`, `fileName` and `lineNumber`. -/
theorem setBreakpointByUrl_command (req : QVariantMap)
    (h : (QMap.value req "method").toString = "Debugger.setBreakpointByUrl") :
    (V4CdpMapper.mapCdpToV4Request_debugger req).1
      = [("Command", .map [("attributes", .map [("breakpointData", .map [
            ("condtion", QMap.value (QMap.value req "params").toMap "condition"),
            ("enabled", .bool true),
            ("fileName", .str (normalizeScriptName
              (QMap.value (QMap.value req "params").toMap "url").toString)),
            ("lineNumber", QMap.value (QMap.value req "params").toMap "lineNumber")])]),
          ("type", .str "SetBreakpoint")]),
         ("ID", QMap.value req "id")] := by
  simp only [V4CdpMapper.mapCdpToV4Request_debugger, h]
  rfl

/-- C10 fails on the code: for the request of scenario S1 the breakpoint data of the
`SetBreakpoint` command carries the condition under the key `condtion`; it has no key
`condition`. -/
theorem setBreakpointByUrl_misspells_condition :
    (V4CdpMapper.mapCdpToV4Request_debugger setBreakpointRequest).1
      = [("Command", .map [("attributes", .map [("breakpointData", .map [
            ("condtion", .str ""), ("enabled", .bool true), ("fileName", .str "test.js"),
            ("lineNumber", .num 2)])]),
          ("type", .str "SetBreakpoint")]),
         ("ID", .num 52)] ∧
    QMap.contains (V4Helpers.getNestedValue
        (V4CdpMapper.mapCdpToV4Request_debugger setBreakpointRequest).1
        ["Command", "attributes", "breakpointData"]).toMap "condition" = false ∧
    QMap.contains (V4Helpers.getNestedValue
        (V4CdpMapper.mapCdpToV4Request_debugger setBreakpointRequest).1
        ["Command", "attributes", "breakpointData"]).toMap "condtion" = true :=
  ⟨rfl, rfl, rfl⟩

/-! ## URL normalisation (C11) -/

section regex

variable {α : Type}

theorem reStar_none (p : Char → Bool) (k : List Char → Option α) (l : List Char)
    (h : ∀ w t, l = w ++ t → (∀ c ∈ w, p c = true) → k t = none) : reStar p k l = none := by
  induction l with
  | nil => exact h [] [] rfl (by simp)
  | cons c cs ih =>
    have h0 : k (c :: cs) = none := h [] (c :: cs) rfl (by simp)
    by_cases hc : p c = true
    · have h1 : reStar p k cs = none := by
        apply ih
        intro w t hw hp
        apply h (c :: w) t (by rw [hw]; rfl)
        intro d hd
        rcases List.mem_cons.mp hd with rfl | hd
        · exact hc
        · exact hp d hd
      simp [reStar, hc, h1, h0]
    · simp [reStar, hc, h0]

theorem reStar_dropWhile (p : Char → Bool) (k : List Char → Option α) (l : List Char) (v : α)
    (h : k (l.dropWhile p) = some v) : reStar p k l = some v := by
  induction l with
  | nil => simpa [reStar] using h
  | cons c cs ih =>
    by_cases hc : p c = true
    · have h1 : reStar p k cs = some v := ih (by simpa [List.dropWhile, hc] using h)
      simp [reStar, hc, h1]
    · have h1 : k (c :: cs) = some v := by simpa [List.dropWhile, hc] using h
      simp [reStar, hc, h1]

theorem reStar_prepend (p : Char → Bool) (k : List Char → Option α) (w t : List Char) (v : α)
    (hw : ∀ c ∈ w, p c = true) (h : reStar p k t = some v) : reStar p k (w ++ t) = some v := by
  induction w with
  | nil => exact h
  | cons c cs ih =>
    have h1 := ih (fun d hd => hw d (List.mem_cons_of_mem c hd))
    have hc : p c = true := hw c (List.mem_cons_self c cs)
    simp [reStar, hc, h1]

/-- Greedy star where the continuation succeeds at `b` and at no later point. -/
theorem reStar_first (p : Char → Bool) (k : List Char → Option α) (a b : List Char) (v : α)
    (ha : ∀ c ∈ a, p c = true) (hb : k b = some v)
    (hafter : ∀ w t, b = w ++ t → w ≠ [] → k t = none) : reStar p k (a ++ b) = some v := by
  apply reStar_prepend p k a b v ha
  cases b with
  | nil => simpa [reStar] using hb
  | cons c cs =>
    by_cases hc : p c = true
    · have h1 : reStar p k cs = none := by
        apply reStar_none
        intro w t hw _
        exact hafter (c :: w) t (by rw [hw]; rfl) (by simp)
      simp [reStar, hc, h1, hb]
    · simp [reStar, hc, hb]

end regex

theorem dropWhile_append_all (p : Char → Bool) (w t : List Char)
    (hw : ∀ c ∈ w, p c = true) : (w ++ t).dropWhile p = t.dropWhile p := by
  induction w with
  | nil => rfl
  | cons c cs ih =>
    have hc : p c = true := hw c (List.mem_cons_self c cs)
    simpa [List.dropWhile, hc] using ih (fun d hd => hw d (List.mem_cons_of_mem c hd))

theorem dropWhile_append_stop (p : Char → Bool) (s : List Char) (c : Char) (b : List Char)
    (hc : p c = false) :
    ∃ s', (∀ d ∈ s', d ∈ s) ∧ (s ++ c :: b).dropWhile p = s' ++ c :: b := by
  induction s with
  | nil => exact ⟨[], by simp, by simp [List.dropWhile, hc]⟩
  | cons d ds ih =>
    by_cases hd : p d = true
    · obtain ⟨s', hs', h⟩ := ih
      exact ⟨s', fun e he => List.mem_cons_of_mem d (hs' e he), by
        simpa [List.dropWhile, hd] using h⟩
    · exact ⟨d :: ds, fun e he => he, by simp [List.dropWhile, hd]⟩

/-! ### Character classes -/

theorem reSpace_isSpace (c : Char) (h : reSpace c = true) : QChar.isSpace c = true := by
  simp only [reSpace, Bool.or_eq_true, Bool.and_eq_true, beq_iff_eq, decide_eq_true_eq] at h
  simp only [QChar.isSpace, Bool.or_eq_true, Bool.and_eq_true, beq_iff_eq, decide_eq_true_eq]
  tauto

theorem reSpace_not_lineFeed (c : Char) (h : reSpace c = false) : (c.toNat == 10) = false := by
  cases h10 : (c.toNat == 10)
  · rfl
  · have : c.toNat = 10 := by simpa using h10
    simp [reSpace, this] at h

theorem reSpace_not_sep (c : Char) (h : reSpace c = true) : c ∉ [':', '/', '/'] := by
  intro hc
  simp only [List.mem_cons, List.mem_singleton, List.mem_nil_iff, or_false] at hc
  rcases hc with rfl | rfl | rfl <;> exact absurd h (by decide)

theorem isAsciiDigit_not_sep (c : Char) (h : isAsciiDigit c = true) : c ∉ [':', '/', '/'] := by
  intro hc
  simp only [List.mem_cons, List.mem_singleton, List.mem_nil_iff, or_false] at hc
  rcases hc with rfl | rfl | rfl <;> exact absurd h (by decide)

/-! ### QString::trimmed -/

theorem dropWhile_eq_of_length (p : Char → Bool) (l : List Char)
    (h : l.length ≤ (l.dropWhile p).length) : l.dropWhile p = l :=
  (List.dropWhile_suffix p).eq_of_length (le_antisymm (List.dropWhile_suffix p).length_le h)

theorem head_of_dropWhile_eq (p : Char → Bool) (c : Char) (cs : List Char)
    (h : (c :: cs).dropWhile p = c :: cs) : p c = false := by
  cases hc : p c
  · rfl
  · have h1 : (c :: cs).dropWhile p = cs.dropWhile p := by simp [List.dropWhile, hc]
    have h2 := (List.dropWhile_suffix p (l := cs)).length_le
    rw [← h1, h] at h2
    simp at h2

/-- A string that `trimmed` leaves unchanged has no white space at either end. -/
theorem trimmedChars_fixed (cs : List Char) (h : trimmedChars cs = cs) :
    cs.dropWhile QChar.isSpace = cs ∧ cs.reverse.dropWhile QChar.isSpace = cs.reverse := by
  have h1 : ((cs.dropWhile QChar.isSpace).reverse.dropWhile QChar.isSpace).length = cs.length := by
    have := congrArg List.length h
    simpa [trimmedChars] using this
  have h2 := (List.dropWhile_suffix QChar.isSpace
    (l := (cs.dropWhile QChar.isSpace).reverse)).length_le
  have h3 := (List.dropWhile_suffix QChar.isSpace (l := cs)).length_le
  rw [List.length_reverse] at h2
  have h4 : cs.dropWhile QChar.isSpace = cs := dropWhile_eq_of_length _ _ (by omega)
  refine ⟨h4, ?_⟩
  rw [h4] at h1
  exact dropWhile_eq_of_length _ _ (by rw [h1, List.length_reverse])

/-- The ends of a non-empty string that `trimmed` leaves unchanged. -/
theorem trimmedChars_ends (cs : List Char) (h : trimmedChars cs = cs) (hne : cs ≠ []) :
    ∃ m z, cs = m ++ [z] ∧ reSpace z = false ∧ cs.dropWhile reSpace = cs := by
  obtain ⟨h1, h2⟩ := trimmedChars_fixed cs h
  have hrev : cs.reverse ≠ [] := by simpa using hne
  obtain ⟨z, r, hzr⟩ := List.exists_cons_of_ne_nil hrev
  have hz : QChar.isSpace z = false := by
    rw [hzr] at h2
    exact head_of_dropWhile_eq _ z r h2
  have hcs : cs = r.reverse ++ [z] := by
    have := congrArg List.reverse hzr
    simpa using this
  refine ⟨r.reverse, z, hcs, ?_, ?_⟩
  · cases hs : reSpace z
    · rfl
    · rw [reSpace_isSpace z hs] at hz
      exact absurd hz (by decide)
  · obtain ⟨c, rest, hc⟩ := List.exists_cons_of_ne_nil hne
    have hhead : QChar.isSpace c = false := by
      rw [hc] at h1
      exact head_of_dropWhile_eq _ c rest h1
    have hsp : reSpace c = false := by
      cases hs : reSpace c
      · rfl
      · rw [reSpace_isSpace c hs] at hhead
        exact absurd hhead (by decide)
    rw [hc]
    simp [List.dropWhile, hsp]

/-! ### Occurrences of the separator -/

theorem isPrefixOf_append_false (pat x y : List Char) (hx : pat.isPrefixOf x = false)
    (hy : ∀ c ∈ y, c ∉ pat) : pat.isPrefixOf (x ++ y) = false := by
  induction pat generalizing x with
  | nil => simp at hx
  | cons a pat' ih =>
    cases x with
    | nil =>
      cases y with
      | nil => rfl
      | cons c y' =>
        have hca : c ≠ a := fun h => hy c (List.mem_cons_self c y') (by simp [h])
        have hac : ¬ a = c := fun h => hca h.symm
        simp [List.isPrefixOf, hac]
    | cons b x' =>
      by_cases hab : a = b
      · have hx' : pat'.isPrefixOf x' = false := by simpa [List.isPrefixOf, hab] using hx
        have := ih x' hx' (fun c hc h => hy c hc (List.mem_cons_of_mem a h))
        simp [List.isPrefixOf, hab, this]
      · simp [List.isPrefixOf, hab]

theorem indexOfFrom_none (pat : List Char) (l : List Char) (i : Nat)
    (h : indexOfFrom pat l i = none) : ∀ t, t <:+ l → pat.isPrefixOf t = false := by
  induction l generalizing i with
  | nil =>
    intro t ht
    have : t = [] := List.suffix_nil.mp ht
    subst this
    cases pat with
    | nil => simp [indexOfFrom] at h
    | cons a pat' => rfl
  | cons c cs ih =>
    intro t ht
    have hp : pat.isPrefixOf (c :: cs) = false := by
      cases hpre : pat.isPrefixOf (c :: cs)
      · rfl
      · simp [indexOfFrom, hpre] at h
    rcases List.suffix_cons_iff.mp ht with rfl | ht
    · exact hp
    · exact ih (i + 1) (by simpa [indexOfFrom, hp] using h) t ht

/-- No occurrence of the pattern starts anywhere in `pad ++ x ++ y` when none starts in `x`
and neither `pad` nor `y` has a character of the pattern. -/
theorem no_occurrence_append (pat pad x y : List Char) (hpat : pat ≠ [])
    (hx : ∀ t, t <:+ x → pat.isPrefixOf t = false)
    (hpad : ∀ c ∈ pad, c ∉ pat) (hy : ∀ c ∈ y, c ∉ pat) :
    ∀ t, t <:+ pad ++ (x ++ y) → pat.isPrefixOf t = false := by
  have hnil : pat.isPrefixOf [] = false := by
    cases pat with
    | nil => exact absurd rfl hpat
    | cons a pat' => rfl
  have hxy : ∀ t, t <:+ x ++ y → pat.isPrefixOf t = false := by
    clear hpad
    induction x with
    | nil =>
      intro t ht
      have := isPrefixOf_append_false pat [] t hnil
        (fun c hc => hy c (ht.subset hc))
      simpa using this
    | cons c cs ih =>
      intro t ht
      rcases List.suffix_cons_iff.mp ht with rfl | ht
      · exact isPrefixOf_append_false pat (c :: cs) y (hx _ (List.suffix_refl _)) hy
      · exact ih (fun t ht => hx t (ht.trans (List.suffix_cons c cs))) t ht
  induction pad with
  | nil => exact hxy
  | cons c cs ih =>
    intro t ht
    rcases List.suffix_cons_iff.mp ht with rfl | ht
    · cases pat with
      | nil => exact absurd rfl hpat
      | cons a pat' =>
        have hca : ¬ a = c := fun h =>
          hpad c (List.mem_cons_self c cs) (by simp [h])
        simp [List.isPrefixOf, hca]
    · exact ih (fun d hd => hpad d (List.mem_cons_of_mem c hd)) t ht

/-! ### The pattern on the five forms -/

theorem reLit_head {α : Type} (c : Char) (k : List Char → Option α) (cs : List Char) :
    reLit [c] k (c :: cs) = k cs := by
  simp [reLit, List.isPrefixOf]

/-- What may follow the name: white space, then optionally `(`, digits, `)` and white space.
The group and the tail of the pattern match it. -/
theorem reSuffix_pad (p4 : List Char) (h4 : ∀ c ∈ p4, reSpace c = true) :
    reSuffix p4 = some () := by
  have htail : reTail p4 = some () := by
    apply reStar_dropWhile
    have := dropWhile_append_all reSpace p4 [] h4
    simp only [List.append_nil] at this
    rw [this]
    rfl
  simp only [reSuffix, htail]
  split <;> rfl

theorem reSuffix_number (p3 N p4 : List Char) (h3 : ∀ c ∈ p3, reSpace c = true)
    (hN : ∀ c ∈ N, isAsciiDigit c = true) (hne : N ≠ [])
    (h4 : ∀ c ∈ p4, reSpace c = true) :
    reSuffix (p3 ++ ('(' :: (N ++ (')' :: p4)))) = some () := by
  have htail : reTail p4 = some () := by
    apply reStar_dropWhile
    have := dropWhile_append_all reSpace p4 [] h4
    simp only [List.append_nil] at this
    rw [this]
    rfl
  obtain ⟨d, N', rfl⟩ := List.exists_cons_of_ne_nil hne
  have hd : isAsciiDigit d = true := hN d (List.mem_cons_self d N')
  have hN' : ∀ c ∈ N', isAsciiDigit c = true := fun c hc => hN c (List.mem_cons_of_mem d hc)
  have hdigits : reStar isAsciiDigit (fun r => reLit [')'] reTail r) (N' ++ (')' :: p4))
      = some () := by
    apply reStar_dropWhile
    rw [dropWhile_append_all isAsciiDigit N' _ hN']
    have : isAsciiDigit ')' = false := by decide
    simp [List.dropWhile, this, reLit, htail, List.isPrefixOf]
  have hopen : reStar reSpace
      (fun r => reLit ['('] (rePlus isAsciiDigit (fun r => reLit [')'] reTail r)) r)
      (p3 ++ ('(' :: (d :: N' ++ (')' :: p4)))) = some () := by
    apply reStar_dropWhile
    rw [dropWhile_append_all reSpace p3 _ h3]
    have : reSpace '(' = false := by decide
    simp only [List.dropWhile, this, reLit_head, List.cons_append, rePlus, hd, if_true]
    exact hdigits
  simp only [reSuffix, hopen]

/-- A point reached by giving back white space in front of `m ++ z :: S`, where `z` is not
white space, still has `z :: S` behind a part of `m`. -/
theorem split_before (p : Char → Bool) (m : List Char) (z : Char) (S w t : List Char)
    (hz : p z = false) (h : m ++ z :: S = w ++ t) (hw : ∀ c ∈ w, p c = true) :
    ∃ m', (∀ c ∈ m', c ∈ m) ∧ t = m' ++ z :: S := by
  induction w generalizing m with
  | nil => exact ⟨m, fun c hc => hc, by simpa using h.symm⟩
  | cons c w' ih =>
    cases m with
    | nil =>
      simp only [List.nil_append, List.cons_append, List.cons.injEq] at h
      have := hw c (List.mem_cons_self c w')
      rw [← h.1, hz] at this
      exact absurd this (by decide)
    | cons c' m0 =>
      simp only [List.cons_append, List.cons.injEq] at h
      obtain ⟨m', hm', ht⟩ := ih m0 h.2 (fun d hd => hw d (List.mem_cons_of_mem c hd))
      exact ⟨m', fun d hd => List.mem_cons_of_mem c' (hm' d hd), ht⟩

/-- While a character of the name is still ahead, the rest of the pattern does not match. -/
theorem reSuffix_inside (m : List Char) (z : Char) (S : List Char)
    (hm : ∀ c ∈ m, reNoParen c = true) (hz : reNoParen z = true) (hzs : reSpace z = false) :
    reSuffix (m ++ z :: S) = none := by
  have hparen : ∀ c : Char, reNoParen c = true → ¬ '(' = c := by
    intro c hc h
    subst h
    exact absurd hc (by decide)
  have hopen : reStar reSpace
      (fun r => reLit ['('] (rePlus isAsciiDigit (fun r => reLit [')'] reTail r)) r)
      (m ++ z :: S) = none := by
    apply reStar_none
    intro w t hsplit hw
    obtain ⟨m', hm', rfl⟩ := split_before reSpace m z S w t hzs hsplit hw
    cases m' with
    | nil => simp [reLit, List.isPrefixOf, hparen z hz]
    | cons c rest =>
      have := hparen c (hm c (hm' c (List.mem_cons_self c rest)))
      simp [reLit, List.isPrefixOf, this]
  have htail : reTail (m ++ z :: S) = none := by
    apply reStar_none
    intro w t hsplit hw
    obtain ⟨m', hm', rfl⟩ := split_before reSpace m z S w t hzs hsplit hw
    cases m' with
    | nil =>
      cases S with
      | nil => simp [reEnd, reSpace_not_lineFeed z hzs]
      | cons a S' => rfl
    | cons c rest =>
      cases rest with
      | nil => rfl
      | cons c2 rest2 => rfl
  simp only [reSuffix, hopen, htail]

/-- The lazy capture group takes the whole name. -/
theorem reName_name (acc m : List Char) (z : Char) (S : List Char)
    (hm : ∀ c ∈ m, reNoParen c = true) (hz : reNoParen z = true) (hzs : reSpace z = false)
    (hS : reSuffix S = some ()) :
    reName acc (m ++ z :: S) = some (acc ++ (m ++ [z])) := by
  induction m generalizing acc with
  | nil => simp [reName, hz, hS]
  | cons c rest ih =>
    have hc : reNoParen c = true := hm c (List.mem_cons_self c rest)
    have hrest : ∀ d ∈ rest, reNoParen d = true := fun d hd => hm d (List.mem_cons_of_mem c hd)
    have hin := reSuffix_inside rest z S hrest hz hzs
    have := ih (acc ++ [c]) hrest
    simp [reName, hc, hin, this]

/-- The pattern from the white space in front of the name onwards. -/
theorem reAfterScheme_name (p2 n S : List Char) (h2 : ∀ c ∈ p2, reSpace c = true)
    (hn : ∀ c ∈ n, reNoParen c = true) (htrim : trimmedChars n = n) (hne : n ≠ [])
    (hS : reSuffix S = some ()) :
    reAfterScheme (p2 ++ (n ++ S)) = some n := by
  obtain ⟨m, z, hmz, hzs, hdrop⟩ := trimmedChars_ends n htrim hne
  apply reStar_dropWhile
  rw [dropWhile_append_all reSpace p2 _ h2]
  have hdrop2 : (n ++ S).dropWhile reSpace = n ++ S := by
    obtain ⟨c, rest, hc⟩ := List.exists_cons_of_ne_nil hne
    rw [hc] at hdrop ⊢
    have hsp : reSpace c = false := head_of_dropWhile_eq reSpace c rest hdrop
    simp [List.dropWhile, hsp]
  rw [hdrop2, hmz]
  have hm : ∀ c ∈ m, reNoParen c = true := fun c hc => hn c (by rw [hmz]; simp [hc])
  have hz : reNoParen z = true := hn z (by rw [hmz]; simp)
  have := reName_name [] m z S hm hz hzs hS
  simpa using this

/-- Capture group 1 on a name without scheme. -/
theorem reScriptName_plain (p1 n S : List Char) (h1 : ∀ c ∈ p1, reSpace c = true)
    (hn : ∀ c ∈ n, reNoParen c = true) (htrim : trimmedChars n = n) (hne : n ≠ [])
    (hsep : indexOfFrom [':', '/', '/'] n 0 = none)
    (hS : reSuffix S = some ()) (hSsep : ∀ c ∈ S, c ∉ [':', '/', '/']) :
    reScriptName (p1 ++ (n ++ S)) = some n := by
  obtain ⟨m, z, hmz, hzs, hdrop⟩ := trimmedChars_ends n htrim hne
  apply reStar_dropWhile
  rw [dropWhile_append_all reSpace p1 _ h1]
  have hdrop2 : (n ++ S).dropWhile reSpace = n ++ S := by
    obtain ⟨c, rest, hc⟩ := List.exists_cons_of_ne_nil hne
    rw [hc] at hdrop ⊢
    have hsp : reSpace c = false := head_of_dropWhile_eq reSpace c rest hdrop
    simp [List.dropWhile, hsp]
  rw [hdrop2]
  have hnone : reStar reDot (reLit [':', '/', '/'] reAfterScheme) (n ++ S) = none := by
    apply reStar_none
    intro w t hsplit _
    have hocc := no_occurrence_append [':', '/', '/'] [] n S (by simp)
      (indexOfFrom_none _ n 0 hsep) (by simp) hSsep t ⟨w, by simpa using hsplit.symm⟩
    simp [reLit, hocc]
  have hafter := reAfterScheme_name [] n S (by simp) hn htrim hne hS
  simp only [List.nil_append] at hafter
  simp only [hnone, hafter]

/-- Capture group 1 on a name behind a scheme. -/
theorem reScriptName_scheme (p1 s p2 n S : List Char) (h1 : ∀ c ∈ p1, reSpace c = true)
    (hs : ∀ c ∈ s, reDot c = true) (h2 : ∀ c ∈ p2, reSpace c = true)
    (hn : ∀ c ∈ n, reNoParen c = true) (htrim : trimmedChars n = n) (hne : n ≠ [])
    (hsep : indexOfFrom [':', '/', '/'] n 0 = none)
    (hS : reSuffix S = some ()) (hSsep : ∀ c ∈ S, c ∉ [':', '/', '/']) :
    reScriptName (p1 ++ (s ++ (':' :: '/' :: '/' :: (p2 ++ (n ++ S))))) = some n := by
  apply reStar_dropWhile
  rw [dropWhile_append_all reSpace p1 _ h1]
  obtain ⟨s', hs', hdrop⟩ := dropWhile_append_stop reSpace s ':'
    ('/' :: '/' :: (p2 ++ (n ++ S))) (by decide)
  rw [hdrop]
  have hocc := no_occurrence_append [':', '/', '/'] p2 n S (by simp)
    (indexOfFrom_none _ n 0 hsep) (fun c hc => reSpace_not_sep c (h2 c hc)) hSsep
  have hscheme : reStar reDot (reLit [':', '/', '/'] reAfterScheme)
      (s' ++ (':' :: '/' :: '/' :: (p2 ++ (n ++ S)))) = some n := by
    apply reStar_first reDot _ s' _ n (fun c hc => hs c (hs' c hc))
    · have := reAfterScheme_name p2 n S h2 hn htrim hne hS
      simpa [reLit, List.isPrefixOf] using this
    · intro w t hsplit hw
      obtain ⟨c, w', rfl⟩ := List.exists_cons_of_ne_nil hw
      simp only [List.cons_append, List.cons.injEq] at hsplit
      have ht : t <:+ '/' :: '/' :: (p2 ++ (n ++ S)) := ⟨w', hsplit.2.symm⟩
      have hpre : List.isPrefixOf [':', '/', '/'] t = false := by
        rcases List.suffix_cons_iff.mp ht with rfl | ht
        · rfl
        · rcases List.suffix_cons_iff.mp ht with rfl | ht
          · rfl
          · exact hocc t ht
      simp [reLit, hpre]
  simp only [hscheme]

theorem normalizeScriptName_of_capture (input n : String)
    (h : reScriptName input.data = some n.data) (htrim : QString.trimmed n = n) :
    normalizeScriptName input = n := by
  simp only [normalizeScriptName, h]
  exact htrim

/-- C11: URL normalisation. Let `n` be a non-empty script name without parenthesis, without
`://` and without white space at either end (`trimmed` leaves it unchanged), `s` a scheme
without line feed, `N` a non-empty string of decimal digits, and `p1`, `p2`, `p3`, `p4`
strings of white space (the class `\s` of the pattern), each possibly empty. Then
`normalizeScriptName` returns `n` on `n`, on `s://n`, on `n(N)` and `n (N)` (any white space
`p3` before the parenthesis) and on `s://n (N)`, with the padding `p1` in front, `p2` after
the scheme and `p4` at the end. A `Debugger.setBreakpointByUrl` request with the url `s://n`
is forwarded with `fileName` equal to `n`. -/
theorem normalizeScriptName_forms (n s N p1 p2 p3 p4 : String)
    (hne : n ≠ "")
    (hparen : n.data.all reNoParen = true)
    (hsep : QString.indexOf n "://" = none)
    (htrim : QString.trimmed n = n)
    (hs : s.data.all reDot = true)
    (hN : N ≠ "" ∧ N.data.all isAsciiDigit = true)
    (h1 : p1.data.all reSpace = true) (h2 : p2.data.all reSpace = true)
    (h3 : p3.data.all reSpace = true) (h4 : p4.data.all reSpace = true) :
    normalizeScriptName (p1 ++ n ++ p4) = n ∧
    normalizeScriptName (p1 ++ s ++ "://" ++ p2 ++ n ++ p4) = n ∧
    normalizeScriptName (p1 ++ n ++ p3 ++ "(" ++ N ++ ")" ++ p4) = n ∧
    normalizeScriptName (p1 ++ s ++ "://" ++ p2 ++ n ++ p3 ++ "(" ++ N ++ ")" ++ p4) = n ∧
    (∀ req : QVariantMap,
      (QMap.value req "method").toString = "Debugger.setBreakpointByUrl" →
      QMap.value (QMap.value req "params").toMap "url" = .str (s ++ "://" ++ n) →
      V4Helpers.getNestedValue (V4CdpMapper.mapCdpToV4Request_debugger req).1
        ["Command", "attributes", "breakpointData", "fileName"] = .str n) := by
  have hne' : n.data ≠ [] := fun h => hne (String.ext h)
  have hparen' : ∀ c ∈ n.data, reNoParen c = true := List.all_eq_true.mp hparen
  have hsep' : indexOfFrom [':', '/', '/'] n.data 0 = none := hsep
  have htrim' : trimmedChars n.data = n.data := congrArg String.data htrim
  have hs' : ∀ c ∈ s.data, reDot c = true := List.all_eq_true.mp hs
  have hNne : N.data ≠ [] := fun h => hN.1 (String.ext h)
  have hN' : ∀ c ∈ N.data, isAsciiDigit c = true := List.all_eq_true.mp hN.2
  have h1' : ∀ c ∈ p1.data, reSpace c = true := List.all_eq_true.mp h1
  have h2' : ∀ c ∈ p2.data, reSpace c = true := List.all_eq_true.mp h2
  have h3' : ∀ c ∈ p3.data, reSpace c = true := List.all_eq_true.mp h3
  have h4' : ∀ c ∈ p4.data, reSpace c = true := List.all_eq_true.mp h4
  have hpad := reSuffix_pad p4.data h4'
  have hnum := reSuffix_number p3.data N.data p4.data h3' hN' hNne h4'
  have hpadsep : ∀ c ∈ p4.data, c ∉ [':', '/', '/'] := fun c hc => reSpace_not_sep c (h4' c hc)
  have hnumsep : ∀ c ∈ p3.data ++ ('(' :: (N.data ++ (')' :: p4.data))),
      c ∉ [':', '/', '/'] := by
    intro c hc
    simp only [List.mem_append, List.mem_cons] at hc
    rcases hc with hc | rfl | hc | rfl | hc
    · exact reSpace_not_sep c (h3' c hc)
    · decide
    · exact isAsciiDigit_not_sep c (hN' c hc)
    · decide
    · exact reSpace_not_sep c (h4' c hc)
  have hsepdata : ("://" : String).data = [':', '/', '/'] := rfl
  have hopen : ("(" : String).data = ['('] := rfl
  have hclose : (")" : String).data = [')'] := rfl
  refine ⟨?_, ?_, ?_, ?_, ?_⟩
  · apply normalizeScriptName_of_capture _ n _ htrim
    have := reScriptName_plain p1.data n.data p4.data h1' hparen' htrim' hne' hsep' hpad hpadsep
    simpa [String.data_append] using this
  · apply normalizeScriptName_of_capture _ n _ htrim
    have := reScriptName_scheme p1.data s.data p2.data n.data p4.data h1' hs' h2' hparen'
      htrim' hne' hsep' hpad hpadsep
    simpa [String.data_append, hsepdata] using this
  · apply normalizeScriptName_of_capture _ n _ htrim
    have := reScriptName_plain p1.data n.data _ h1' hparen' htrim' hne' hsep' hnum hnumsep
    simpa [String.data_append, hopen, hclose] using this
  · apply normalizeScriptName_of_capture _ n _ htrim
    have := reScriptName_scheme p1.data s.data p2.data n.data _ h1' hs' h2' hparen'
      htrim' hne' hsep' hnum hnumsep
    simpa [String.data_append, hsepdata, hopen, hclose] using this
  · intro req hmethod hurl
    have hplain : normalizeScriptName (s ++ "://" ++ n) = n := by
      apply normalizeScriptName_of_capture _ n _ htrim
      have := reScriptName_scheme [] s.data [] n.data [] (by simp) hs' (by simp) hparen'
        htrim' hne' hsep' (reSuffix_pad [] (by simp)) (by simp)
      simpa [String.data_append, hsepdata] using this
    rw [setBreakpointByUrl_command req hmethod, hurl]
    simp only [QVariant.toString, hplain]
    rfl

/-- Witness of C11: the url of scenario S1, `jsrunner://test.js`, gives `test.js`. -/
theorem normalizeScriptName_forms_witness :
    normalizeScriptName ("" ++ "jsrunner" ++ "://" ++ "" ++ "test.js" ++ "") = "test.js" :=
  (normalizeScriptName_forms "test.js" "jsrunner" "12" "" "" " " "" (by decide) (by decide)
    (by decide) (by decide) (by decide) (by decide) (by decide) (by decide) (by decide)
    (by decide)).2.1

/-! ## Debugger.setBreakpointByUrl: the response (C12) -/

theorem arg_no_script_matching (a : String) :
    QString.arg "No script matching %1" a = "No script matching " ++ a := by
  have h : QString.arg "No script matching %1" a
      = String.mk ("No script matching ".data ++ (a.data ++ [])) := rfl
  rw [h, List.append_nil]
  rfl

theorem getNestedValue_insert_metadata (req : QVariantMap) (v : QVariant) (k : String)
    (path : List String) (hk : k ≠ MAPPER_METADATA) :
    V4Helpers.getNestedValue (QMap.insert req MAPPER_METADATA v) (k :: path)
      = V4Helpers.getNestedValue req (k :: path) := by
  have hk' : ¬ MAPPER_METADATA = k := fun h => hk h.symm
  simp [V4Helpers.getNestedValue, V4Helpers.getNestedValueD, getNestedValueFrom,
    QVariant.canConvertMap, QVariant.toMap, QMap.contains_insert, QMap.value_insert, hk']

/-- The Debugger response mapper on a `Debugger.setBreakpointByUrl` request. -/
theorem response_setBreakpointByUrl (v4Response orig : QVariantMap)
    (hmethod : (QMap.value orig "method").toString = "Debugger.setBreakpointByUrl") :
    V4CdpMapper.mapV4ToCdpResponse_debugger v4Response orig
      = if (V4Helpers.getNestedValue v4Response ["Result", "result"]).toIntOk.2 = true then
          [("id", QMap.value v4Response "ID"),
           ("result", .map [("breakpointId", .str (QString.number
              (V4Helpers.getNestedValue v4Response ["Result", "result"]).toIntOk.1))])]
        else
          [("error", .map [("code", .num (-32000)),
              ("message", .str ("No script matching " ++
                (V4Helpers.getNestedValue orig ["params", "url"]).toString))]),
           ("id", QMap.value v4Response "ID")] := by
  simp only [V4CdpMapper.mapV4ToCdpResponse_debugger, hmethod, arg_no_script_matching]
  split_ifs <;> first | rfl | contradiction

/-- C12: for a stored `Debugger.setBreakpointByUrl` request with `params.url = u` and a
backend response for it, the Debugger response mapper gives: when `Result.result` converts to
an integer `N`, exactly `{id, result: {breakpointId: decimal string of N}}`, with no `error`;
otherwise exactly `{id, error: {code: -32000, message: "No script matching " ++ u}}`, with no
`result`, where `u` is the url as the client sent it. Through `mapV4ToCdpResponse` and the
pending-request table the same two responses come out for a request stored under a
non-negative id. -/
theorem setBreakpointByUrl_response (v4Response req : QVariantMap) (u : String)
    (hmethod : (QMap.value req "method").toString = "Debugger.setBreakpointByUrl")
    (hurl : V4Helpers.getNestedValue req ["params", "url"] = .str u) :
    ((V4Helpers.getNestedValue v4Response ["Result", "result"]).toIntOk.2 = true →
      V4CdpMapper.mapV4ToCdpResponse_debugger v4Response req
        = [("id", QMap.value v4Response "ID"),
           ("result", .map [("breakpointId", .str (QString.number
              (V4Helpers.getNestedValue v4Response ["Result", "result"]).toIntOk.1))])]) ∧
    ((V4Helpers.getNestedValue v4Response ["Result", "result"]).toIntOk.2 = false →
      V4CdpMapper.mapV4ToCdpResponse_debugger v4Response req
        = [("error", .map [("code", .num (-32000)),
              ("message", .str ("No script matching " ++ u))]),
           ("id", QMap.value v4Response "ID")]) ∧
    (∀ (t : OrigCdpRequests) (n : Int), (QMap.value v4Response "ID").toInt = n → 0 ≤ n →
      (V4CdpMapper.mapV4ToCdpResponse v4Response
        (V4CdpMapper.storeOrigCdpRequest t n
          (QMap.insert req MAPPER_METADATA (.str "Debugger")))).1
        = if (V4Helpers.getNestedValue v4Response ["Result", "result"]).toIntOk.2 = true then
            [("id", QMap.value v4Response "ID"),
             ("result", .map [("breakpointId", .str (QString.number
                (V4Helpers.getNestedValue v4Response ["Result", "result"]).toIntOk.1))])]
          else
            [("error", .map [("code", .num (-32000)),
                ("message", .str ("No script matching " ++ u))]),
             ("id", QMap.value v4Response "ID")]) := by
  have hm : (QMap.value (QMap.insert req MAPPER_METADATA (.str "Debugger")) "method").toString
      = "Debugger.setBreakpointByUrl" := by
    rw [QMap.value_insert]
    simpa [MAPPER_METADATA] using hmethod
  have hu : V4Helpers.getNestedValue (QMap.insert req MAPPER_METADATA (.str "Debugger"))
      ["params", "url"] = .str u := by
    rw [getNestedValue_insert_metadata req _ "params" ["url"] (by decide), hurl]
  refine ⟨?_, ?_, ?_⟩
  · intro h
    rw [response_setBreakpointByUrl v4Response req hmethod, if_pos h]
  · intro h
    rw [response_setBreakpointByUrl v4Response req hmethod,
      if_neg (by rw [h]; exact Bool.false_ne_true), hurl]
    rfl
  · intro t n hID h0
    rw [response_of_stored v4Response t n req "Debugger" (Or.inl rfl) hID h0]
    simp only [if_true, response_setBreakpointByUrl v4Response _ hm, hu, QVariant.toString]

/-- Witness of C12: scenario S1, the reply to request 52 with `Result.result = 2`. -/
theorem setBreakpointByUrl_response_witness :
    V4CdpMapper.mapV4ToCdpResponse_debugger
        [("ID", .num 52), ("Result", .map [("result", .num 2)])] setBreakpointRequest
      = [("id", .num 52), ("result", .map [("breakpointId", .str "2")])] :=
  (setBreakpointByUrl_response [("ID", .num 52), ("Result", .map [("result", .num 2)])]
    setBreakpointRequest "jsrunner://test.js" rfl rfl).1 rfl

/-! ## The request mappers, method by method (C13, C14, C15) -/

/-- C13: for each of `Debugger.enable`, `disable`, `pause`, `resume`, `stepInto`, `stepOver`,
`stepOut`, `getPossibleBreakpoints` and `getStackTrace`, `mapCdpToV4Request_debugger` returns
exactly `{ID: request id, Command: {type: T}}` with `T` the type listed for the method in
`debuggerPlainCommands`, and leaves the request with the module tag "Debugger" written under
`_mapper_metadata`. -/
theorem debugger_plain_command (req : QVariantMap) (method type : String)
    (hpair : (method, type) ∈ debuggerPlainCommands)
    (hmethod : (QMap.value req "method").toString = method) :
    V4CdpMapper.mapCdpToV4Request_debugger req
      = ([("Command", .map [("type", .str type)]), ("ID", QMap.value req "id")],
         QMap.insert req MAPPER_METADATA (.str "Debugger")) ∧
    QMap.value (V4CdpMapper.mapCdpToV4Request_debugger req).2 MAPPER_METADATA
      = .str "Debugger" := by
  simp only [debuggerPlainCommands, List.mem_cons, List.mem_singleton, Prod.mk.injEq,
    List.mem_nil_iff, or_false] at hpair
  have h1 : V4CdpMapper.mapCdpToV4Request_debugger req
      = ([("Command", .map [("type", .str type)]), ("ID", QMap.value req "id")],
         QMap.insert req MAPPER_METADATA (.str "Debugger")) := by
    rcases hpair with h | h | h | h | h | h | h | h | h <;>
      (obtain ⟨rfl, rfl⟩ := h
       simp only [V4CdpMapper.mapCdpToV4Request_debugger, hmethod]
       rfl)
  refine ⟨h1, ?_⟩
  rw [h1]
  simp [QMap.value_insert]

/-- Witness of C13: `Debugger.stepOver` with id 3. -/
theorem debugger_plain_command_witness :
    V4CdpMapper.mapCdpToV4Request_debugger [("id", .num 3), ("method", .str "Debugger.stepOver")]
      = ([("Command", .map [("type", .str "StepOver")]), ("ID", .num 3)],
         [("_mapper_metadata", .str "Debugger"), ("id", .num 3),
          ("method", .str "Debugger.stepOver")]) :=
  (debugger_plain_command [("id", .num 3), ("method", .str "Debugger.stepOver")]
    "Debugger.stepOver" "StepOver" (by decide) rfl).1

/-- C14: for a `Debugger.evaluateOnCallFrame` request whose id is a C++ int: when
`params.expression` reads as the string "this" the command has type `GetThisObject` and its
attributes hold `contextIndex` (the int value of `params.callFrameId`) and no `program`;
otherwise the command has type `Evaluate`, `attributes.program` is the expression and
`attributes.contextIndex` is the string value of `params.callFrameId`; in both cases `ID` is
the request id. -/
theorem evaluateOnCallFrame_command (req : QVariantMap) (n : Int)
    (hmethod : (QMap.value req "method").toString = "Debugger.evaluateOnCallFrame")
    (hid : QMap.value req "id" = .num n) (hrange : inIntRange n) :
    ((QMap.value (QMap.value req "params").toMap "expression").toString = "this" →
      (V4CdpMapper.mapCdpToV4Request_debugger req).1
        = [("Command", .map [
              ("attributes", .map [("contextIndex",
                .num (QMap.value (QMap.value req "params").toMap "callFrameId").toInt)]),
              ("type", .str "GetThisObject")]),
           ("ID", QMap.value req "id"),
           ("_mapper_internal", .num 7)] ∧
      QMap.contains (V4Helpers.getNestedValue (V4CdpMapper.mapCdpToV4Request_debugger req).1
        ["Command", "attributes"]).toMap "program" = false) ∧
    ((QMap.value (QMap.value req "params").toMap "expression").toString ≠ "this" →
      (V4CdpMapper.mapCdpToV4Request_debugger req).1
        = [("Command", .map [
              ("attributes", .map [
                ("contextIndex",
                  .str (QMap.value (QMap.value req "params").toMap "callFrameId").toString),
                ("program",
                  .str (QMap.value (QMap.value req "params").toMap "expression").toString)]),
              ("type", .str "Evaluate")]),
           ("ID", QMap.value req "id")]) ∧
    (∀ e : String, QMap.value (QMap.value req "params").toMap "expression" = .str e →
      e ≠ "this" →
      V4Helpers.getNestedValue (V4CdpMapper.mapCdpToV4Request_debugger req).1
        ["Command", "attributes", "program"]
        = QMap.value (QMap.value req "params").toMap "expression") := by
  have hnum : (QVariant.num n).toInt = n := toInt_num n hrange
  have hcmd : (V4CdpMapper.mapCdpToV4Request_debugger req).1
      = V4CdpMapper.mapCdpToV4Request_helper_evaluate "Debugger.evaluateOnCallFrame" req := by
    simp [V4CdpMapper.mapCdpToV4Request_debugger, hmethod]
  rw [hcmd]
  refine ⟨fun h => ?_, fun h => ?_, fun e he hne => ?_⟩
  · simp only [V4CdpMapper.mapCdpToV4Request_helper_evaluate, h, hid, hnum]
    exact ⟨rfl, rfl⟩
  · simp only [V4CdpMapper.mapCdpToV4Request_helper_evaluate, h, hid, hnum]
    rfl
  · simp only [V4CdpMapper.mapCdpToV4Request_helper_evaluate, he, QVariant.toString, hne, hid,
      hnum]
    rfl

/-- Witness of C14: `this` on call frame 2, request id 9. -/
theorem evaluateOnCallFrame_command_witness :
    (V4CdpMapper.mapCdpToV4Request_debugger
        [("id", .num 9), ("method", .str "Debugger.evaluateOnCallFrame"),
         ("params", .map [("callFrameId", .str "2"), ("expression", .str "this")])]).1
      = [("Command", .map [("attributes", .map [("contextIndex", .num 2)]),
            ("type", .str "GetThisObject")]),
         ("ID", .num 9), ("_mapper_internal", .num 7)] :=
  ((evaluateOnCallFrame_command
    [("id", .num 9), ("method", .str "Debugger.evaluateOnCallFrame"),
     ("params", .map [("callFrameId", .str "2"), ("expression", .str "this")])] 9
    rfl rfl (by decide)).1 rfl).1

/-- C15: `mapCdpToV4Request_runtime` maps `Runtime.evaluate` to exactly
`{ID: id, Command: {type: "Evaluate", attributes: {program: params.expression}}}` (for an id
that is a C++ int), `Runtime.getProperties` to a `GetPropertiesByIterator` command with
attributes `{iteratorId: params.objectId}`, and `Runtime.callFunctionOn` to a
`ScriptValueToString` command, and in each case tags the request with the module
"Runtime". -/
theorem runtime_commands (req : QVariantMap) :
    ((QMap.value req "method").toString = "Runtime.evaluate" →
      (∀ n : Int, QMap.value req "id" = .num n → inIntRange n →
        (V4CdpMapper.mapCdpToV4Request_runtime req).1
          = [("Command", .map [
                ("attributes", .map [("program",
                  QMap.value (QMap.value req "params").toMap "expression")]),
                ("type", .str "Evaluate")]),
             ("ID", QMap.value req "id")]) ∧
      (V4CdpMapper.mapCdpToV4Request_runtime req).2
        = QMap.insert req MAPPER_METADATA (.str "Runtime")) ∧
    ((QMap.value req "method").toString = "Runtime.getProperties" →
      V4CdpMapper.mapCdpToV4Request_runtime req
        = ([("Command", .map [
                ("attributes", .map [("iteratorId",
                  QMap.value (QMap.value req "params").toMap "objectId")]),
                ("type", .str "GetPropertiesByIterator")]),
            ("ID", QMap.value req "id")],
           QMap.insert req MAPPER_METADATA (.str "Runtime"))) ∧
    ((QMap.value req "method").toString = "Runtime.callFunctionOn" →
      V4CdpMapper.mapCdpToV4Request_runtime req
        = ([("Command", .map [
                ("attributes", .map [("scriptValue", .map [
                  ("type", .str "ObjectValue"),
                  ("value", QMap.value (QMap.value req "params").toMap
                    "functionDeclaration")])]),
                ("type", .str "ScriptValueToString")]),
            ("ID", QMap.value req "id")],
           QMap.insert req MAPPER_METADATA (.str "Runtime"))) ∧
    (((QMap.value req "method").toString = "Runtime.evaluate" ∨
      (QMap.value req "method").toString = "Runtime.getProperties" ∨
      (QMap.value req "method").toString = "Runtime.callFunctionOn") →
      QMap.value (V4CdpMapper.mapCdpToV4Request_runtime req).2 MAPPER_METADATA
        = .str "Runtime") := by
  refine ⟨fun h => ⟨fun n hid hrange => ?_, ?_⟩, fun h => ?_, fun h => ?_, fun h => ?_⟩
  · simp only [V4CdpMapper.mapCdpToV4Request_runtime, h,
      V4CdpMapper.mapCdpToV4Request_helper_evaluate, hid, toInt_num n hrange]
    rfl
  · simp [V4CdpMapper.mapCdpToV4Request_runtime, h]
  · simp only [V4CdpMapper.mapCdpToV4Request_runtime, h]
    rfl
  · simp only [V4CdpMapper.mapCdpToV4Request_runtime, h]
    rfl
  · rcases h with h | h | h <;>
      simp [V4CdpMapper.mapCdpToV4Request_runtime, h, QMap.value_insert]

/-! ## Paused events (C20) -/

/-- C20: for a backend event of type `Interrupted`, `SteppingFinished`, `LocationReached` or
`DebuggerInvocationRequest`, whatever its attributes, `mapV4EventToCdp` returns exactly
`{method: "Debugger.paused", params: {reason: R, callFrames: []}}` with `R` the reason listed
for the type in `pausedReasons`, and makes no synchronous backend call. -/
theorem paused_event (v4Resp : QVariantMap) (backendSyncCall : QVariant → QVariant)
    (type reason : String) (hpair : (type, reason) ∈ pausedReasons)
    (htype : (QMap.value (QMap.value v4Resp "Event").toMap "type").toString = type) :
    V4CdpMapper.mapV4EventToCdp v4Resp backendSyncCall
      = ([("method", .str "Debugger.paused"),
          ("params", .map [("callFrames", .list []), ("reason", .str reason)])], []) := by
  simp only [pausedReasons, List.mem_cons, List.mem_singleton, Prod.mk.injEq,
    List.mem_nil_iff, or_false] at hpair
  rcases hpair with h | h | h | h <;>
    (obtain ⟨rfl, rfl⟩ := h
     simp only [V4CdpMapper.mapV4EventToCdp, htype]
     rfl)

/-- Witness of C20: a `SteppingFinished` event with attributes. -/
theorem paused_event_witness :
    V4CdpMapper.mapV4EventToCdp
        [("Event", .map [("attributes", .map [("x", .num 1)]),
          ("type", .str "SteppingFinished")])] (fun _ => .null)
      = ([("method", .str "Debugger.paused"),
          ("params", .map [("callFrames", .list []), ("reason", .str "step")])], []) :=
  paused_event _ (fun _ => .null) "SteppingFinished" "step" (by decide) rfl

/-- Witness of C15: `Runtime.getProperties` on object "o1", request id 4. -/
theorem runtime_commands_witness :
    V4CdpMapper.mapCdpToV4Request_runtime
        [("id", .num 4), ("method", .str "Runtime.getProperties"),
         ("params", .map [("objectId", .str "o1")])]
      = ([("Command", .map [("attributes", .map [("iteratorId", .str "o1")]),
            ("type", .str "GetPropertiesByIterator")]), ("ID", .num 4)],
         [("_mapper_metadata", .str "Runtime"), ("id", .num 4),
          ("method", .str "Runtime.getProperties"),
          ("params", .map [("objectId", .str "o1")])]) :=
  (runtime_commands [("id", .num 4), ("method", .str "Runtime.getProperties"),
    ("params", .map [("objectId", .str "o1")])]).2.1 rfl

/-! ## NoOp passthrough (C16) -/

theorem response_debugger_noop (v4Response orig : QVariantMap)
    (h : (QMap.value orig "method").toString ∈ debuggerNoOp) :
    V4CdpMapper.mapV4ToCdpResponse_debugger v4Response orig
      = [("id", QMap.value v4Response "ID"), ("result", .map [])] := by
  simp only [debuggerNoOp, List.mem_cons, List.mem_singleton, List.mem_nil_iff, or_false] at h
  rcases h with h | h | h <;>
    (simp only [V4CdpMapper.mapV4ToCdpResponse_debugger, h]
     rfl)

theorem response_runtime_noop (v4Response orig : QVariantMap)
    (h : (QMap.value orig "method").toString ∈ runtimeNoOp) :
    V4CdpMapper.mapV4ToCdpResponse_runtime v4Response orig
      = QMap.insert (QMap.insert [("id", QMap.value v4Response "ID")] "_mapper_metadata"
          (QMap.value orig "_mapper_metadata")) "result" (.map []) := by
  simp only [runtimeNoOp, List.mem_cons, List.mem_singleton, List.mem_nil_iff, or_false] at h
  rcases h with h | h | h | h | h | h <;>
    (simp only [V4CdpMapper.mapV4ToCdpResponse_runtime, h]
     rfl)

/-- NoOp passthrough on a request with a non-negative id that is a Debugger NoOp method, or
a Runtime NoOp method on a request without the key `_mapper_metadata`: one reply with the id
of the request and the empty result, no backend request, no table entry for the id. -/
theorem noop_passthrough_reply (fe : CdpDebuggerFrontend) (table : OrigCdpRequests)
    (cmd : QVariantMap) (c : QWebSocket) (n : Int)
    (hid : QMap.value cmd "id" = .num n) (hrange : inIntRange n) (h0 : 0 ≤ n)
    (h : (QMap.value cmd "method").toString ∈ debuggerNoOp ∨
      ((QMap.value cmd "method").toString ∈ runtimeNoOp ∧
        QMap.contains cmd MAPPER_METADATA = false)) :
    ∃ resp : QVariantMap,
      fe.onCdpMessageReceived table (some (.map cmd)) (some c)
        = (QHash.remove table n, CdpDebuggerFrontend.sendToClient (some c) (.map resp)) ∧
      QMap.value resp "id" = .num n ∧ QMap.value resp "result" = .map [] ∧
      (resp = [("id", .num n), ("result", .map [])] ∨
       resp = [("_mapper_metadata", .str "Runtime"), ("id", .num n), ("result", .map [])]) ∧
      QHash.contains (QHash.remove table n) n = false ∧
      backendRequests (CdpDebuggerFrontend.sendToClient (some c) (.map resp)) = [] := by
  have hn : n ≠ -1 := by omega
  have hnum : (QVariant.num n).toInt = n := toInt_num n hrange
  have hgone : QHash.contains (QHash.remove table n) n = false := by
    simp [QHash.contains_remove]
  have hback : ∀ doc : QVariant,
      backendRequests (CdpDebuggerFrontend.sendToClient (some c) doc) = [] := by
    intro doc
    cases hconn : c.connected <;> simp [CdpDebuggerFrontend.sendToClient, hconn, backendRequests]
  have hlocal : QJsonValue.toString (QMap.value cmd "method") ∉ locallyHandled := by
    apply not_local_of_unmapped
    rcases h with h | h
    · exact noop_not_local (Or.inl h)
    · exact noop_not_local (Or.inr h.1)
  have hmeth : QMap.contains cmd "method" = true := by
    rcases h with h | h
    · exact contains_method_of_mem cmd _ (by decide) h
    · exact contains_method_of_mem cmd _ (by decide) h.1
  rw [onCdpMessageReceived_mapped fe table cmd c n hid hrange hn hlocal hmeth]
  rcases h with h | ⟨h, hm⟩
  · obtain ⟨-, -, hID, hp1, hp2⟩ := debugger_noop cmd h
    rw [dispatch_debugger cmd table (Or.inr h)]
    simp only [hp1, hp2, QVariant.toBool, and_self, if_true, hid, hnum]
    rw [response_of_stored _ table n cmd "Debugger" (Or.inl rfl) (by rw [hID, hid, hnum]) h0]
    have hmeth : (QMap.value (QMap.insert cmd MAPPER_METADATA (.str "Debugger"))
        "method").toString ∈ debuggerNoOp := by
      rw [QMap.value_insert]
      simpa [MAPPER_METADATA] using h
    simp only [if_true, response_debugger_noop _ _ hmeth, hID, hid]
    exact ⟨_, rfl, rfl, rfl, Or.inl rfl, hgone, hback _⟩
  · obtain ⟨hd1, hd2⟩ := runtime_not_debugger (Or.inr h)
    obtain ⟨-, -, hID, hp1, hp2⟩ := runtime_noop cmd h
    rw [dispatch_runtime cmd table hd1 hd2 hm (Or.inr h)]
    simp only [hp1, hp2, QVariant.toBool, and_self, if_true, hid, hnum]
    rw [response_of_stored _ table n cmd "Runtime" (Or.inr rfl) (by rw [hID, hid, hnum]) h0]
    have hmeth : (QMap.value (QMap.insert cmd MAPPER_METADATA (.str "Runtime"))
        "method").toString ∈ runtimeNoOp := by
      rw [QMap.value_insert]
      simpa [MAPPER_METADATA] using h
    simp only [show ¬ ("Runtime" = "Debugger") by decide, if_false,
      response_runtime_noop _ _ hmeth, hID, hid, QMap.value_insert, if_true]
    exact ⟨_, rfl, rfl, rfl, Or.inr rfl, hgone, hback _⟩

/-- C16 fails on the code: the Runtime NoOp request `Runtime.addBinding` with the
non-negative id 5 that already carries the key `_mapper_metadata` is answered with the
"Method not found" error, a message without `result`, and is left in the pending-request
table under its id. -/
theorem noop_with_preset_metadata_rejected :
    demoFrontend.onCdpMessageReceived [] (some (.map presetMetadataNoOp))
        (some { sock := 1, connected := true })
      = ([(5, presetMetadataNoOp)],
         [Effect.sendTextMessage 1
            (.map [("error", .map [("code", .num (-32601)),
              ("message", .str "Method not found")]), ("id", .num 5)])]) ∧
    QHash.contains (demoFrontend.onCdpMessageReceived [] (some (.map presetMetadataNoOp))
        (some { sock := 1, connected := true })).1 5 = true :=
  ⟨rfl, rfl⟩

/-! ## Runtime.enable (C17) -/

/-- C17, as amended: `Runtime.enable` is answered locally: for every adapter state,
pending-request table and `Runtime.enable` request with an integer id that fits a C++ `int`
(32 bits, signed), other than -1,
`onCdpMessageReceived` leaves the table unchanged, its only effect is `sendToClient` of
`{id: id, result: {}}` to the originating client (for a client in connected state exactly that
one text message), and no request goes to the backend, asynchronous or synchronous. So a
sequence of `K` such requests from a connected client yields exactly the `K` responses, in
order, with the table unchanged. -/
theorem runtime_enable_local (fe : CdpDebuggerFrontend) (table : OrigCdpRequests)
    (cmd : QVariantMap) (c : QWebSocket) (n : Int)
    (hid : QMap.value cmd "id" = .num n) (hrange : inIntRange n) (hn : n ≠ -1)
    (hmethod : QJsonValue.toString (QMap.value cmd "method") = "Runtime.enable") :
    fe.onCdpMessageReceived table (some (.map cmd)) (some c)
      = (table, CdpDebuggerFrontend.sendToClient (some c)
          (.map [("id", .num n), ("result", .map [])])) ∧
    (c.connected = true →
      (fe.onCdpMessageReceived table (some (.map cmd)) (some c)).2
        = [Effect.sendTextMessage c.sock (.map [("id", .num n), ("result", .map [])])]) ∧
    backendRequests (fe.onCdpMessageReceived table (some (.map cmd)) (some c)).2 = [] ∧
    (∀ reqs : List (QVariantMap × Int),
      (∀ r ∈ reqs, QMap.value r.1 "id" = .num r.2 ∧ inIntRange r.2 ∧ r.2 ≠ -1 ∧
        QJsonValue.toString (QMap.value r.1 "method") = "Runtime.enable") →
      c.connected = true →
      fe.onCdpMessagesReceived table (reqs.map (fun r => some (.map r.1))) (some c)
        = (table, reqs.map (fun r =>
            Effect.sendTextMessage c.sock (.map [("id", .num r.2), ("result", .map [])])))) := by
  have single : ∀ (cmd : QVariantMap) (n : Int), QMap.value cmd "id" = .num n → inIntRange n →
      n ≠ -1 → QJsonValue.toString (QMap.value cmd "method") = "Runtime.enable" →
      fe.onCdpMessageReceived table (some (.map cmd)) (some c)
        = (table, CdpDebuggerFrontend.sendToClient (some c)
            (.map [("id", .num n), ("result", .map [])])) := by
    intro cmd n hid hrange hn hmethod
    have hc : QMap.contains cmd "id" = true :=
      QMap.contains_of_value_ne_null cmd "id" (by rw [hid]; simp)
    simp only [CdpDebuggerFrontend.onCdpMessageReceived, QVariant.canConvertMap, QVariant.toMap,
      hc, hid, QJsonValue.toInt_of_inIntRange n hrange, hn, if_true, if_false, Bool.not_true,
      Bool.false_eq_true, hmethod]
    rfl
  have h1 := single cmd n hid hrange hn hmethod
  refine ⟨h1, ?_, ?_, ?_⟩
  · intro hconn
    rw [h1]
    simp [CdpDebuggerFrontend.sendToClient, hconn]
  · rw [h1]
    cases hconn : c.connected <;>
      simp [CdpDebuggerFrontend.sendToClient, hconn, backendRequests]
  · intro reqs hreqs hconn
    induction reqs with
    | nil => rfl
    | cons r rest ih =>
      obtain ⟨hid', hrange', hn', hmethod'⟩ := hreqs r (List.mem_cons_self r rest)
      have ih' := ih (fun r' hr' => hreqs r' (List.mem_cons_of_mem r hr'))
      simp only [List.map_cons, CdpDebuggerFrontend.onCdpMessagesReceived,
        single r.1 r.2 hid' hrange' hn' hmethod', ih']
      simp [CdpDebuggerFrontend.sendToClient, hconn]

/-- Witness of C17: scenario S5, `{"id":7,"method":"Runtime.enable"}` from the connected
client on socket 1 while request 52 is pending. -/
theorem runtime_enable_local_witness :
    demoFrontend.onCdpMessageReceived [(52, setBreakpointRequest)]
        (some (.map [("id", .num 7), ("method", .str "Runtime.enable")]))
        (some { sock := 1, connected := true })
      = ([(52, setBreakpointRequest)],
         [Effect.sendTextMessage 1 (.map [("id", .num 7), ("result", .map [])])]) :=
  (runtime_enable_local demoFrontend [(52, setBreakpointRequest)]
    [("id", .num 7), ("method", .str "Runtime.enable")] { sock := 1, connected := true } 7
    rfl (by decide) (by decide) rfl).1

/-- C17 fails on the code as stated: the request `{"id":4294967301,"method":"Runtime.enable"}`,
whose integer id does not fit a C++ `int`, is dropped by the guard on the id: the client gets
no `{id, result: {}}`, and two such requests give no response at all. -/
theorem runtime_enable_wide_id_dropped :
    demoFrontend.onCdpMessageReceived [(52, setBreakpointRequest)]
        (some (.map [("id", .num 4294967301), ("method", .str "Runtime.enable")]))
        (some { sock := 1, connected := true })
      = ([(52, setBreakpointRequest)], []) ∧
    demoFrontend.onCdpMessagesReceived []
        [some (.map [("id", .num 4294967301), ("method", .str "Runtime.enable")]),
         some (.map [("id", .num (-2147483649)), ("method", .str "Runtime.enable")])]
        (some { sock := 1, connected := true })
      = ([], []) :=
  ⟨rfl, rfl⟩

/-! ## The initial event burst (C18) -/

/-- C18: the initial event burst. For a client in connected state and the list `scripts` the
backend returns for `GetScripts`, `sendInitialEvents` writes to that client first the
`Runtime.executionContextCreated` event with context id 1, makes the one synchronous
`GetScripts` call, and then writes one `Debugger.scriptParsed` event per script, in the order
of the backend list. The client receives `1 + scripts.length` messages and no other socket
receives any. -/
theorem sendInitialEvents_burst (fe : CdpDebuggerFrontend) (c : QWebSocket)
    (scripts : List QVariant) (hconn : c.connected = true)
    (hscripts : (QMap.value (QMap.value (fe.m_getHandledByBackend
        (.map [("Command", .map [("type", .str "GetScripts")]), ("ID", .num 0)])).toMap
          "Result").toMap "result").toList = scripts) :
    ∃ ctx : QVariantMap,
      fe.sendInitialEvents (some c)
        = Effect.sendTextMessage c.sock (.map ctx) ::
          Effect.backendSyncCall
            (.map [("Command", .map [("type", .str "GetScripts")]), ("ID", .num 0)]) ::
          scripts.map (fun s => Effect.sendTextMessage c.sock
            (.map (V4CdpHelper.cdpScriptParsedEventBuilder fe.sha256Hex s.toMap 1
              (QString.toLower fe.m_frontendName)))) ∧
      QMap.value ctx "method" = .str "Runtime.executionContextCreated" ∧
      V4Helpers.getNestedValue ctx ["params", "context", "id"] = .num 1 ∧
      (∀ s : QVariantMap, QMap.value (V4CdpHelper.cdpScriptParsedEventBuilder fe.sha256Hex s 1
          (QString.toLower fe.m_frontendName)) "method" = .str "Debugger.scriptParsed") ∧
      sentTo c.sock (fe.sendInitialEvents (some c))
        = .map ctx :: scripts.map (fun s =>
            .map (V4CdpHelper.cdpScriptParsedEventBuilder fe.sha256Hex s.toMap 1
              (QString.toLower fe.m_frontendName))) ∧
      (sentTo c.sock (fe.sendInitialEvents (some c))).length = 1 + scripts.length ∧
      (∀ sock : Nat, sock ≠ c.sock → sentTo sock (fe.sendInitialEvents (some c)) = []) := by
  have hreq : QMap.insert (V4CdpMapper.v4Request_scripts .GetScripts 0 0) "ID" (.num 0)
      = [("Command", .map [("type", .str "GetScripts")]), ("ID", .num 0)] := rfl
  have hsend : ∀ docs : List QVariant,
      (docs.map (fun d => CdpDebuggerFrontend.sendToClient (some c) d)).flatten
        = docs.map (fun d => Effect.sendTextMessage c.sock d) := by
    intro docs
    induction docs with
    | nil => rfl
    | cons d rest ih =>
      rw [List.map_cons, List.flatten_cons, ih]
      simp [CdpDebuggerFrontend.sendToClient, hconn]
  have hsent : ∀ (sock : Nat) (docs : List QVariant),
      sentTo sock (docs.map (fun d => Effect.sendTextMessage c.sock d))
        = if c.sock = sock then docs else [] := by
    intro sock docs
    induction docs with
    | nil => simp [sentTo]
    | cons d rest ih =>
      rw [List.map_cons]
      by_cases h : c.sock = sock <;> simp [sentTo, h] <;> simpa [h] using ih
  have hall : fe.sendInitialEvents (some c)
      = Effect.sendTextMessage c.sock (.map (QMap.ofList [
          ("method", .str "Runtime.executionContextCreated"),
          ("params", .map (QMap.ofList [
            ("context", .map (QMap.ofList [
              ("id", .num 1),
              ("origin",
                .str (QString.arg "%1://javascript" (QString.toLower fe.m_frontendName))),
              ("name", .str (QString.arg "%1 JavaScript Context" fe.m_frontendName)),
              ("uniqueId",
                .str (QString.arg "%1-js-context"
                  (QString.toLower fe.m_frontendName)))]))]))])) ::
        Effect.backendSyncCall
          (.map [("Command", .map [("type", .str "GetScripts")]), ("ID", .num 0)]) ::
        (scripts.map (fun s => (QVariant.map (V4CdpHelper.cdpScriptParsedEventBuilder
          fe.sha256Hex s.toMap 1 (QString.toLower fe.m_frontendName))))).map
            (fun d => Effect.sendTextMessage c.sock d) := by
    rw [← hsend, ← hscripts]
    simp only [CdpDebuggerFrontend.sendInitialEvents, hconn, Bool.not_true, Bool.false_eq_true,
      if_false, CdpDebuggerFrontend.createAndSentScriptParsedEvents,
      CdpDebuggerFrontend.blockingV4BackendCall, hreq, CdpDebuggerFrontend.sendToClient, if_true,
      List.map_map]
    rfl
  refine ⟨QMap.ofList [
      ("method", .str "Runtime.executionContextCreated"),
      ("params", .map (QMap.ofList [
        ("context", .map (QMap.ofList [
          ("id", .num 1),
          ("origin", .str (QString.arg "%1://javascript" (QString.toLower fe.m_frontendName))),
          ("name", .str (QString.arg "%1 JavaScript Context" fe.m_frontendName)),
          ("uniqueId",
            .str (QString.arg "%1-js-context" (QString.toLower fe.m_frontendName)))]))]))],
    ?_, rfl, rfl, fun s => rfl, ?_, ?_, ?_⟩
  · rw [hall, List.map_map]
    rfl
  · rw [hall]
    simp only [sentTo, if_true, hsent, List.cons.injEq, true_and]
  · rw [hall]
    simp only [sentTo, if_true, hsent, List.length_cons, List.length_map]
    omega
  · intro sock hne
    have hne' : ¬ c.sock = sock := fun h => hne h.symm
    rw [hall]
    simp only [sentTo, hsent, hne', if_false]

/-- Witness of C18: a backend that knows two scripts; the client on socket 1 receives three
messages. -/
theorem sendInitialEvents_burst_witness :
    (sentTo 1 (scriptsFrontend.sendInitialEvents (some { sock := 1, connected := true }))).length
      = 1 + 2 := by
  obtain ⟨_, -, -, -, -, -, h, -⟩ := sendInitialEvents_burst scriptsFrontend
    { sock := 1, connected := true }
    [.map [("contents", .str "a\nb\n"), ("fileName", .str "test.js"), ("id", .num 4)],
     .map [("contents", .str ""), ("fileName", .str "lib.js"), ("id", .num 5)]] rfl rfl
  exact h

/-! ## The scriptParsed event (C19) -/

theorem argScan_plain (fs rest : List Char) (h : ∀ c ∈ fs, c ≠ '%') :
    argScan .lit [] (fs ++ rest) = fs.map (fun c => (none, [c])) ++ argScan .lit [] rest := by
  induction fs with
  | nil => rfl
  | cons c cs ih =>
    have hc : c ≠ '%' := h c (List.mem_cons_self c cs)
    have ih' := ih (fun d hd => h d (List.mem_cons_of_mem c hd))
    simp [argScan, hc, ih']

theorem argMinEscape_plain (fs : List Char) (ps : List ArgPiece) :
    argMinEscape (fs.map (fun c => ((none : Option Nat), [c])) ++ ps) = argMinEscape ps := by
  induction fs with
  | nil => rfl
  | cons c cs ih => simpa [argMinEscape] using ih

theorem argFill_plain (fs : List Char) (ps : List ArgPiece) (m : Nat) (a : List Char) :
    ((fs.map (fun c => ((none : Option Nat), [c])) ++ ps).map
        (fun p => if p.1 = some m then a else p.2)).flatten
      = fs ++ (ps.map (fun p => if p.1 = some m then a else p.2)).flatten := by
  induction fs with
  | nil => rfl
  | cons c cs ih => simpa using ih

/-- The chained `QString("%1://%2").arg(f).arg(fileName)` for a name `f` without `%`. -/
theorem arg_chain_plain (f fileName : String) (h : ∀ c ∈ f.data, c ≠ '%') :
    QString.arg (QString.arg "%1://%2" f) fileName = f ++ "://" ++ fileName := by
  have h1 : QString.arg "%1://%2" f = String.mk (f.data ++ [':', '/', '/', '%', '2']) := rfl
  have h2 : argScan .lit [] [':', '/', '/', '%', '2']
      = [(none, [':']), (none, ['/']), (none, ['/']), (some 2, ['%', '2'])] := rfl
  rw [h1]
  simp only [QString.arg, argScan_plain f.data _ h, argMinEscape_plain, h2, argMinEscape,
    argFill_plain]
  apply String.ext
  simp

/-- The event `cdpScriptParsedEventBuilder` returns, key by key. -/
theorem scriptParsed_event (sha256Hex : String → String) (s : QVariantMap) (contextId : Int)
    (frontendName : String) :
    V4CdpHelper.cdpScriptParsedEventBuilder sha256Hex s contextId frontendName
      = [("method", .str "Debugger.scriptParsed"),
         ("params", .map [
           ("endColumn", .num 0),
           ("endLine", .num (QString.count (QMap.value s "contents").toString '\n')),
           ("executionContextId", .num contextId),
           ("hash", .str (sha256Hex (QMap.value s "contents").toString)),
           ("scriptId", .str (QString.number (QMap.valueD s "id" (.num 1)).toInt)),
           ("startColumn", .num 0),
           ("startLine", .num 0),
           ("url", .str (QString.arg (QString.arg "%1://%2" frontendName)
             (QMap.valueD s "fileName" (.str "main.js")).toString))])] := rfl

/-- The part of C19 that holds: for a script descriptor with an integer `id` (a C++ int) and
a string `fileName`, and a frontend name `f` without the character `%`, the event is
`Debugger.scriptParsed` with `scriptId` the decimal string of `id`, `url` equal to
`f ++ "://" ++ fileName`, start line, start column and end column 0, the given context id,
and `endLine` the number of newline characters in `contents`. -/
theorem scriptParsed_plain_name (sha256Hex : String → String) (s : QVariantMap)
    (contextId : Int) (f fileName : String) (id : Int)
    (hf : ∀ c ∈ f.data, c ≠ '%')
    (hid : QMap.value s "id" = .num id) (hrange : inIntRange id)
    (hfile : QMap.value s "fileName" = .str fileName) :
    V4CdpHelper.cdpScriptParsedEventBuilder sha256Hex s contextId f
      = [("method", .str "Debugger.scriptParsed"),
         ("params", .map [
           ("endColumn", .num 0),
           ("endLine", .num (QString.count (QMap.value s "contents").toString '\n')),
           ("executionContextId", .num contextId),
           ("hash", .str (sha256Hex (QMap.value s "contents").toString)),
           ("scriptId", .str (QString.number id)),
           ("startColumn", .num 0),
           ("startLine", .num 0),
           ("url", .str (f ++ "://" ++ fileName))])] := by
  have h1 : QMap.valueD s "id" (.num 1) = .num id :=
    QMap.valueD_of_value s "id" _ _ hid (by simp)
  have h2 : QMap.valueD s "fileName" (.str "main.js") = .str fileName :=
    QMap.valueD_of_value s "fileName" _ _ hfile (by simp)
  rw [scriptParsed_event, h1, h2, toInt_num id hrange]
  simp only [QVariant.toString, arg_chain_plain f fileName hf]

/-- C19 fails on the code: for the script descriptor
`{id: 4, fileName: "test.js", contents: "a\nb\n"}`, context id 1 and the frontend name
`"%1f"`, the url of the event is `"test.jsf://%2"`, not `"%1f://test.js"`: the second `arg`
call of the chain replaces the place marker that the frontend name brought in. -/
theorem scriptParsed_url_marker :
    V4CdpHelper.cdpScriptParsedEventBuilder (fun _ => "")
        [("contents", .str "a\nb\n"), ("fileName", .str "test.js"), ("id", .num 4)] 1 "%1f"
      = [("method", .str "Debugger.scriptParsed"),
         ("params", .map [
           ("endColumn", .num 0), ("endLine", .num 2), ("executionContextId", .num 1),
           ("hash", .str ""), ("scriptId", .str "4"), ("startColumn", .num 0),
           ("startLine", .num 0), ("url", .str "test.jsf://%2")])] ∧
    V4Helpers.getNestedValue (V4CdpHelper.cdpScriptParsedEventBuilder (fun _ => "")
        [("contents", .str "a\nb\n"), ("fileName", .str "test.js"), ("id", .num 4)] 1 "%1f")
        ["params", "url"] ≠ .str ("%1f" ++ "://" ++ "test.js") := by
  refine ⟨rfl, ?_⟩
  have h : V4Helpers.getNestedValue (V4CdpHelper.cdpScriptParsedEventBuilder (fun _ => "")
      [("contents", .str "a\nb\n"), ("fileName", .str "test.js"), ("id", .num 4)] 1 "%1f")
      ["params", "url"] = .str "test.jsf://%2" := rfl
  rw [h]
  intro hh
  injection hh with hh
  revert hh
  decide

/-! ## Events of the backend (C21, C22, C24) -/

theorem QMap.valueD_of_contains (m : QVariantMap) (k : String) (d : QVariant)
    (h : QMap.contains m k = true) : QMap.valueD m k d = QMap.value m k := by
  induction m with
  | nil => simp [QMap.contains] at h
  | cons e rest ih =>
    obtain ⟨k0, v0⟩ := e
    by_cases h1 : k0 = k
    · simp [QMap.valueD, QMap.value, h1]
    · have h2 : QMap.contains rest k = true := by simpa [QMap.contains, h1] using h
      have := ih h2
      simpa [QMap.valueD, QMap.value, h1] using this

theorem QMap.valueD_of_not_contains (m : QVariantMap) (k : String) (d : QVariant)
    (h : QMap.contains m k = false) : QMap.valueD m k d = d := by
  induction m with
  | nil => rfl
  | cons e rest ih =>
    obtain ⟨k0, v0⟩ := e
    by_cases h1 : k0 = k
    · simp [QMap.contains, h1] at h
    · have h2 : QMap.contains rest k = false := by simpa [QMap.contains, h1] using h
      simpa [QMap.valueD, h1] using ih h2

/-- C21: for a backend `Breakpoint` event whose attributes carry `breakPointId` with the
value `b`, `mapV4EventToCdp` returns exactly `{method: "Debugger.paused", params: {reason:
"other", hitBreakpoints: [b as a string], callFrames: []}}`; the list `hitBreakpoints` has one
element, and no synchronous backend call is made. -/
theorem breakpoint_event (v4Resp : QVariantMap) (backendSyncCall : QVariant → QVariant)
    (b : QVariant)
    (htype : (QMap.value (QMap.value v4Resp "Event").toMap "type").toString = "Breakpoint")
    (hcarry : QMap.contains (QMap.value (QMap.value v4Resp "Event").toMap "attributes").toMap
      "breakPointId" = true)
    (hb : QMap.value (QMap.value (QMap.value v4Resp "Event").toMap "attributes").toMap
      "breakPointId" = b) :
    V4CdpMapper.mapV4EventToCdp v4Resp backendSyncCall
      = ([("method", .str "Debugger.paused"),
          ("params", .map [("callFrames", .list []),
            ("hitBreakpoints", .list [.str b.toString]),
            ("reason", .str "other")])], []) := by
  simp only [V4CdpMapper.mapV4EventToCdp, htype, QMap.valueD_of_contains _ _ _ hcarry, hb]
  rfl

/-- Witness of C21: the event of scenario S3, a breakpoint hit with `breakPointId` 1. -/
theorem breakpoint_event_witness :
    V4CdpMapper.mapV4EventToCdp (eventMessage "Breakpoint" [("breakPointId", .num 1)])
        (fun _ => .null)
      = ([("method", .str "Debugger.paused"),
          ("params", .map [("callFrames", .list []),
            ("hitBreakpoints", .list [.str "1"]),
            ("reason", .str "other")])], []) :=
  breakpoint_event (eventMessage "Breakpoint" [("breakPointId", .num 1)]) (fun _ => .null)
    (.num 1) rfl rfl rfl

/-- C22, as amended: for every backend `InlineEvalFinished` event `mapV4EventToCdp` returns
exactly the `Debugger.paused` notification with `params.reason` equal to
"debuggerStatement InlineEvalFinished" and an empty `callFrames` list, after one
synchronous backend call. -/
theorem inlineEvalFinished_event (v4Resp : QVariantMap) (backendSyncCall : QVariant → QVariant)
    (htype : (QMap.value (QMap.value v4Resp "Event").toMap "type").toString
      = "InlineEvalFinished") :
    (V4CdpMapper.mapV4EventToCdp v4Resp backendSyncCall).1
      = [("method", .str "Debugger.paused"),
         ("params", .map [("callFrames", .list []),
           ("reason", .str "debuggerStatement InlineEvalFinished")])] ∧
    V4Helpers.getNestedValue (V4CdpMapper.mapV4EventToCdp v4Resp backendSyncCall).1
      ["params", "reason"] = .str "debuggerStatement InlineEvalFinished" ∧
    (V4CdpMapper.mapV4EventToCdp v4Resp backendSyncCall).2.length = 1 := by
  have h : V4CdpMapper.mapV4EventToCdp v4Resp backendSyncCall
      = ([("method", .str "Debugger.paused"),
          ("params", .map [("callFrames", .list []),
            ("reason", .str "debuggerStatement InlineEvalFinished")])],
         [Effect.backendSyncCall
            (.map [("Command", .map [("type", .str "GetBacktrace")]), ("ID", .null)])]) := by
    simp only [V4CdpMapper.mapV4EventToCdp, htype]
    rfl
  rw [h]
  exact ⟨rfl, rfl, rfl⟩

/-- Witness of C22 as amended: an `InlineEvalFinished` event with the message "42". -/
theorem inlineEvalFinished_event_witness :
    V4Helpers.getNestedValue (V4CdpMapper.mapV4EventToCdp
        (eventMessage "InlineEvalFinished" [("message", .str "42")]) (fun _ => .null)).1
      ["params", "reason"] = .str "debuggerStatement InlineEvalFinished" :=
  (inlineEvalFinished_event (eventMessage "InlineEvalFinished" [("message", .str "42")])
    (fun _ => .null) rfl).2.1

/-- C22 fails on the code as stated: the reason of an `InlineEvalFinished` event is
"debuggerStatement InlineEvalFinished", the reason of a `DebuggerInvocationRequest` event is
"debuggerStatement DebuggerInvocationRequest"; the two strings differ. -/
theorem inlineEvalFinished_reason_differs :
    V4Helpers.getNestedValue (V4CdpMapper.mapV4EventToCdp
        (eventMessage "InlineEvalFinished" [("message", .str "42")]) (fun _ => .null)).1
      ["params", "reason"] = .str "debuggerStatement InlineEvalFinished" ∧
    V4Helpers.getNestedValue (V4CdpMapper.mapV4EventToCdp
        (eventMessage "DebuggerInvocationRequest" []) (fun _ => .null)).1
      ["params", "reason"] = .str "debuggerStatement DebuggerInvocationRequest" ∧
    V4Helpers.getNestedValue (V4CdpMapper.mapV4EventToCdp
        (eventMessage "InlineEvalFinished" [("message", .str "42")]) (fun _ => .null)).1
      ["params", "reason"]
      ≠ V4Helpers.getNestedValue (V4CdpMapper.mapV4EventToCdp
        (eventMessage "DebuggerInvocationRequest" []) (fun _ => .null)).1
      ["params", "reason"] := by
  have h1 : V4Helpers.getNestedValue (V4CdpMapper.mapV4EventToCdp
      (eventMessage "InlineEvalFinished" [("message", .str "42")]) (fun _ => .null)).1
      ["params", "reason"] = .str "debuggerStatement InlineEvalFinished" := rfl
  have h2 : V4Helpers.getNestedValue (V4CdpMapper.mapV4EventToCdp
      (eventMessage "DebuggerInvocationRequest" []) (fun _ => .null)).1
      ["params", "reason"] = .str "debuggerStatement DebuggerInvocationRequest" := rfl
  refine ⟨h1, h2, ?_⟩
  rw [h1, h2]
  intro h
  injection h with h
  revert h
  decide

theorem QMap.value_of_not_contains (m : QVariantMap) (k : String)
    (h : QMap.contains m k = false) : QMap.value m k = .null :=
  QMap.valueD_of_not_contains m k .null h

/-- A two-step `getNestedValue` is the chain of `value` and `toMap` calls. -/
theorem getNestedValue_two (m : QVariantMap) (a b : String) :
    V4Helpers.getNestedValue m [a, b] = QMap.value (QMap.value m a).toMap b := by
  simp only [V4Helpers.getNestedValue, V4Helpers.getNestedValueD, getNestedValueFrom,
    QVariant.canConvertMap, QVariant.toMap, Bool.not_true, Bool.false_eq_true, if_false]
  cases ha : QMap.contains m a
  · rw [QMap.value_of_not_contains m a ha]
    rfl
  · simp only [Bool.not_true, Bool.false_eq_true, if_false]
    cases hv : QMap.value m a with
    | map inner =>
      simp only [QVariant.canConvertMap, QVariant.toMap, Bool.not_true, Bool.false_eq_true,
        if_false]
      cases hb : QMap.contains inner b
      · simp [QMap.value_of_not_contains inner b hb]
      · simp
    | _ => simp [QVariant.canConvertMap, QVariant.toMap, QMap.value, QMap.valueD]

/-- An event whose type has no branch in `mapV4EventToCdp` maps to the empty mapping. -/
theorem unmapped_event (v4Resp : QVariantMap) (backendSyncCall : QVariant → QVariant)
    (htype : (QMap.value (QMap.value v4Resp "Event").toMap "type").toString
      ∉ mappedEventTypes) :
    V4CdpMapper.mapV4EventToCdp v4Resp backendSyncCall = ([], []) := by
  simp only [mappedEventTypes, List.mem_cons, List.mem_singleton, List.mem_nil_iff, or_false,
    not_or] at htype
  obtain ⟨h1, h2, h3, h4, h5, h6, h7, h8⟩ := htype
  simp only [V4CdpMapper.mapV4EventToCdp, h1, h2, h3, h4, h5, h6, h7, h8, if_false]

/-- The event mapper writes to no socket. -/
theorem sentTo_mapV4EventToCdp (sock : Nat) (v4Resp : QVariantMap)
    (backendSyncCall : QVariant → QVariant) :
    sentTo sock (V4CdpMapper.mapV4EventToCdp v4Resp backendSyncCall).2 = [] := by
  simp only [V4CdpMapper.mapV4EventToCdp]
  split_ifs <;> rfl

/-- The test of `autoReplyForSomeEvents` fails: no call is made. -/
theorem autoReply_false (fe : CdpDebuggerFrontend) (v4Resp : QVariantMap)
    (h : ¬ ((V4Helpers.getNestedValue v4Resp ["Event", "type"]).toString
        = "InlineEvalFinished" ∧
      (V4Helpers.getNestedValue v4Resp ["Event", "attributes", "message"]).toString
        = "undefined")) :
    fe.autoReplyForSomeEvents v4Resp = (false, []) := by
  simp only [CdpDebuggerFrontend.autoReplyForSomeEvents, h, if_false]

/-- C24: a backend event whose type is none of `Interrupted`, `Breakpoint`,
`SteppingFinished`, `LocationReached`, `DebuggerInvocationRequest`, `Exception`,
`InlineEvalFinished`, `Trace` is mapped by `mapV4EventToCdp` to the empty mapping, and
`onBackendResponse`, handed such an event (a message without `ID`), has no effect at all: no
message to any client, no error, no backend call, the table unchanged. -/
theorem unknown_event_dropped (fe : CdpDebuggerFrontend) (table : OrigCdpRequests)
    (v4Resp : QVariantMap)
    (htype : (QMap.value (QMap.value v4Resp "Event").toMap "type").toString
      ∉ mappedEventTypes)
    (hnoid : QMap.contains v4Resp "ID" = false) :
    V4CdpMapper.mapV4EventToCdp v4Resp fe.m_getHandledByBackend = ([], []) ∧
    fe.onBackendResponse table (.map v4Resp) = (table, []) ∧
    (∀ sock : Nat, sentTo sock (fe.onBackendResponse table (.map v4Resp)).2 = []) := by
  have hmap := unmapped_event v4Resp fe.m_getHandledByBackend htype
  have hnot : ¬ ((V4Helpers.getNestedValue v4Resp ["Event", "type"]).toString
        = "InlineEvalFinished" ∧
      (V4Helpers.getNestedValue v4Resp ["Event", "attributes", "message"]).toString
        = "undefined") := by
    intro h
    apply htype
    rw [← getNestedValue_two, h.1]
    decide
  have hall : fe.onBackendResponse table (.map v4Resp) = (table, []) := by
    simp only [CdpDebuggerFrontend.onBackendResponse, QVariant.canConvertMap, QVariant.toMap,
      Bool.not_true, Bool.false_eq_true, if_false, QMap.valueD_of_not_contains _ _ _ hnoid,
      show (QVariant.num (-1)).toInt = -1 from rfl, if_true, autoReply_false fe v4Resp hnot,
      hmap, List.isEmpty_nil, List.append_nil]
    split_ifs <;> rfl
  refine ⟨hmap, hall, ?_⟩
  intro sock
  rw [hall]
  rfl

/-- Witness of C24: an event of the type `Foo`. -/
theorem unknown_event_dropped_witness :
    demoFrontend.onBackendResponse [] (.map (eventMessage "Foo" [])) = ([], []) :=
  (unknown_event_dropped demoFrontend [] (eventMessage "Foo" []) (by decide) rfl).2.1

/-! ## Auto-reply (C23) -/

/-- C23: for a backend message without `ID` whose `Event` has the type "InlineEvalFinished"
and `attributes.message` equal to "undefined", `onBackendResponse` makes exactly one
synchronous backend call, with the request `{ID: 0, Command: {type: "Resume", attributes:
{}}}`, and nothing else: no message goes to any client and the table is unchanged. -/
theorem autoReply_resume (fe : CdpDebuggerFrontend) (table : OrigCdpRequests)
    (v4Resp ev attrs : QVariantMap)
    (hnoid : QMap.contains v4Resp "ID" = false)
    (hev : QMap.value v4Resp "Event" = .map ev)
    (htype : QMap.value ev "type" = .str "InlineEvalFinished")
    (hattrs : QMap.value ev "attributes" = .map attrs)
    (hmsg : QMap.value attrs "message" = .str "undefined") :
    fe.onBackendResponse table (.map v4Resp)
      = (table, [Effect.backendSyncCall (.map [
          ("Command", .map [("attributes", .map []), ("type", .str "Resume")]),
          ("ID", .num 0)])]) ∧
    backendRequests (fe.onBackendResponse table (.map v4Resp)).2
      = [.map [("Command", .map [("attributes", .map []), ("type", .str "Resume")]),
          ("ID", .num 0)]] ∧
    (∀ sock : Nat, sentTo sock (fe.onBackendResponse table (.map v4Resp)).2 = []) := by
  have hc1 : QMap.contains v4Resp "Event" = true :=
    QMap.contains_of_value_ne_null _ _ (by rw [hev]; simp)
  have hc2 : QMap.contains ev "type" = true :=
    QMap.contains_of_value_ne_null _ _ (by rw [htype]; simp)
  have hc3 : QMap.contains ev "attributes" = true :=
    QMap.contains_of_value_ne_null _ _ (by rw [hattrs]; simp)
  have hc4 : QMap.contains attrs "message" = true :=
    QMap.contains_of_value_ne_null _ _ (by rw [hmsg]; simp)
  have h1 : V4Helpers.getNestedValue v4Resp ["Event", "type"] = .str "InlineEvalFinished" := by
    rw [getNestedValue_two, hev]
    exact htype
  have h2 : V4Helpers.getNestedValue v4Resp ["Event", "attributes", "message"]
      = .str "undefined" := by
    simp [V4Helpers.getNestedValue, V4Helpers.getNestedValueD, getNestedValueFrom,
      QVariant.canConvertMap, QVariant.toMap, hc1, hev, hc3, hattrs, hc4, hmsg]
  have hauto : fe.autoReplyForSomeEvents v4Resp
      = (true, [Effect.backendSyncCall (.map [
          ("Command", .map [("attributes", .map []), ("type", .str "Resume")]),
          ("ID", .num 0)])]) := by
    simp only [CdpDebuggerFrontend.autoReplyForSomeEvents, h1, h2, QVariant.toString, and_self,
      if_true]
    rfl
  have hall : fe.onBackendResponse table (.map v4Resp)
      = (table, [Effect.backendSyncCall (.map [
          ("Command", .map [("attributes", .map []), ("type", .str "Resume")]),
          ("ID", .num 0)])]) := by
    simp only [CdpDebuggerFrontend.onBackendResponse, QVariant.canConvertMap, QVariant.toMap,
      Bool.not_true, Bool.false_eq_true, if_false, QMap.valueD_of_not_contains _ _ _ hnoid,
      show (QVariant.num (-1)).toInt = -1 from rfl, if_true, hc1, hauto]
  refine ⟨hall, ?_, ?_⟩
  · rw [hall]
    rfl
  · intro sock
    rw [hall]
    rfl

/-- Witness of C23: the event `{Event: {type: "InlineEvalFinished", attributes: {message:
"undefined"}}}` with two connected clients in the registry. -/
theorem autoReply_resume_witness :
    demoFrontend.onBackendResponse []
        (.map (eventMessage "InlineEvalFinished" [("message", .str "undefined")]))
      = ([], [Effect.backendSyncCall (.map [
          ("Command", .map [("attributes", .map []), ("type", .str "Resume")]),
          ("ID", .num 0)])]) :=
  (autoReply_resume demoFrontend []
    (eventMessage "InlineEvalFinished" [("message", .str "undefined")])
    [("attributes", .map [("message", .str "undefined")]), ("type", .str "InlineEvalFinished")]
    [("message", .str "undefined")] rfl rfl rfl rfl rfl).1

/-! ## Broadcast of events (C25) -/

theorem sentTo_broadcast (sock : Nat) (doc : QVariant) (socks : List Nat) :
    sentTo sock (socks.map (fun s => Effect.sendTextMessage s doc))
      = List.replicate (socks.count sock) doc := by
  induction socks with
  | nil => rfl
  | cons s rest ih =>
    by_cases h : s = sock
    · simp [sentTo, h, ih, List.replicate_succ]
    · simp [sentTo, h, ih, List.count_cons]

theorem contains_event_of_mapped (v4Resp : QVariantMap)
    (backendSyncCall : QVariant → QVariant)
    (h : (V4CdpMapper.mapV4EventToCdp v4Resp backendSyncCall).1.isEmpty = false) :
    QMap.contains v4Resp "Event" = true := by
  cases hc : QMap.contains v4Resp "Event"
  · have hm : V4CdpMapper.mapV4EventToCdp v4Resp backendSyncCall = ([], []) := by
      apply unmapped_event
      rw [QMap.value_of_not_contains _ _ hc]
      decide
    rw [hm] at h
    simp at h
  · rfl

/-- C25, as amended: for every client registry and every backend event (a message without
`ID`) that is not answered by the auto-reply and that `mapV4EventToCdp` maps to a non-empty
notification `n`, `onBackendResponse` makes the synchronous calls of the mapper and then
sends `n` once per registry entry in connected state, in registry order; a socket that is
not in connected state receives nothing. -/
theorem event_broadcast (fe : CdpDebuggerFrontend) (table : OrigCdpRequests)
    (v4Resp : QVariantMap)
    (hnoid : QMap.contains v4Resp "ID" = false)
    (hauto : ¬ ((V4Helpers.getNestedValue v4Resp ["Event", "type"]).toString
        = "InlineEvalFinished" ∧
      (V4Helpers.getNestedValue v4Resp ["Event", "attributes", "message"]).toString
        = "undefined"))
    (hn : (V4CdpMapper.mapV4EventToCdp v4Resp fe.m_getHandledByBackend).1.isEmpty = false) :
    fe.onBackendResponse table (.map v4Resp)
      = (table, (V4CdpMapper.mapV4EventToCdp v4Resp fe.m_getHandledByBackend).2 ++
          (connectedSocks fe.m_responseClients).map (fun sock =>
            Effect.sendTextMessage sock
              (.map (V4CdpMapper.mapV4EventToCdp v4Resp fe.m_getHandledByBackend).1))) ∧
    (∀ sock : Nat, sentTo sock (fe.onBackendResponse table (.map v4Resp)).2
      = List.replicate ((connectedSocks fe.m_responseClients).count sock)
          (.map (V4CdpMapper.mapV4EventToCdp v4Resp fe.m_getHandledByBackend).1)) ∧
    (∀ sock : Nat, sock ∉ connectedSocks fe.m_responseClients →
      sentTo sock (fe.onBackendResponse table (.map v4Resp)).2 = []) := by
  have hc := contains_event_of_mapped v4Resp _ hn
  have hall : fe.onBackendResponse table (.map v4Resp)
      = (table, (V4CdpMapper.mapV4EventToCdp v4Resp fe.m_getHandledByBackend).2 ++
          (connectedSocks fe.m_responseClients).map (fun sock =>
            Effect.sendTextMessage sock
              (.map (V4CdpMapper.mapV4EventToCdp v4Resp fe.m_getHandledByBackend).1))) := by
    simp only [CdpDebuggerFrontend.onBackendResponse, QVariant.canConvertMap, QVariant.toMap,
      Bool.not_true, Bool.false_eq_true, if_false, QMap.valueD_of_not_contains _ _ _ hnoid,
      show (QVariant.num (-1)).toInt = -1 from rfl, if_true, hc, autoReply_false fe v4Resp hauto,
      hn, Bool.not_false, List.nil_append, CdpDebuggerFrontend.sendToAll, sendToAll_connected]
  have hsent : ∀ sock : Nat, sentTo sock (fe.onBackendResponse table (.map v4Resp)).2
      = List.replicate ((connectedSocks fe.m_responseClients).count sock)
          (.map (V4CdpMapper.mapV4EventToCdp v4Resp fe.m_getHandledByBackend).1) := by
    intro sock
    rw [hall, sentTo_append, sentTo_mapV4EventToCdp, sentTo_broadcast]
    rfl
  refine ⟨hall, hsent, ?_⟩
  intro sock hsock
  rw [hsent, List.count_eq_zero_of_not_mem hsock]
  rfl

/-- Witness of C25 as amended: a breakpoint hit reaches the connected sockets 1 and 2 and
not the closed socket 3. -/
theorem event_broadcast_witness :
    demoFrontend.onBackendResponse []
        (.map (eventMessage "Breakpoint" [("breakPointId", .num 1)]))
      = ([], [Effect.sendTextMessage 1 (.map [("method", .str "Debugger.paused"),
            ("params", .map [("callFrames", .list []),
              ("hitBreakpoints", .list [.str "1"]), ("reason", .str "other")])]),
          Effect.sendTextMessage 2 (.map [("method", .str "Debugger.paused"),
            ("params", .map [("callFrames", .list []),
              ("hitBreakpoints", .list [.str "1"]), ("reason", .str "other")])])]) :=
  (event_broadcast demoFrontend [] (eventMessage "Breakpoint" [("breakPointId", .num 1)])
    rfl (by decide) rfl).1

/-- C25 fails on the code as stated: the event `InlineEvalFinished` with the message
"undefined" is mapped by `mapV4EventToCdp` to a non-empty `Debugger.paused` notification,
yet `onBackendResponse` answers it with the auto-reply and sends nothing to the connected
clients on the sockets 1 and 2. -/
theorem auto_replied_event_not_broadcast :
    (V4CdpMapper.mapV4EventToCdp
        (eventMessage "InlineEvalFinished" [("message", .str "undefined")])
        demoFrontend.m_getHandledByBackend).1
      = [("method", .str "Debugger.paused"),
         ("params", .map [("callFrames", .list []),
           ("reason", .str "debuggerStatement InlineEvalFinished")])] ∧
    connectedSocks demoFrontend.m_responseClients = [1, 2] ∧
    sentTo 1 (demoFrontend.onBackendResponse []
        (.map (eventMessage "InlineEvalFinished" [("message", .str "undefined")]))).2 = [] ∧
    sentTo 2 (demoFrontend.onBackendResponse []
        (.map (eventMessage "InlineEvalFinished" [("message", .str "undefined")]))).2 = [] :=
  ⟨rfl, rfl, rfl, rfl⟩

/-! ## V4Helpers.getNestedValue (C26) -/

theorem QMap.contains_eq_lookup (m : QVariantMap) (k : String) :
    QMap.contains m k = (m.lookup k).isSome := by
  induction m with
  | nil => rfl
  | cons e rest ih =>
    obtain ⟨k0, v0⟩ := e
    by_cases h : k0 = k
    · subst h
      simp [QMap.contains, List.lookup]
    · have h' : (k == k0) = false := by simpa using fun hk => h hk.symm
      simp [QMap.contains, List.lookup, h, h', ih]

theorem QMap.value_eq_lookup (m : QVariantMap) (k : String) :
    QMap.value m k = (m.lookup k).getD .null := by
  induction m with
  | nil => rfl
  | cons e rest ih =>
    obtain ⟨k0, v0⟩ := e
    by_cases h : k0 = k
    · subst h
      simp [QMap.value, QMap.valueD, List.lookup]
    · have h' : (k == k0) = false := by simpa using fun hk => h hk.symm
      have ih' : QMap.valueD rest k .null = (rest.lookup k).getD .null := ih
      simp [QMap.value, QMap.valueD, List.lookup, h, h', ih']

theorem getNestedValueFrom_descend (d current : QVariant) (path : List String) :
    getNestedValueFrom d current path = (descend current path).getD d := by
  induction path generalizing current with
  | nil => cases current <;> rfl
  | cons key rest ih =>
    cases current with
    | map m =>
      simp only [getNestedValueFrom, QVariant.canConvertMap, QVariant.toMap, Bool.not_true,
        Bool.false_eq_true, if_false, descend, QMap.contains_eq_lookup, QMap.value_eq_lookup]
      cases hl : m.lookup key with
      | none => simp
      | some v => simpa using ih v
    | null => rfl
    | bool b => rfl
    | num n => rfl
    | str s => rfl
    | list xs => rfl

/-- C26: `getNestedValue(m, p, d)` is the value reached by descending `m` along `p` when
every step lands on a mapping that contains the next key, and is `d` as soon as a step is
not a mapping or lacks the key; for the empty key sequence it is `m` itself. -/
theorem getNestedValue_descend (m : QVariantMap) (p : List String) (d : QVariant) :
    V4Helpers.getNestedValueD m p d = (descend (.map m) p).getD d ∧
    (∀ v : QVariant, descend (.map m) p = some v → V4Helpers.getNestedValueD m p d = v) ∧
    (descend (.map m) p = none → V4Helpers.getNestedValueD m p d = d) ∧
    V4Helpers.getNestedValueD m [] d = .map m ∧
    V4Helpers.getNestedValue m p = (descend (.map m) p).getD .null := by
  have h := getNestedValueFrom_descend d (.map m) p
  refine ⟨h, ?_, ?_, rfl, getNestedValueFrom_descend .null (.map m) p⟩
  · intro v hv
    simp only [V4Helpers.getNestedValueD, h, hv, Option.getD_some]
  · intro hv
    simp only [V4Helpers.getNestedValueD, h, hv, Option.getD_none]

/-- Witness of C26: the path `params.url` of scenario S1 is reached; the path `params.x.y`
gives the default. -/
theorem getNestedValue_descend_witness :
    V4Helpers.getNestedValueD setBreakpointRequest ["params", "url"] (.num 0)
      = .str "jsrunner://test.js" ∧
    V4Helpers.getNestedValueD setBreakpointRequest ["params", "x", "y"] (.num 0) = .num 0 :=
  ⟨(getNestedValue_descend setBreakpointRequest ["params", "url"] (.num 0)).2.1 _ rfl,
   (getNestedValue_descend setBreakpointRequest ["params", "x", "y"] (.num 0)).2.2.1 rfl⟩

/-! ## The event pump (C27) -/

theorem onV4EventAvailable_pos (fe : CdpDebuggerFrontend) (n : Int) (h : n > 0) :
    fe.onV4EventAvailable n
      = Effect.sendRequestToBackend (.map [("Control", .str "PullEvent")]) ::
          fe.onV4EventAvailable (toInt32 (n - 1)) := by
  rw [CdpDebuggerFrontend.onV4EventAvailable, if_pos h]
  rfl

theorem onV4EventAvailable_nonpos (fe : CdpDebuggerFrontend) (n : Int) (h : ¬ n > 0) :
    fe.onV4EventAvailable n = [] := by
  rw [CdpDebuggerFrontend.onV4EventAvailable, if_neg h]

theorem onV4EventAvailable_replicate (fe : CdpDebuggerFrontend) (k : Nat) :
    ∀ n : Int, inIntRange n → n.toNat = k →
      fe.onV4EventAvailable n
        = List.replicate k (Effect.sendRequestToBackend (.map [("Control", .str "PullEvent")]))
  := by
  induction k with
  | zero =>
    intro n _ hk
    rw [onV4EventAvailable_nonpos fe n (by omega)]
    rfl
  | succ k ih =>
    intro n hrange hk
    have hpos : n > 0 := by omega
    have hrange' : inIntRange (n - 1) := by
      unfold inIntRange at hrange ⊢
      omega
    rw [onV4EventAvailable_pos fe n hpos, toInt32_of_inIntRange (n - 1) hrange',
      ih (n - 1) hrange' (by omega)]
    rfl

theorem sentTo_replicate_request (sock k : Nat) (r : QVariant) :
    sentTo sock (List.replicate k (Effect.sendRequestToBackend r)) = [] := by
  induction k with
  | zero => rfl
  | succ k ih => simpa [List.replicate_succ, sentTo] using ih

theorem backendRequests_replicate_request (k : Nat) (r : QVariant) :
    backendRequests (List.replicate k (Effect.sendRequestToBackend r))
      = List.replicate k r := by
  induction k with
  | zero => rfl
  | succ k ih => simp [List.replicate_succ, backendRequests, ih]

/-- C27: the event pump. For every `n` of the C++ type int, `onV4EventAvailable(n)` (a total
function: the loop terminates) emits exactly `max(n, 0)` requests to the backend, each equal
to `{Control: "PullEvent"}`, and nothing else; no message goes to any client. -/
theorem onV4EventAvailable_pulls (fe : CdpDebuggerFrontend) (n : Int) (hrange : inIntRange n) :
    fe.onV4EventAvailable n
      = List.replicate n.toNat
          (Effect.sendRequestToBackend (.map [("Control", .str "PullEvent")])) ∧
    ((fe.onV4EventAvailable n).length : Int) = max n 0 ∧
    backendRequests (fe.onV4EventAvailable n)
      = List.replicate n.toNat (.map [("Control", .str "PullEvent")]) ∧
    (∀ sock : Nat, sentTo sock (fe.onV4EventAvailable n) = []) := by
  have h := onV4EventAvailable_replicate fe n.toNat n hrange rfl
  refine ⟨h, ?_, ?_, ?_⟩
  · rw [h, List.length_replicate]
    omega
  · rw [h, backendRequests_replicate_request]
  · intro sock
    rw [h, sentTo_replicate_request]

/-- Witness of C27: three pending events give three `PullEvent` requests. -/
theorem onV4EventAvailable_pulls_witness :
    demoFrontend.onV4EventAvailable 3
      = [Effect.sendRequestToBackend (.map [("Control", .str "PullEvent")]),
         Effect.sendRequestToBackend (.map [("Control", .str "PullEvent")]),
         Effect.sendRequestToBackend (.map [("Control", .str "PullEvent")])] :=
  (onV4EventAvailable_pulls demoFrontend 3 (by decide)).1

/-! ## Synchronous backend calls (C28) -/

/-- Every call that goes through `blockingV4BackendCall` passes a request with `ID` 0. -/
theorem blockingV4BackendCall_id (fe : CdpDebuggerFrontend) (request : QVariantMap) :
    (fe.blockingV4BackendCall request).2
      = [Effect.backendSyncCall (.map (QMap.insert request "ID" (.num 0)))] ∧
    QMap.value (QMap.insert request "ID" (.num 0)) "ID" = .num 0 := by
  refine ⟨rfl, ?_⟩
  rw [QMap.value_insert]
  simp

/-- C28 fails on the code: for the event `InlineEvalFinished` with the message "42" the
event mapper makes its stack-trace call on the backend functor directly, with the request
`{Command: {type: "GetBacktrace"}, ID: <invalid QVariant>}`: the request was mapped from a
CDP request without `id`, and nothing sets `ID` to 0 on this path. -/
theorem stack_trace_call_without_id :
    demoFrontend.onBackendResponse []
        (.map (eventMessage "InlineEvalFinished" [("message", .str "42")]))
      = ([], [Effect.backendSyncCall
            (.map [("Command", .map [("type", .str "GetBacktrace")]), ("ID", .null)]),
          Effect.sendTextMessage 1 (.map [("method", .str "Debugger.paused"),
            ("params", .map [("callFrames", .list []),
              ("reason", .str "debuggerStatement InlineEvalFinished")])]),
          Effect.sendTextMessage 2 (.map [("method", .str "Debugger.paused"),
            ("params", .map [("callFrames", .list []),
              ("reason", .str "debuggerStatement InlineEvalFinished")])])]) ∧
    backendRequests (demoFrontend.onBackendResponse []
        (.map (eventMessage "InlineEvalFinished" [("message", .str "42")]))).2
      = [.map [("Command", .map [("type", .str "GetBacktrace")]), ("ID", .null)]] ∧
    QMap.value [("Command", QVariant.map [("type", .str "GetBacktrace")]), ("ID", .null)] "ID"
      ≠ .num 0 := by
  refine ⟨rfl, rfl, ?_⟩
  intro h
  have h' : QVariant.null = .num 0 := h
  cases h'

/-! ## Responses of the Runtime module (C29) -/

/-- The Runtime response mapper on a `Runtime.evaluate` request: three keys. -/
theorem response_runtime_evaluate (v4Response orig : QVariantMap)
    (hmethod : (QMap.value orig "method").toString = "Runtime.evaluate") :
    V4CdpMapper.mapV4ToCdpResponse_runtime v4Response orig
      = [("_mapper_metadata", QMap.value orig "_mapper_metadata"),
         ("id", QMap.value v4Response "ID"),
         ("result", .map [("result", .map [("type", .str "string"),
           ("value", QMap.value v4Response "Result")])])] := by
  simp only [V4CdpMapper.mapV4ToCdpResponse_runtime, hmethod]
  rfl

/-- C29 fails on the code: the request `{"id":3,"method":"Runtime.evaluate",
"params":{"expression":"1+1"}}` is mapped forward (and stored), the backend answers
`{ID: 3, Result: "2"}`, and the CDP response has three keys: next to `id` and `result` it
carries `_mapper_metadata: "Runtime"`. -/
theorem runtime_evaluate_response_leaks_metadata :
    (V4CdpMapper.mapCdpToV4Request evaluateRequest []).1
      = [("Command", .map [("attributes", .map [("program", .str "1+1")]),
          ("type", .str "Evaluate")]), ("ID", .num 3)] ∧
    V4CdpMapper.mapV4ToCdpResponse [("ID", .num 3), ("Result", .str "2")]
        (V4CdpMapper.mapCdpToV4Request evaluateRequest []).2.2
      = ([("_mapper_metadata", .str "Runtime"), ("id", .num 3),
          ("result", .map [("result", .map [("type", .str "string"),
            ("value", .str "2")])])], []) ∧
    QMap.contains (V4CdpMapper.mapV4ToCdpResponse [("ID", .num 3), ("Result", .str "2")]
        (V4CdpMapper.mapCdpToV4Request evaluateRequest []).2.2).1 "_mapper_metadata" = true ∧
    (V4CdpMapper.mapV4ToCdpResponse [("ID", .num 3), ("Result", .str "2")]
        (V4CdpMapper.mapCdpToV4Request evaluateRequest []).2.2).1.length = 3 :=
  ⟨rfl, rfl, rfl, rfl⟩

/-! ## The default response rule (C30) -/

/-- The last branch of the Debugger response mapper: `result` is `Result` converted to a
mapping. -/
theorem response_debugger_default (v4Response orig : QVariantMap)
    (h : (QMap.value orig "method").toString ∈ debuggerDefaultResponse) :
    V4CdpMapper.mapV4ToCdpResponse_debugger v4Response orig
      = [("id", QMap.value v4Response "ID"),
         ("result", .map (QMap.value v4Response "Result").toMap)] := by
  simp only [debuggerDefaultResponse, List.mem_cons, List.mem_singleton, List.mem_nil_iff,
    or_false] at h
  rcases h with h | h | h | h | h | h | h <;>
    (simp only [V4CdpMapper.mapV4ToCdpResponse_debugger, h]
     rfl)

/-- The part of C30 that holds: for `Runtime.callFunctionOn` the `result` of the CDP
response is the `Result` of the backend whatever its shape; for the Debugger methods without
a rule of their own it is `Result` when `Result` is a mapping. -/
theorem default_response_passthrough (v4Response orig : QVariantMap) :
    ((QMap.value orig "method").toString = "Runtime.callFunctionOn" →
      QMap.value (V4CdpMapper.mapV4ToCdpResponse_runtime v4Response orig) "result"
        = QMap.value v4Response "Result") ∧
    ((QMap.value orig "method").toString ∈ debuggerDefaultResponse →
      ∀ r : QVariantMap, QMap.value v4Response "Result" = .map r →
        QMap.value (V4CdpMapper.mapV4ToCdpResponse_debugger v4Response orig) "result"
          = QMap.value v4Response "Result") := by
  constructor
  · intro h
    simp only [V4CdpMapper.mapV4ToCdpResponse_runtime, h]
    simp [QMap.value_insert]
  · intro h r hr
    rw [response_debugger_default v4Response orig h, hr]
    rfl

/-- C30 fails on the code: the request `{"id":7,"method":"Debugger.pause"}` is mapped
forward (and stored), the backend answers `{ID: 7, Result: "ok"}`, and the `result` of the
CDP response is the empty mapping, not the payload "ok": the last branch of
`mapV4ToCdpResponse_debugger` passes on `Result.toMap()`. -/
theorem debugger_default_drops_payload :
    V4CdpMapper.mapV4ToCdpResponse [("ID", .num 7), ("Result", .str "ok")]
        (V4CdpMapper.mapCdpToV4Request
          [("id", .num 7), ("method", .str "Debugger.pause")] []).2.2
      = ([("id", .num 7), ("result", .map [])], []) ∧
    QMap.value (V4CdpMapper.mapV4ToCdpResponse [("ID", .num 7), ("Result", .str "ok")]
        (V4CdpMapper.mapCdpToV4Request
          [("id", .num 7), ("method", .str "Debugger.pause")] []).2.2).1 "result"
      ≠ QMap.value [("ID", QVariant.num 7), ("Result", .str "ok")] "Result" := by
  refine ⟨rfl, ?_⟩
  intro h
  have h' : QVariant.map [] = .str "ok" := h
  cases h'

/-! ## Stack traces (C31) -/

theorem filterMap_stackFrame (frames : List QVariant) :
    frames.filterMap stackFrame = (frames.filter isStackFrame).map convertedFrame := by
  induction frames with
  | nil => rfl
  | cons f rest ih =>
    cases hs : f.isString
    · cases hm : f.canConvertMap
      · simp [List.filterMap_cons, stackFrame, isStackFrame, hs, hm, ih]
      · simp [List.filterMap_cons, stackFrame, isStackFrame, convertedFrame, hs, hm, ih]
    · simp [List.filterMap_cons, stackFrame, isStackFrame, convertedFrame, hs, ih]

/-- C31: for a stored `Debugger.getStackTrace` request and a backend response whose `Result`
is the list `frames`, the CDP response is exactly `{id, result: {callFrames: L}}`, where `L`
holds, in the original order, the converted form of each frame that is a mapping or a string;
frames of another shape are dropped, so `L` is at most as long as `frames`; a mapping frame
`fm` becomes `{functionName: fm.functionName, url: fm.fileName, lineNumber:
fm.lineNumber}`. -/
theorem getStackTrace_response (v4Response orig : QVariantMap) (frames : List QVariant)
    (hmethod : (QMap.value orig "method").toString = "Debugger.getStackTrace")
    (hresult : QMap.value v4Response "Result" = .list frames) :
    V4CdpMapper.mapV4ToCdpResponse_debugger v4Response orig
      = [("id", .num (QMap.value v4Response "ID").toInt),
         ("result", .map [("callFrames",
            .list ((frames.filter isStackFrame).map convertedFrame))])] ∧
    ((frames.filter isStackFrame).map convertedFrame).length ≤ frames.length ∧
    (∀ fm : QVariantMap, isStackFrame (.map fm) = true ∧
      convertedFrame (.map fm)
        = .map [("functionName", QMap.value fm "functionName"),
            ("lineNumber", QMap.value fm "lineNumber"),
            ("url", QMap.value fm "fileName")]) ∧
    (∀ s : String, isStackFrame (.str s) = true) ∧
    (∀ f : QVariant, isStackFrame f = true ↔ (∃ s, f = .str s) ∨ (∃ fm, f = .map fm)) := by
  refine ⟨?_, ?_, ?_, fun s => rfl, ?_⟩
  · simp only [V4CdpMapper.mapV4ToCdpResponse_debugger, hmethod,
      V4CdpMapper.mapV4ToCdpResponse_helper_stack, hresult, QVariant.toList,
      filterMap_stackFrame]
    rfl
  · rw [List.length_map]
    exact List.length_filter_le _ _
  · intro fm
    exact ⟨rfl, rfl⟩
  · intro f
    cases f <;> simp [isStackFrame, QVariant.isString, QVariant.canConvertMap]

/-- Witness of C31: a mapping frame, a number and a textual frame; the number is dropped. -/
theorem getStackTrace_response_witness :
    V4CdpMapper.mapV4ToCdpResponse_debugger
        [("ID", .num 9), ("Result", .list [
          .map [("fileName", .str "a.js"), ("functionName", .str "f"), ("lineNumber", .num 3)],
          .num 5, .str "g at b.js:7"])]
        [("id", .num 9), ("method", .str "Debugger.getStackTrace")]
      = [("id", .num 9),
         ("result", .map [("callFrames", .list [
            .map [("functionName", .str "f"), ("lineNumber", .num 3), ("url", .str "a.js")],
            .map [("functionName", .str "g"), ("lineNumber", .num 7),
              ("url", .str "b.js")]])])] :=
  (getStackTrace_response
    [("ID", .num 9), ("Result", .list [
      .map [("fileName", .str "a.js"), ("functionName", .str "f"), ("lineNumber", .num 3)],
      .num 5, .str "g at b.js:7"])]
    [("id", .num 9), ("method", .str "Debugger.getStackTrace")]
    [.map [("fileName", .str "a.js"), ("functionName", .str "f"), ("lineNumber", .num 3)],
     .num 5, .str "g at b.js:7"] rfl rfl).1

/-! ## Malformed frames (C35) -/

/-- C35: a frame that is not JSON, or is JSON but not an object, or is an object without
`id`, or is an object whose `id` is not an integer, makes `onCdpMessageReceived` do nothing:
no message to any client, no backend request, the table unchanged. -/
theorem malformed_frame_dropped (fe : CdpDebuggerFrontend) (table : OrigCdpRequests)
    (doc : Option QVariant) (client : Option QWebSocket)
    (h : doc = none ∨
      (∃ d, doc = some d ∧ d.canConvertMap = false) ∨
      (∃ cmd, doc = some (.map cmd) ∧ QMap.contains cmd "id" = false) ∨
      (∃ cmd, doc = some (.map cmd) ∧ ∀ n : Int, QMap.value cmd "id" ≠ .num n)) :
    fe.onCdpMessageReceived table doc client = (table, []) ∧
    (∀ sock : Nat, sentTo sock (fe.onCdpMessageReceived table doc client).2 = []) ∧
    backendRequests (fe.onCdpMessageReceived table doc client).2 = [] := by
  have hall : fe.onCdpMessageReceived table doc client = (table, []) := by
    apply onCdpMessageReceived_dropped
    right
    rintro ⟨cmd, n, hdoc, hid, -, -⟩
    rcases h with h | ⟨d, hd, hconv⟩ | ⟨cmd', hd, hc⟩ | ⟨cmd', hd, hnum⟩
    · rw [h] at hdoc
      cases hdoc
    · rw [hd] at hdoc
      injection hdoc with hdoc
      rw [hdoc] at hconv
      simp [QVariant.canConvertMap] at hconv
    · rw [hd] at hdoc
      injection hdoc with hdoc
      injection hdoc with hdoc
      subst hdoc
      have := QMap.contains_of_value_ne_null cmd' "id" (by rw [hid]; simp)
      rw [hc] at this
      cases this
    · rw [hd] at hdoc
      injection hdoc with hdoc
      injection hdoc with hdoc
      subst hdoc
      exact hnum n hid
  rw [hall]
  exact ⟨rfl, fun _ => rfl, rfl⟩

/-- Witness of C35: the frame `{"id":"seven","method":"Debugger.pause"}`, whose `id` is a
string, while request 52 is pending. -/
theorem malformed_frame_dropped_witness :
    demoFrontend.onCdpMessageReceived [(52, setBreakpointRequest)]
        (some (.map [("id", .str "seven"), ("method", .str "Debugger.pause")]))
        (some { sock := 1, connected := true })
      = ([(52, setBreakpointRequest)], []) :=
  (malformed_frame_dropped demoFrontend [(52, setBreakpointRequest)]
    (some (.map [("id", .str "seven"), ("method", .str "Debugger.pause")]))
    (some { sock := 1, connected := true })
    (Or.inr (Or.inr (Or.inr ⟨_, rfl, fun n h => by
      have h' : QVariant.str "seven" = .num n := h
      cases h'⟩)))).1

/-! ## The stack-trace call of the event mapper (C36) -/

theorem inlineEvalFinished_exact (v4Resp : QVariantMap) (backendSyncCall : QVariant → QVariant)
    (htype : (QMap.value (QMap.value v4Resp "Event").toMap "type").toString
      = "InlineEvalFinished") :
    V4CdpMapper.mapV4EventToCdp v4Resp backendSyncCall
      = ([("method", .str "Debugger.paused"),
          ("params", .map [("callFrames", .list []),
            ("reason", .str "debuggerStatement InlineEvalFinished")])],
         [Effect.backendSyncCall
            (.map [("Command", .map [("type", .str "GetBacktrace")]), ("ID", .null)])]) := by
  simp only [V4CdpMapper.mapV4EventToCdp, htype]
  rfl

/-- C36: for every `InlineEvalFinished` event `mapV4EventToCdp` makes the synchronous
backend call exactly once, with a `GetBacktrace` command, and what it returns does not depend
on the reply: for any two backends the notification is the same, and its `params.callFrames`
is the empty list. -/
theorem inlineEvalFinished_ignores_reply (v4Resp : QVariantMap)
    (htype : (QMap.value (QMap.value v4Resp "Event").toMap "type").toString
      = "InlineEvalFinished") :
    (∀ backend : QVariant → QVariant,
      ∃ request : QVariantMap,
        (V4CdpMapper.mapV4EventToCdp v4Resp backend).2 = [Effect.backendSyncCall (.map request)] ∧
        V4Helpers.getNestedValue request ["Command", "type"] = .str "GetBacktrace") ∧
    (∀ backend backend' : QVariant → QVariant,
      (V4CdpMapper.mapV4EventToCdp v4Resp backend).1
        = (V4CdpMapper.mapV4EventToCdp v4Resp backend').1) ∧
    (∀ backend : QVariant → QVariant,
      V4Helpers.getNestedValue (V4CdpMapper.mapV4EventToCdp v4Resp backend).1
        ["params", "callFrames"] = .list []) := by
  refine ⟨fun backend => ?_, fun backend backend' => ?_, fun backend => ?_⟩
  · rw [inlineEvalFinished_exact v4Resp backend htype]
    exact ⟨_, rfl, rfl⟩
  · rw [inlineEvalFinished_exact v4Resp backend htype,
      inlineEvalFinished_exact v4Resp backend' htype]
  · rw [inlineEvalFinished_exact v4Resp backend htype]
    rfl

/-- Witness of C36: a backend that answers with a stack of one frame and one that answers
with nothing give the same notification. -/
theorem inlineEvalFinished_ignores_reply_witness :
    (V4CdpMapper.mapV4EventToCdp (eventMessage "InlineEvalFinished" [("message", .str "42")])
        (fun _ => .map [("Result", .list [.str "f at a.js:1"])])).1
      = (V4CdpMapper.mapV4EventToCdp
          (eventMessage "InlineEvalFinished" [("message", .str "42")]) (fun _ => .null)).1 :=
  (inlineEvalFinished_ignores_reply
    (eventMessage "InlineEvalFinished" [("message", .str "42")]) rfl).2.1 _ _

/-! ## Negative ids (C37) -/

/-- C37: a backend response whose `ID` is a negative integer (a C++ int) is mapped by
`mapV4ToCdpResponse` to the empty mapping and the pending-request table is left as it is,
whatever it holds, an entry under that id included. -/
theorem negative_id_response (v4Response : QVariantMap) (table : OrigCdpRequests) (n : Int)
    (hID : QMap.value v4Response "ID" = .num n) (hrange : inIntRange n) (hneg : n < 0) :
    V4CdpMapper.mapV4ToCdpResponse v4Response table = ([], table) ∧
    (QHash.contains table n = true →
      QHash.contains (V4CdpMapper.mapV4ToCdpResponse v4Response table).2 n = true ∧
      QHash.value (V4CdpMapper.mapV4ToCdpResponse v4Response table).2 n
        = QHash.value table n) := by
  have h : V4CdpMapper.mapV4ToCdpResponse v4Response table = ([], table) := by
    simp only [V4CdpMapper.mapV4ToCdpResponse, hID, toInt_num n hrange, hneg, if_true]
  refine ⟨h, ?_⟩
  intro hc
  rw [h]
  exact ⟨hc, rfl⟩

/-- Witness of C37: `Debugger.pause` with the id -5 is forwarded and stored under -5; the
reply `{ID: -5, Result: {}}` maps to the empty mapping and the entry stays. -/
theorem negative_id_response_witness :
    V4CdpMapper.mapV4ToCdpResponse [("ID", .num (-5)), ("Result", .map [])]
        (V4CdpMapper.mapCdpToV4Request
          [("id", .num (-5)), ("method", .str "Debugger.pause")] []).2.2
      = ([], (V4CdpMapper.mapCdpToV4Request
          [("id", .num (-5)), ("method", .str "Debugger.pause")] []).2.2) :=
  (negative_id_response [("ID", .num (-5)), ("Result", .map [])] _ (-5) rfl (by decide)
    (by decide)).1

/-! ## The two domain mappers (C38, C39) -/

theorem debugger_nonempty_iff (req : QVariantMap) :
    (V4CdpMapper.mapCdpToV4Request_debugger req).1 ≠ [] ↔
      ((QMap.value req "method").toString ∈ debuggerForwarded ∨
       (QMap.value req "method").toString ∈ debuggerNoOp) := by
  constructor
  · intro h
    by_contra hc
    rw [not_or] at hc
    rw [debugger_unhandled req hc.1 hc.2] at h
    exact h rfl
  · rintro (h | h)
    · exact (debugger_handled req h).2.1
    · exact (debugger_noop req h).2.1

theorem runtime_nonempty_iff (req : QVariantMap) :
    (V4CdpMapper.mapCdpToV4Request_runtime req).1 ≠ [] ↔
      ((QMap.value req "method").toString ∈ runtimeForwarded ∨
       (QMap.value req "method").toString ∈ runtimeNoOp) := by
  constructor
  · intro h
    by_contra hc
    rw [not_or] at hc
    rw [runtime_unhandled req hc.1 hc.2] at h
    exact h rfl
  · rintro (h | h)
    · exact (runtime_handled req h).2.1
    · exact (runtime_noop req h).2.1

/-- The part of C38 that holds: no request makes both domain mappers return a non-empty
command. -/
theorem domain_mappers_disjoint (req : QVariantMap) :
    ¬ ((V4CdpMapper.mapCdpToV4Request_debugger req).1 ≠ [] ∧
       (V4CdpMapper.mapCdpToV4Request_runtime req).1 ≠ []) := by
  rintro ⟨hd, hr⟩
  have hr' := (runtime_nonempty_iff req).mp hr
  have hd' := (debugger_nonempty_iff req).mp hd
  obtain ⟨h1, h2⟩ := runtime_not_debugger hr'
  rcases hd' with h | h
  · exact h1 h
  · exact h2 h

theorem mapCdpToV4Request_eq_in (req : QVariantMap) (t : OrigCdpRequests) :
    V4CdpMapper.mapCdpToV4Request req t
      = V4CdpMapper.mapCdpToV4RequestIn V4CdpMapper.mapCdpToV4Request_debugger
          V4CdpMapper.mapCdpToV4Request_runtime req t := rfl

/-- For a request that does not carry the key `_mapper_metadata` the order of the two
`tryMap` calls makes no difference: command, request and table come out the same. -/
theorem dispatch_order_irrelevant (req : QVariantMap) (t : OrigCdpRequests)
    (hm : QMap.contains req MAPPER_METADATA = false) :
    V4CdpMapper.mapCdpToV4RequestIn V4CdpMapper.mapCdpToV4Request_runtime
        V4CdpMapper.mapCdpToV4Request_debugger req t
      = V4CdpMapper.mapCdpToV4Request req t := by
  have hins : ∀ tag : String,
      QMap.contains (QMap.insert req MAPPER_METADATA (.str tag)) MAPPER_METADATA = true := by
    intro tag
    rw [QMap.contains_insert]
    simp
  by_cases hr : (QMap.value req "method").toString ∈ runtimeForwarded ∨
      (QMap.value req "method").toString ∈ runtimeNoOp
  · obtain ⟨hd1, hd2⟩ := runtime_not_debugger hr
    have h2 : (V4CdpMapper.mapCdpToV4Request_runtime req).2
        = QMap.insert req MAPPER_METADATA (.str "Runtime") := by
      rcases hr with h | h
      · exact (runtime_handled req h).1
      · exact (runtime_noop req h).1
    simp only [V4CdpMapper.mapCdpToV4Request, V4CdpMapper.mapCdpToV4RequestIn,
      V4CdpMapper.tryMap, debugger_unhandled req hd1 hd2, hm, h2, hins, if_true,
      Bool.false_eq_true, if_false]
  · rw [not_or] at hr
    by_cases hd : (QMap.value req "method").toString ∈ debuggerForwarded ∨
        (QMap.value req "method").toString ∈ debuggerNoOp
    · have h2 : (V4CdpMapper.mapCdpToV4Request_debugger req).2
          = QMap.insert req MAPPER_METADATA (.str "Debugger") := by
        rcases hd with h | h
        · exact (debugger_handled req h).1
        · exact (debugger_noop req h).1
      simp only [V4CdpMapper.mapCdpToV4Request, V4CdpMapper.mapCdpToV4RequestIn,
        V4CdpMapper.tryMap, runtime_unhandled req hr.1 hr.2, hm, h2, hins, if_true,
        Bool.false_eq_true, if_false]
    · rw [not_or] at hd
      simp only [V4CdpMapper.mapCdpToV4Request, V4CdpMapper.mapCdpToV4RequestIn,
        V4CdpMapper.tryMap, runtime_unhandled req hr.1 hr.2, debugger_unhandled req hd.1 hd.2,
        hm, Bool.false_eq_true, if_false]

/-- C38 fails on the code in its second half: for the `Runtime.evaluate` request that
already carries the key `_mapper_metadata` only the Runtime mapper returns a command (the
mappers are disjoint), yet the dispatcher, which tries the Debugger mapper first, returns the
empty mapping, while with the Runtime mapper tried first it returns the `Evaluate` command:
the order of the two tries changes the command. -/
theorem dispatch_order_changes_command :
    (V4CdpMapper.mapCdpToV4Request_debugger presetMetadataEvaluate).1 = [] ∧
    (V4CdpMapper.mapCdpToV4Request_runtime presetMetadataEvaluate).1
      = [("Command", .map [("attributes", .map [("program", .str "1+1")]),
          ("type", .str "Evaluate")]), ("ID", .num 1)] ∧
    (V4CdpMapper.mapCdpToV4Request presetMetadataEvaluate []).1 = [] ∧
    (V4CdpMapper.mapCdpToV4RequestIn V4CdpMapper.mapCdpToV4Request_runtime
        V4CdpMapper.mapCdpToV4Request_debugger presetMetadataEvaluate []).1
      = [("Command", .map [("attributes", .map [("program", .str "1+1")]),
          ("type", .str "Evaluate")]), ("ID", .num 1)] :=
  ⟨rfl, rfl, rfl, rfl⟩

/-- C39: the frame condition of the domain mappers. When `mapCdpToV4Request_debugger`
(`mapCdpToV4Request_runtime`) returns the empty mapping the request is left unchanged;
otherwise the request afterwards is the request with `_mapper_metadata` set to "Debugger"
("Runtime"): that key has the tag, and every other key, `id`, `method` and `params`
included, is present as before and keeps its value. -/
theorem domain_mapper_frame (r : QVariantMap) :
    ((V4CdpMapper.mapCdpToV4Request_debugger r).1 = [] →
      (V4CdpMapper.mapCdpToV4Request_debugger r).2 = r) ∧
    ((V4CdpMapper.mapCdpToV4Request_debugger r).1 ≠ [] →
      (V4CdpMapper.mapCdpToV4Request_debugger r).2
        = QMap.insert r MAPPER_METADATA (.str "Debugger") ∧
      QMap.value (V4CdpMapper.mapCdpToV4Request_debugger r).2 MAPPER_METADATA
        = .str "Debugger" ∧
      ∀ k : String, k ≠ MAPPER_METADATA →
        QMap.value (V4CdpMapper.mapCdpToV4Request_debugger r).2 k = QMap.value r k ∧
        QMap.contains (V4CdpMapper.mapCdpToV4Request_debugger r).2 k = QMap.contains r k) ∧
    ((V4CdpMapper.mapCdpToV4Request_runtime r).1 = [] →
      (V4CdpMapper.mapCdpToV4Request_runtime r).2 = r) ∧
    ((V4CdpMapper.mapCdpToV4Request_runtime r).1 ≠ [] →
      (V4CdpMapper.mapCdpToV4Request_runtime r).2
        = QMap.insert r MAPPER_METADATA (.str "Runtime") ∧
      QMap.value (V4CdpMapper.mapCdpToV4Request_runtime r).2 MAPPER_METADATA
        = .str "Runtime" ∧
      ∀ k : String, k ≠ MAPPER_METADATA →
        QMap.value (V4CdpMapper.mapCdpToV4Request_runtime r).2 k = QMap.value r k ∧
        QMap.contains (V4CdpMapper.mapCdpToV4Request_runtime r).2 k = QMap.contains r k) := by
  have hframe : ∀ (tag : String) (k : String), k ≠ MAPPER_METADATA →
      QMap.value (QMap.insert r MAPPER_METADATA (.str tag)) k = QMap.value r k ∧
      QMap.contains (QMap.insert r MAPPER_METADATA (.str tag)) k = QMap.contains r k := by
    intro tag k hk
    have hk' : ¬ MAPPER_METADATA = k := fun h => hk h.symm
    rw [QMap.value_insert, QMap.contains_insert, if_neg hk', if_neg hk']
    exact ⟨rfl, rfl⟩
  have htag : ∀ tag : String,
      QMap.value (QMap.insert r MAPPER_METADATA (.str tag)) MAPPER_METADATA = .str tag := by
    intro tag
    rw [QMap.value_insert, if_pos rfl]
  refine ⟨?_, ?_, ?_, ?_⟩
  · intro h
    by_contra hne
    have hd : ¬ ((QMap.value r "method").toString ∈ debuggerForwarded ∨
        (QMap.value r "method").toString ∈ debuggerNoOp) := by
      intro hd
      exact (debugger_nonempty_iff r).mpr hd h
    rw [not_or] at hd
    rw [debugger_unhandled r hd.1 hd.2] at hne
    exact hne rfl
  · intro h
    have h2 : (V4CdpMapper.mapCdpToV4Request_debugger r).2
        = QMap.insert r MAPPER_METADATA (.str "Debugger") := by
      rcases (debugger_nonempty_iff r).mp h with hd | hd
      · exact (debugger_handled r hd).1
      · exact (debugger_noop r hd).1
    rw [h2]
    exact ⟨rfl, htag _, hframe _⟩
  · intro h
    by_contra hne
    have hd : ¬ ((QMap.value r "method").toString ∈ runtimeForwarded ∨
        (QMap.value r "method").toString ∈ runtimeNoOp) := by
      intro hd
      exact (runtime_nonempty_iff r).mpr hd h
    rw [not_or] at hd
    rw [runtime_unhandled r hd.1 hd.2] at hne
    exact hne rfl
  · intro h
    have h2 : (V4CdpMapper.mapCdpToV4Request_runtime r).2
        = QMap.insert r MAPPER_METADATA (.str "Runtime") := by
      rcases (runtime_nonempty_iff r).mp h with hd | hd
      · exact (runtime_handled r hd).1
      · exact (runtime_noop r hd).1
    rw [h2]
    exact ⟨rfl, htag _, hframe _⟩

/-- Witness of C39: the request of scenario S1 gets the tag "Debugger" and keeps `id`,
`method` and `params`; the Runtime mapper leaves it unchanged. -/
theorem domain_mapper_frame_witness :
    (V4CdpMapper.mapCdpToV4Request_debugger setBreakpointRequest).2
      = QMap.insert setBreakpointRequest MAPPER_METADATA (.str "Debugger") ∧
    (V4CdpMapper.mapCdpToV4Request_runtime setBreakpointRequest).2 = setBreakpointRequest :=
  ⟨((domain_mapper_frame setBreakpointRequest).2.1
      ((debugger_nonempty_iff setBreakpointRequest).mpr (Or.inl (by decide)))).1,
   (domain_mapper_frame setBreakpointRequest).2.2.1 rfl⟩

/-! ## Decimal numerals -/

theorem digitChar_isAsciiDigit (k : Nat) (h : k < 10) :
    isAsciiDigit (Nat.digitChar k) = true := by
  interval_cases k <;> rfl

theorem digitValue_digitChar (k : Nat) (h : k < 10) : digitValue (Nat.digitChar k) = k := by
  interval_cases k <;> rfl

theorem toDigitsCore_all (fuel : Nat) :
    ∀ (n : Nat) (ds : List Char), (∀ c ∈ ds, isAsciiDigit c = true) →
      ∀ c ∈ Nat.toDigitsCore 10 fuel n ds, isAsciiDigit c = true := by
  induction fuel with
  | zero =>
    intro n ds hds c hc
    exact hds c (by simpa [Nat.toDigitsCore] using hc)
  | succ fuel ih =>
    intro n ds hds c hc
    have hd : ∀ c ∈ Nat.digitChar (n % 10) :: ds, isAsciiDigit c = true := by
      intro c hc
      rcases List.mem_cons.mp hc with rfl | hc
      · exact digitChar_isAsciiDigit _ (Nat.mod_lt _ (by decide))
      · exact hds c hc
    simp only [Nat.toDigitsCore] at hc
    split_ifs at hc
    · exact hd c hc
    · exact ih _ _ hd c hc

theorem toDigitsCore_value (fuel : Nat) :
    ∀ (n : Nat) (ds : List Char), n < fuel →
      (Nat.toDigitsCore 10 fuel n ds).foldl (fun acc c => 10 * acc + digitValue c) 0
        = ds.foldl (fun acc c => 10 * acc + digitValue c) n := by
  induction fuel with
  | zero =>
    intro n ds h
    omega
  | succ fuel ih =>
    intro n ds h
    simp only [Nat.toDigitsCore]
    split_ifs with h0
    · have hn : n % 10 = n := by omega
      have hd := digitValue_digitChar (n % 10) (Nat.mod_lt n (by decide))
      rw [List.foldl_cons, hd, hn]
      congr 1
      omega
    · have hlt : n / 10 < fuel := by omega
      rw [ih (n / 10) _ hlt]
      simp only [List.foldl_cons, digitValue_digitChar _ (Nat.mod_lt n (by decide))]
      congr 1
      omega

theorem toDigitsCore_ne_nil (fuel n : Nat) (ds : List Char) :
    Nat.toDigitsCore 10 (fuel + 1) n ds ≠ [] := by
  induction fuel generalizing n ds with
  | zero =>
    simp only [Nat.toDigitsCore]
    split_ifs <;> simp
  | succ fuel ih =>
    rw [Nat.toDigitsCore]
    split_ifs
    · simp
    · exact ih _ _

/-- The decimal text of a natural number: digits only, at least one, with the number as
value. -/
theorem number_digits (n : Nat) :
    (QString.number (n : Int)).data ≠ [] ∧
    (∀ c ∈ (QString.number (n : Int)).data, isAsciiDigit c = true) ∧
    digitsValue (QString.number (n : Int)).data = n := by
  have h : (QString.number (n : Int)).data = Nat.toDigitsCore 10 (n + 1) n [] := rfl
  rw [h]
  refine ⟨toDigitsCore_ne_nil n n [], toDigitsCore_all (n + 1) n [] (by simp), ?_⟩
  unfold digitsValue
  rw [toDigitsCore_value (n + 1) n [] (by omega)]
  rfl

theorem isAsciiDigit_not_space (c : Char) (h : isAsciiDigit c = true) :
    QChar.isSpace c = false := by
  simp only [isAsciiDigit, Bool.and_eq_true, decide_eq_true_eq] at h
  simp only [QChar.isSpace, Bool.or_eq_false_iff, Bool.and_eq_false_iff, beq_eq_false_iff_ne,
    decide_eq_false_iff_not]
  omega

theorem trimmedChars_digits (ds : List Char) (h : ∀ c ∈ ds, isAsciiDigit c = true) :
    trimmedChars ds = ds := by
  have hdrop : ∀ l : List Char, (∀ c ∈ l, isAsciiDigit c = true) →
      l.dropWhile QChar.isSpace = l := by
    intro l hl
    cases l with
    | nil => rfl
    | cons c cs =>
      simp [List.dropWhile, isAsciiDigit_not_space c (hl c (List.mem_cons_self c cs))]
  unfold trimmedChars
  rw [hdrop ds h, hdrop ds.reverse (fun c hc => h c (List.mem_reverse.mp hc)),
    List.reverse_reverse]

/-- The method `QString::toInt` reads the decimal text of a number of the int range back. -/
theorem toInt_number (n : Nat) (hn : (n : Int) ≤ 2147483647) :
    QString.toInt (QString.number (n : Int)) = some (n : Int) := by
  obtain ⟨hne, hall, hval⟩ := number_digits n
  have hall' : (QString.number (n : Int)).data.all isAsciiDigit = true :=
    List.all_eq_true.mpr hall
  obtain ⟨c, cs, hcs⟩ := List.exists_cons_of_ne_nil hne
  have hc : isAsciiDigit c = true := hall c (by rw [hcs]; exact List.mem_cons_self c cs)
  have hminus : c ≠ '-' := by
    rintro rfl
    exact absurd hc (by decide)
  have hplus : c ≠ '+' := by
    rintro rfl
    exact absurd hc (by decide)
  have hparse : parseSignedDecimal (QString.number (n : Int)).data = some (n : Int) := by
    rw [hcs] at hall' hval ⊢
    unfold parseSignedDecimal
    split
    · rename_i heq
      injection heq with h1 h2
      exact absurd h1 hminus
    · rename_i heq
      injection heq with h1 h2
      exact absurd h1 hplus
    · simp [hall', hval]
  unfold QString.toInt
  rw [trimmedChars_digits _ hall, hparse]
  have hr : inIntRange (n : Int) := ⟨by omega, hn⟩
  simp [hr]

/-! ## Textual stack frames (C32) -/

theorem indexOfFrom_append (pat a rest : List Char) (i : Nat)
    (hbefore : ∀ x, x <:+ a → x ≠ [] → pat.isPrefixOf (x ++ rest) = false)
    (hat : pat.isPrefixOf rest = true) (hrest : rest ≠ []) :
    indexOfFrom pat (a ++ rest) i = some (i + a.length) := by
  induction a generalizing i with
  | nil =>
    obtain ⟨c, cs, rfl⟩ := List.exists_cons_of_ne_nil hrest
    simp [indexOfFrom, hat]
  | cons c cs ih =>
    have h1 := hbefore (c :: cs) (List.suffix_refl _) (by simp)
    have h2 := ih (i + 1) (fun x hx hne => hbefore x (hx.trans (List.suffix_cons c cs)) hne)
    rw [List.cons_append] at h1 ⊢
    rw [indexOfFrom, h1, h2]
    simp only [Bool.false_eq_true, if_false, List.length_cons]
    congr 1
    omega

/-- A piece of text in front of " at " hides that separator only when it is " at" itself or
holds the separator. -/
theorem at_not_earlier (x b : List Char) (hne : x ≠ [])
    (hx : List.isPrefixOf [' ', 'a', 't', ' '] x = false) (hend : x ≠ [' ', 'a', 't']) :
    List.isPrefixOf [' ', 'a', 't', ' '] (x ++ ' ' :: 'a' :: 't' :: ' ' :: b) = false := by
  rcases x with _ | ⟨c1, _ | ⟨c2, _ | ⟨c3, _ | ⟨c4, r⟩⟩⟩⟩
  · exact absurd rfl hne
  · simp [List.isPrefixOf]
  · simp [List.isPrefixOf]
  · simp only [List.cons_append, List.nil_append, List.isPrefixOf, Bool.and_eq_false_imp,
      beq_iff_eq, Bool.and_true]
    intro h1 h2 h3
    exact absurd (by rw [← h1, ← h2, ← h3]) hend
  · simpa [List.isPrefixOf] using hx

theorem lastIndexOfFrom_absent (c : Char) (ds : List Char) (i : Nat) (h : c ∉ ds) :
    lastIndexOfFrom c ds i = none := by
  induction ds generalizing i with
  | nil => rfl
  | cons d rest ih =>
    have hd : ¬ d = c := fun hd => h (by simp [hd])
    have hr : c ∉ rest := fun hr => h (List.mem_cons_of_mem d hr)
    simp [lastIndexOfFrom, ih (i + 1) hr, hd]

theorem lastIndexOfFrom_last (c : Char) (f ds : List Char) (i : Nat) (h : c ∉ ds) :
    lastIndexOfFrom c (f ++ c :: ds) i = some (i + f.length) := by
  induction f generalizing i with
  | nil => simp [lastIndexOfFrom, lastIndexOfFrom_absent c ds (i + 1) h]
  | cons d rest ih =>
    rw [List.cons_append, lastIndexOfFrom, ih (i + 1)]
    simp only [List.length_cons]
    congr 1
    omega

/-- The naive parse on `func at file:digits`. -/
theorem stackFrameOfString_parts (func file : String) (n : Nat)
    (hfunc : QString.indexOf func " at " = none)
    (hend : ¬ " at".data <:+ func.data) (hn : (n : Int) ≤ 2147483647) :
    stackFrameOfString (func ++ " at " ++ file ++ ":" ++ QString.number (n : Int))
      = [("functionName", .str func), ("lineNumber", .num (n : Int)), ("url", .str file)] := by
  obtain ⟨-, hdigits, -⟩ := number_digits n
  have hcolon : ':' ∉ (QString.number (n : Int)).data := by
    intro h
    exact absurd (hdigits ':' h) (by decide)
  have hdata : (func ++ " at " ++ file ++ ":" ++ QString.number (n : Int)).data
      = func.data ++ (' ' :: 'a' :: 't' :: ' ' ::
          (file.data ++ ':' :: (QString.number (n : Int)).data)) := by
    have h1 : (" at " : String).data = [' ', 'a', 't', ' '] := rfl
    have h2 : (":" : String).data = [':'] := rfl
    simp [String.data_append, h1, h2]
  have hocc := indexOfFrom_none [' ', 'a', 't', ' '] func.data 0 hfunc
  have hat : QString.indexOf (func ++ " at " ++ file ++ ":" ++ QString.number (n : Int)) " at "
      = some func.data.length := by
    have h := indexOfFrom_append [' ', 'a', 't', ' '] func.data
      (' ' :: 'a' :: 't' :: ' ' :: (file.data ++ ':' :: (QString.number (n : Int)).data)) 0
      (fun x hx hne => at_not_earlier x _ hne (hocc x hx)
        (fun hx3 => hend (by
          have h3 : (" at" : String).data = [' ', 'a', 't'] := rfl
          rw [h3, ← hx3]
          exact hx)))
      (by simp [List.isPrefixOf]) (by simp)
    unfold QString.indexOf
    rw [hdata]
    simpa using h
  have hrest : (QString.mid (func ++ " at " ++ file ++ ":" ++ QString.number (n : Int))
      (func.data.length + 4)).data = file.data ++ ':' :: (QString.number (n : Int)).data := by
    simp only [QString.mid, hdata]
    rw [List.drop_append_eq_append_drop]
    simp
  have hlast : QString.lastIndexOf (QString.mid
      (func ++ " at " ++ file ++ ":" ++ QString.number (n : Int)) (func.data.length + 4)) ':'
      = some file.data.length := by
    unfold QString.lastIndexOf
    rw [hrest, lastIndexOfFrom_last ':' file.data _ 0 hcolon]
    simp
  have hleft : QString.left (func ++ " at " ++ file ++ ":" ++ QString.number (n : Int))
      func.data.length = func := by
    simp only [QString.left, hdata, List.take_left']
  have hfile : QString.left (QString.mid
      (func ++ " at " ++ file ++ ":" ++ QString.number (n : Int)) (func.data.length + 4))
      file.data.length = file := by
    simp only [QString.left, hrest, List.take_left']
  have hline : QString.mid (QString.mid
      (func ++ " at " ++ file ++ ":" ++ QString.number (n : Int)) (func.data.length + 4))
      (file.data.length + 1) = QString.number (n : Int) := by
    show String.mk (List.drop (file.data.length + 1) (QString.mid
      (func ++ " at " ++ file ++ ":" ++ QString.number (n : Int))
      (func.data.length + 4)).data) = QString.number (n : Int)
    have h1 : List.drop (file.data.length + 1) file.data = [] :=
      List.drop_eq_nil_of_le (by omega)
    have h2 : file.data.length + 1 - file.data.length = 1 := by omega
    rw [hrest, List.drop_append_eq_append_drop, h1, h2]
    rfl
  simp only [stackFrameOfString, hat, hlast, hleft, hfile, hline, QVariant.toInt,
    QVariant.toIntOk, toInt_number n hn]
  rfl

/-- C32, as amended: for every function name `func` that does not contain " at " and does
not end with " at", every file name `file` and every integer `n` with `0 ≤ n < 2^31`, the
textual frame `func ++ " at " ++ file ++ ":" ++ decimal(n)` is converted to the call frame
`{functionName: func, url: file, lineNumber: n}`, also as the frame of a
`Debugger.getStackTrace` result. -/
theorem textual_frame (func file : String) (n : Int)
    (hfunc : QString.indexOf func " at " = none)
    (hend : ¬ " at".data <:+ func.data)
    (h0 : 0 ≤ n) (hn : n < 2147483648) :
    stackFrame (.str (func ++ " at " ++ file ++ ":" ++ QString.number n))
      = some (.map [("functionName", .str func), ("lineNumber", .num n),
          ("url", .str file)]) ∧
    (∀ v4Response orig : QVariantMap,
      (QMap.value orig "method").toString = "Debugger.getStackTrace" →
      QMap.value v4Response "Result"
        = .list [.str (func ++ " at " ++ file ++ ":" ++ QString.number n)] →
      V4CdpMapper.mapV4ToCdpResponse_debugger v4Response orig
        = [("id", .num (QMap.value v4Response "ID").toInt),
           ("result", .map [("callFrames", .list [
              .map [("functionName", .str func), ("lineNumber", .num n),
                ("url", .str file)]])])]) := by
  obtain ⟨m, rfl⟩ := Int.eq_ofNat_of_zero_le h0
  have hparts := stackFrameOfString_parts func file m hfunc hend (by omega)
  have hframe : stackFrame (.str (func ++ " at " ++ file ++ ":" ++ QString.number (m : Int)))
      = some (.map [("functionName", .str func), ("lineNumber", .num (m : Int)),
          ("url", .str file)]) := by
    simp only [stackFrame, QVariant.isString, if_true, QVariant.toString, hparts]
  refine ⟨hframe, ?_⟩
  intro v4Response orig hmethod hresult
  simp only [V4CdpMapper.mapV4ToCdpResponse_debugger, hmethod,
    V4CdpMapper.mapV4ToCdpResponse_helper_stack, hresult, QVariant.toList,
    List.filterMap_cons, hframe, List.filterMap_nil]
  rfl

/-- Witness of C32 as amended: the frame "g at b.js:7". -/
theorem textual_frame_witness :
    stackFrame (.str ("g" ++ " at " ++ "b.js" ++ ":" ++ QString.number 7))
      = some (.map [("functionName", .str "g"), ("lineNumber", .num 7),
          ("url", .str "b.js")]) :=
  (textual_frame "g" "b.js" 7 (by decide) (by decide) (by decide) (by decide)).1

/-- C32 fails on the code as stated: the function name "look at" does not contain " at ",
yet the frame "look at at a.js:3" is split at the first " at ", which starts inside the
name: the call frame is `{functionName: "look", url: "at a.js", lineNumber: 3}`. -/
theorem textual_frame_split_early :
    QString.indexOf "look at" " at " = none ∧
    stackFrame (.str ("look at" ++ " at " ++ "a.js" ++ ":" ++ QString.number 3))
      = some (.map [("functionName", .str "look"), ("lineNumber", .num 3),
          ("url", .str "at a.js")]) ∧
    QMap.value (stackFrameOfString ("look at" ++ " at " ++ "a.js" ++ ":" ++ QString.number 3))
      "functionName" ≠ .str "look at" := by
  refine ⟨by decide, rfl, ?_⟩
  have h : QMap.value
      (stackFrameOfString ("look at" ++ " at " ++ "a.js" ++ ":" ++ QString.number 3))
      "functionName" = .str "look" := rfl
  rw [h]
  intro hh
  injection hh with hh
  revert hh
  decide

/-! ## Discovery (C33) -/

theorem arg_after_plain (fs rest : List Char) (a : String) (m : Nat)
    (hfs : ∀ c ∈ fs, c ≠ '%') (hmin : argMinEscape (argScan .lit [] rest) = some m) :
    QString.arg (String.mk (fs ++ rest)) a
      = String.mk (fs ++ ((argScan .lit [] rest).map
          (fun p => if p.1 = some m then a.data else p.2)).flatten) := by
  simp only [QString.arg, argScan_plain fs rest hfs, argMinEscape_plain, hmin, argFill_plain]

theorem number_no_marker (n : Nat) : ∀ c ∈ (QString.number (n : Int)).data, c ≠ '%' := by
  intro c hc
  have h := (number_digits n).2.1 c hc
  rintro rfl
  exact absurd h (by decide)

theorem page_path (f : String) :
    QString.arg "/devtools/page/%1-js" f = "/devtools/page/" ++ f ++ "-js" := by
  have h : QString.arg "/devtools/page/%1-js" f
      = String.mk ("/devtools/page/".data ++ (f.data ++ "-js".data)) := rfl
  rw [h]
  apply String.ext
  simp [String.data_append]

theorem browser_path (f : String) :
    QString.arg "/devtools/browser/%1-js" f = "/devtools/browser/" ++ f ++ "-js" := by
  have h : QString.arg "/devtools/browser/%1-js" f
      = String.mk ("/devtools/browser/".data ++ (f.data ++ "-js".data)) := rfl
  rw [h]
  apply String.ext
  simp [String.data_append]

theorem page_url (port : Nat) (f : String) :
    QString.arg (QString.arg "ws://localhost:%1/devtools/page/%2-js"
        (QString.number (port : Int))) f
      = "ws://localhost:" ++ QString.number (port : Int) ++ ("/devtools/page/" ++ f ++ "-js")
  := by
  have h1 : QString.arg "ws://localhost:%1/devtools/page/%2-js" (QString.number (port : Int))
      = String.mk (("ws://localhost:".data ++ (QString.number (port : Int)).data)
          ++ "/devtools/page/%2-js".data) := by
    have h : QString.arg "ws://localhost:%1/devtools/page/%2-js" (QString.number (port : Int))
        = String.mk ("ws://localhost:".data ++ ((QString.number (port : Int)).data
            ++ "/devtools/page/%2-js".data)) := rfl
    rw [h, List.append_assoc]
  have hfs : ∀ c ∈ "ws://localhost:".data ++ (QString.number (port : Int)).data, c ≠ '%' := by
    intro c hc
    rcases List.mem_append.mp hc with hc | hc
    · intro h
      subst h
      revert hc
      decide
    · exact number_no_marker port c hc
  have h2 : ((argScan .lit [] "/devtools/page/%2-js".data).map
      (fun p => if p.1 = some 2 then f.data else p.2)).flatten
      = "/devtools/page/".data ++ (f.data ++ "-js".data) := rfl
  rw [h1, arg_after_plain _ "/devtools/page/%2-js".data f 2 hfs rfl, h2]
  apply String.ext
  simp [String.data_append]

theorem browser_url (port : Nat) (f : String) :
    QString.arg (QString.arg "ws://localhost:%1/devtools/browser/%2-js"
        (QString.number (port : Int))) f
      = "ws://localhost:" ++ QString.number (port : Int)
          ++ ("/devtools/browser/" ++ f ++ "-js") := by
  have h1 : QString.arg "ws://localhost:%1/devtools/browser/%2-js"
      (QString.number (port : Int))
      = String.mk (("ws://localhost:".data ++ (QString.number (port : Int)).data)
          ++ "/devtools/browser/%2-js".data) := by
    have h : QString.arg "ws://localhost:%1/devtools/browser/%2-js"
        (QString.number (port : Int))
        = String.mk ("ws://localhost:".data ++ ((QString.number (port : Int)).data
            ++ "/devtools/browser/%2-js".data)) := rfl
    rw [h, List.append_assoc]
  have hfs : ∀ c ∈ "ws://localhost:".data ++ (QString.number (port : Int)).data, c ≠ '%' := by
    intro c hc
    rcases List.mem_append.mp hc with hc | hc
    · intro h
      subst h
      revert hc
      decide
    · exact number_no_marker port c hc
  have h2 : ((argScan .lit [] "/devtools/browser/%2-js".data).map
      (fun p => if p.1 = some 2 then f.data else p.2)).flatten
      = "/devtools/browser/".data ++ (f.data ++ "-js".data) := rfl
  rw [h1, arg_after_plain _ "/devtools/browser/%2-js".data f 2 hfs rfl, h2]
  apply String.ext
  simp [String.data_append]

theorem percentDecode_plain (cs : List Char) (h : ∀ c ∈ cs, c ≠ '%') :
    percentDecode cs = cs := by
  induction cs with
  | nil => rfl
  | cons c t ih =>
    have hc : c ≠ '%' := h c (List.mem_cons_self c t)
    have ih' := ih (fun d hd => h d (List.mem_cons_of_mem c hd))
    cases t with
    | nil => rfl
    | cons a t' =>
      cases t' with
      | nil => rfl
      | cons b rest =>
        rw [percentDecode, if_neg hc, ih']

theorem takeWhile_all (p : Char → Bool) (cs : List Char) (h : ∀ c ∈ cs, p c = true) :
    cs.takeWhile p = cs := by
  induction cs with
  | nil => rfl
  | cons c t ih =>
    rw [List.takeWhile_cons, h c (List.mem_cons_self c t), if_pos rfl,
      ih (fun d hd => h d (List.mem_cons_of_mem c hd))]

theorem plainInPath_iff (c : Char) :
    plainInPath c = true ↔ c ≠ '?' ∧ c ≠ '#' ∧ c ≠ '%' := by
  simp [plainInPath, and_assoc]

/-- The path of `ws://localhost:<port><p>` is `p` when `p` starts with `/` and holds none of
`?`, `#` and `%`. -/
theorem QUrl.path_of_ws_url (port : Nat) (p : List Char)
    (hp : ∀ c ∈ p, plainInPath c = true) :
    QUrl.path ("ws://localhost:" ++ QString.number (port : Int) ++ String.mk ('/' :: p))
      = String.mk ('/' :: p) := by
  have hdata : ("ws://localhost:" ++ QString.number (port : Int) ++ String.mk ('/' :: p)).data
      = "ws".data ++ ("://".data ++ (("localhost:".data ++ (QString.number (port : Int)).data)
          ++ '/' :: p)) := by
    simp [String.data_append]
  have hidx : QString.indexOf
      ("ws://localhost:" ++ QString.number (port : Int) ++ String.mk ('/' :: p)) "://"
      = some 2 := by
    unfold QString.indexOf
    rw [hdata]
    rfl
  have hhost : ∀ c ∈ "localhost:".data ++ (QString.number (port : Int)).data,
      (!endsAuthority c) = true := by
    intro c hc
    rcases List.mem_append.mp hc with hc | hc
    · have hall : ∀ d ∈ "localhost:".data, (!endsAuthority d) = true := by decide
      exact hall c hc
    · have hd := (number_digits port).2.1 c hc
      simp only [isAsciiDigit, Bool.and_eq_true, decide_eq_true_eq] at hd
      have h1 : c ≠ '/' := by rintro rfl; revert hd; decide
      have h2 : c ≠ '?' := by rintro rfl; revert hd; decide
      have h3 : c ≠ '#' := by rintro rfl; revert hd; decide
      simp [endsAuthority, h1, h2, h3]
  have hpath : ∀ c ∈ '/' :: p, (!endsPath c) = true := by
    intro c hc
    rcases List.mem_cons.mp hc with hc | hc
    · subst hc
      decide
    · have h := (plainInPath_iff c).mp (hp c hc)
      simp [endsPath, h.1, h.2.1]
  have hdec : ∀ c ∈ '/' :: p, c ≠ '%' := by
    intro c hc
    rcases List.mem_cons.mp hc with hc | hc
    · subst hc
      decide
    · exact ((plainInPath_iff c).mp (hp c hc)).2.2
  unfold QUrl.path
  simp only [hidx]
  rw [hdata]
  have hdrop : ("ws".data ++ ("://".data ++ (("localhost:".data
      ++ (QString.number (port : Int)).data) ++ '/' :: p))).drop (2 + 3)
      = ("localhost:".data ++ (QString.number (port : Int)).data) ++ '/' :: p := rfl
  rw [hdrop, dropWhile_append_all _ _ _ hhost]
  have hstop : ('/' :: p).dropWhile (fun c => !endsAuthority c) = '/' :: p := rfl
  rw [hstop, takeWhile_all _ _ hpath, percentDecode_plain _ hdec]

theorem pageUrl_eq (fe : CdpDebuggerFrontend) (port : Nat) :
    fe.pageUrl port = "ws://localhost:" ++ QString.number (port : Int)
      ++ ("/devtools/page/" ++ QString.toLower fe.m_frontendName ++ "-js") := by
  have h : fe.pageUrl port
      = QString.arg (QString.arg "ws://localhost:%1/devtools/page/%2-js"
          (QString.number (port : Int))) (QString.toLower fe.m_frontendName) := rfl
  rw [h, page_url]

theorem browserUrl_eq (fe : CdpDebuggerFrontend) (port : Nat) :
    fe.browserUrl port = "ws://localhost:" ++ QString.number (port : Int)
      ++ ("/devtools/browser/" ++ QString.toLower fe.m_frontendName ++ "-js") := by
  have h : fe.browserUrl port
      = QString.arg (QString.arg "ws://localhost:%1/devtools/browser/%2-js"
          (QString.number (port : Int))) (QString.toLower fe.m_frontendName) := rfl
  rw [h, browser_url]

/-- The path of an advertised URL whose name part holds none of `?`, `#` and `%`. -/
theorem QUrl.path_of_advertised (port : Nat) (kind f : String)
    (hkind : ∀ c ∈ kind.data, plainInPath c = true)
    (hf : ∀ c ∈ f.data, plainInPath c = true) :
    QUrl.path ("ws://localhost:" ++ QString.number (port : Int)
        ++ ("/devtools/" ++ kind ++ f ++ "-js"))
      = "/devtools/" ++ kind ++ f ++ "-js" := by
  have hp : "/devtools/" ++ kind ++ f ++ "-js"
      = String.mk ('/' :: ("devtools/".data ++ kind.data ++ f.data ++ "-js".data)) := by
    apply String.ext
    simp [String.data_append]
  rw [hp]
  apply QUrl.path_of_ws_url
  intro c hc
  simp only [List.mem_append] at hc
  rcases hc with ((hc | hc) | hc) | hc
  · have hall : ∀ d ∈ "devtools/".data, plainInPath d = true := by decide
    exact hall c hc
  · exact hkind c hc
  · exact hf c hc
  · have hall : ∀ d ∈ "-js".data, plainInPath d = true := by decide
    exact hall c hc

/-- C33, as amended: discovery is self-consistent for a frontend name without `?`, `#` and
`%`. For every frontend name `f` and port, `/json/list` returns a one-element array whose
element has `type` "page" and `webSocketDebuggerUrl` equal to
"ws://localhost:" ++ port ++ "/devtools/page/" ++ lower(f) ++ "-js"; `/json/version` gives
"ws://localhost:" ++ port ++ "/devtools/browser/" ++ lower(f) ++ "-js"; the upgrade verifier
accepts a path exactly when it is "/devtools/page/" ++ lower(f) ++ "-js" or
"/devtools/browser/" ++ lower(f) ++ "-js". When lower(f) holds none of the characters `?`,
`#` and `%`, the path of each of the two advertised URLs, which is what the verifier is handed
for a client that connects to the URL, is the one of those two strings that belongs to it,
and the verifier accepts it. -/
theorem discovery_consistent (fe : CdpDebuggerFrontend) (port : Nat) :
    (∃ target : QVariantMap,
      fe.jsonList port = .list [.map target] ∧
      QMap.value target "type" = .str "page" ∧
      QMap.value target "webSocketDebuggerUrl"
        = .str ("ws://localhost:" ++ QString.number (port : Int)
            ++ ("/devtools/page/" ++ QString.toLower fe.m_frontendName ++ "-js"))) ∧
    QMap.value (fe.jsonVersion port).toMap "webSocketDebuggerUrl"
      = .str ("ws://localhost:" ++ QString.number (port : Int)
          ++ ("/devtools/browser/" ++ QString.toLower fe.m_frontendName ++ "-js")) ∧
    fe.upgradeVerifier ("/devtools/page/" ++ QString.toLower fe.m_frontendName ++ "-js")
      = true ∧
    fe.upgradeVerifier ("/devtools/browser/" ++ QString.toLower fe.m_frontendName ++ "-js")
      = true ∧
    (∀ path : String, fe.upgradeVerifier path = true ↔
      (path = "/devtools/page/" ++ QString.toLower fe.m_frontendName ++ "-js" ∨
       path = "/devtools/browser/" ++ QString.toLower fe.m_frontendName ++ "-js")) ∧
    ((∀ c ∈ (QString.toLower fe.m_frontendName).data, plainInPath c = true) →
      QUrl.path (fe.pageUrl port)
        = "/devtools/page/" ++ QString.toLower fe.m_frontendName ++ "-js" ∧
      QUrl.path (fe.browserUrl port)
        = "/devtools/browser/" ++ QString.toLower fe.m_frontendName ++ "-js" ∧
      fe.upgradeVerifier (QUrl.path (fe.pageUrl port)) = true ∧
      fe.upgradeVerifier (QUrl.path (fe.browserUrl port)) = true) := by
  have hiff : ∀ path : String, fe.upgradeVerifier path = true ↔
      (path = "/devtools/page/" ++ QString.toLower fe.m_frontendName ++ "-js" ∨
       path = "/devtools/browser/" ++ QString.toLower fe.m_frontendName ++ "-js") := by
    intro path
    simp only [CdpDebuggerFrontend.upgradeVerifier, page_path, browser_path, Bool.or_eq_true,
      beq_iff_eq]
  refine ⟨⟨_, rfl, rfl, ?_⟩, ?_, (hiff _).mpr (Or.inl rfl), (hiff _).mpr (Or.inr rfl), hiff,
    ?_⟩
  · have h : QMap.value (QMap.ofList [
        ("id", .str (QString.arg "%1-js" (QString.toLower fe.m_frontendName))),
        ("title", .str (QString.arg "%1 JS Debugger" fe.m_frontendName)),
        ("type", .str "page"),
        ("description",
          .str (QString.arg "%1 V4 JavaScript Execution Context" fe.m_frontendName)),
        ("url", .str (QString.arg "%1://javascript" (QString.toLower fe.m_frontendName))),
        ("devtoolsFrontendUrl",
          .str (QString.arg (QString.arg
            "/devtools/inspector.html?ws=localhost:%1/devtools/page/%2-js"
            (QString.number (port : Int))) (QString.toLower fe.m_frontendName))),
        ("webSocketDebuggerUrl",
          .str (QString.arg (QString.arg "ws://localhost:%1/devtools/page/%2-js"
            (QString.number (port : Int))) (QString.toLower fe.m_frontendName)))])
        "webSocketDebuggerUrl"
        = .str (QString.arg (QString.arg "ws://localhost:%1/devtools/page/%2-js"
            (QString.number (port : Int))) (QString.toLower fe.m_frontendName)) := rfl
    rw [h, page_url]
  · have h : QMap.value (fe.jsonVersion port).toMap "webSocketDebuggerUrl"
        = .str (QString.arg (QString.arg "ws://localhost:%1/devtools/browser/%2-js"
            (QString.number (port : Int))) (QString.toLower fe.m_frontendName)) := rfl
    rw [h, browser_url]
  · intro hname
    have hpage : QUrl.path (fe.pageUrl port)
        = "/devtools/page/" ++ QString.toLower fe.m_frontendName ++ "-js" := by
      rw [pageUrl_eq]
      exact QUrl.path_of_advertised port "page/" _ (by decide) hname
    have hbrowser : QUrl.path (fe.browserUrl port)
        = "/devtools/browser/" ++ QString.toLower fe.m_frontendName ++ "-js" := by
      rw [browserUrl_eq]
      exact QUrl.path_of_advertised port "browser/" _ (by decide) hname
    exact ⟨hpage, hbrowser, (hiff _).mpr (Or.inl hpage), (hiff _).mpr (Or.inr hbrowser)⟩

/-- C33 fails on the code as stated: for the frontend name `a?b` the URL that `/json/list`
advertises is `ws://localhost:9222/devtools/page/a?b-js`, whose path is `/devtools/page/a`,
and the verifier rejects that path; the same for the URL of `/json/version`. A name with `#`
(`a#b`) or with a percent escape (`a%41`, whose path reads `aA`) is rejected likewise. -/
theorem discovery_name_with_query_rejected :
    (namedFrontend "a?b").pageUrl 9222 = "ws://localhost:9222/devtools/page/a?b-js" ∧
    QUrl.path ((namedFrontend "a?b").pageUrl 9222) = "/devtools/page/a" ∧
    (namedFrontend "a?b").upgradeVerifier (QUrl.path ((namedFrontend "a?b").pageUrl 9222))
      = false ∧
    (namedFrontend "a?b").upgradeVerifier (QUrl.path ((namedFrontend "a?b").browserUrl 9222))
      = false ∧
    QUrl.path ((namedFrontend "a#b").pageUrl 9222) = "/devtools/page/a" ∧
    (namedFrontend "a#b").upgradeVerifier (QUrl.path ((namedFrontend "a#b").pageUrl 9222))
      = false ∧
    QUrl.path ((namedFrontend "a%41").pageUrl 9222) = "/devtools/page/aA-js" ∧
    (namedFrontend "a%41").upgradeVerifier (QUrl.path ((namedFrontend "a%41").pageUrl 9222))
      = false := by
  decide

/-- Witness of C33 as amended: the frontend "JsRunner" on port 9222. -/
theorem discovery_consistent_witness :
    QMap.value (demoFrontend.jsonVersion 9222).toMap "webSocketDebuggerUrl"
      = .str "ws://localhost:9222/devtools/browser/jsrunner-js" ∧
    demoFrontend.upgradeVerifier "/devtools/browser/jsrunner-js" = true ∧
    (∀ c ∈ (QString.toLower demoFrontend.m_frontendName).data, plainInPath c = true) ∧
    QUrl.path (demoFrontend.pageUrl 9222) = "/devtools/page/jsrunner-js" ∧
    demoFrontend.upgradeVerifier (QUrl.path (demoFrontend.pageUrl 9222)) = true ∧
    demoFrontend.upgradeVerifier (QUrl.path (demoFrontend.browserUrl 9222)) = true :=
  ⟨(discovery_consistent demoFrontend 9222).2.1,
   (discovery_consistent demoFrontend 9222).2.2.2.1,
   by decide,
   ((discovery_consistent demoFrontend 9222).2.2.2.2.2 (by decide)).1,
   ((discovery_consistent demoFrontend 9222).2.2.2.2.2 (by decide)).2.2⟩

/-! ## The grouped-INI loader (C34) -/

/-- One round of the loop on a comment or blank line. -/
theorem readLine_comment (st : RawSettingsState) (rawLine : String)
    (h : isCommentOrBlank rawLine) : RawSettings.readLine st rawLine = st := by
  unfold isCommentOrBlank at h
  simp only [RawSettings.readLine, h, if_true]

/-- One round of the loop on a group line. -/
theorem readLine_group (st : RawSettingsState) (rawLine g : String)
    (h : groupNameOf rawLine = some g) :
    RawSettings.readLine st rawLine
      = { currentGroup := g, map := st.map,
          groupOrder := if g ≠ "" ∧ g ∉ st.groupOrder then st.groupOrder ++ [g]
            else st.groupOrder } := by
  unfold groupNameOf at h
  by_cases hc : isCommentOrBlank rawLine
  · simp [hc] at h
  · simp only [hc, if_false] at h
    by_cases hg : QString.startsWith (QString.trimmed rawLine) '[' = true ∧
        QString.endsWith (QString.trimmed rawLine) ']' = true
    · simp only [hg, and_self, if_true, Option.some.injEq] at h
      unfold isCommentOrBlank at hc
      simp only [RawSettings.readLine, hc, if_false, hg, and_self, if_true, h]
      split_ifs <;> rfl
    · simp [hg] at h

/-- One round of the loop on a `key = value` line. -/
theorem readLine_keyValue (st : RawSettingsState) (rawLine key value : String)
    (h : keyValueOf rawLine = some (key, value)) :
    RawSettings.readLine st rawLine
      = { currentGroup := st.currentGroup,
          map := QMap.insert st.map
            (if st.currentGroup = "" then key else st.currentGroup ++ "/" ++ key)
            (.str value),
          groupOrder := st.groupOrder } := by
  unfold keyValueOf at h
  by_cases hc : isCommentOrBlank rawLine
  · simp [hc] at h
  · simp only [hc, if_false] at h
    by_cases hg : QString.startsWith (QString.trimmed rawLine) '[' = true ∧
        QString.endsWith (QString.trimmed rawLine) ']' = true
    · simp [hg] at h
    · simp only [hg, if_false] at h
      unfold isCommentOrBlank at hc
      cases hi : QString.indexOf (QString.trimmed rawLine) "=" with
      | none => simp [hi] at h
      | some eq =>
        simp only [hi] at h
        by_cases he : eq > 0
        · simp only [he, if_true, Option.some.injEq, Prod.mk.injEq] at h
          simp only [RawSettings.readLine, hc, if_false, hg, hi, he, if_true, h.1, h.2]
        · simp [he] at h

/-- One round of the loop on a line that is no group line: group and group order stay. -/
theorem readLine_other (st : RawSettingsState) (rawLine : String)
    (h : groupNameOf rawLine = none) :
    (RawSettings.readLine st rawLine).currentGroup = st.currentGroup ∧
    (RawSettings.readLine st rawLine).groupOrder = st.groupOrder := by
  unfold groupNameOf at h
  by_cases hc : isCommentOrBlank rawLine
  · rw [readLine_comment st rawLine hc]
    exact ⟨rfl, rfl⟩
  · simp only [hc, if_false] at h
    by_cases hg : QString.startsWith (QString.trimmed rawLine) '[' = true ∧
        QString.endsWith (QString.trimmed rawLine) ']' = true
    · simp [hg] at h
    · unfold isCommentOrBlank at hc
      simp only [RawSettings.readLine, hc, if_false, hg]
      split
      · split_ifs <;> exact ⟨rfl, rfl⟩
      · exact ⟨rfl, rfl⟩

/-- The group order after the loop, from the state the loop starts in. -/
theorem foldl_groupOrder (lines : List String) (st : RawSettingsState) :
    (lines.foldl RawSettings.readLine st).groupOrder
      = st.groupOrder ++ (firstAppearance ((lines.filterMap groupNameOf).filter
          (fun g => g ≠ ""))).filter (fun g => g ∉ st.groupOrder) := by
  induction lines generalizing st with
  | nil => simp [firstAppearance]
  | cons l rest ih =>
    rw [List.foldl_cons, ih]
    cases hg : groupNameOf l with
    | none =>
      rw [(readLine_other st l hg).2]
      simp [List.filterMap_cons, hg]
    | some g =>
      rw [readLine_group st l g hg]
      simp only [List.filterMap_cons, hg]
      by_cases he : g = ""
      · simp [he]
      · by_cases hm : g ∈ st.groupOrder
        · simp only [hm, not_true_eq_false, and_false, if_false, ne_eq, he, not_false_eq_true,
            decide_True, List.filter_cons_of_pos, firstAppearance, decide_False,
            Bool.false_eq_true, List.filter_cons_of_neg, List.filter_filter]
          congr 1
          apply List.filter_congr
          intro x _
          by_cases hx : x = g
          · subst hx
            simp [hm]
          · simp [hx]
        · simp only [ne_eq, he, not_false_eq_true, hm, and_self, if_true, decide_True,
            List.filter_cons_of_pos, firstAppearance, List.append_assoc, List.singleton_append,
            List.filter_filter]
          congr 2
          apply List.filter_congr
          intro x _
          by_cases hx : x = g
          · subst hx
            simp
          · simp [hx]

theorem foldl_currentGroup (lines : List String) (st : RawSettingsState) :
    (lines.foldl RawSettings.readLine st).currentGroup
      = ((lines.filterMap groupNameOf).getLast?).getD st.currentGroup := by
  induction lines generalizing st with
  | nil => rfl
  | cons l rest ih =>
    rw [List.foldl_cons, ih]
    cases hg : groupNameOf l with
    | none =>
      rw [(readLine_other st l hg).1]
      simp [List.filterMap_cons, hg]
    | some g =>
      rw [readLine_group st l g hg]
      simp only [List.filterMap_cons, hg]
      cases hr : List.filterMap groupNameOf rest with
      | nil => simp
      | cons a as =>
        rw [List.getLast?_cons_cons, List.getLast?_eq_getLast (a :: as) (List.cons_ne_nil a as)]
        rfl

theorem firstAppearance_mem (ns : List String) (g : String) :
    g ∈ firstAppearance ns ↔ g ∈ ns := by
  induction ns with
  | nil => simp [firstAppearance]
  | cons x xs ih =>
    simp only [firstAppearance, List.mem_cons, List.mem_filter, ih, ne_eq, decide_not,
      Bool.not_eq_true', decide_eq_false_iff_not]
    by_cases h : g = x
    · simp [h]
    · simp [h]

theorem firstAppearance_nodup (ns : List String) : (firstAppearance ns).Nodup := by
  induction ns with
  | nil => simp [firstAppearance]
  | cons x xs ih =>
    simp only [firstAppearance, List.nodup_cons, List.mem_filter, ne_eq, decide_not,
      Bool.not_eq_true', decide_eq_false_iff_not, not_true_eq_false, and_false,
      not_false_eq_true, true_and]
    exact ih.filter _

/-- The loop of `readCustomNonStatic` on any list of lines. -/
theorem readCustomNonStatic_spec (lines : List String) (map : QVariantMap) :
    (RawSettings.readCustomNonStatic lines map).groupOrder
      = firstAppearance ((lines.filterMap groupNameOf).filter (fun g => g ≠ "")) ∧
    (RawSettings.readCustomNonStatic lines map).currentGroup = mostRecentGroup lines := by
  constructor
  · have h := foldl_groupOrder lines { currentGroup := "", map := map, groupOrder := [] }
    simpa [RawSettings.readCustomNonStatic] using h
  · exact foldl_currentGroup lines { currentGroup := "", map := map, groupOrder := [] }

theorem readCustomNonStatic_append (pre : List String) (l : String) (map : QVariantMap) :
    RawSettings.readCustomNonStatic (pre ++ [l]) map
      = RawSettings.readLine (RawSettings.readCustomNonStatic pre map) l := by
  simp [RawSettings.readCustomNonStatic, List.foldl_append]

/-- C34, as amended: for every input text, `readCustomNonStatic` leaves in `groupOrder`
exactly the distinct non-empty names of the `[Name]` group lines, each once, in the order of
their first appearance; a comment line (starting with `#` or `;`) or blank line changes
nothing; and a `key = value` line is stored in the map under
"<most recent group>/<key>" when the most recent group line has a non-empty name, and under
"<key>" alone when no group line precedes it or the most recent one has an empty name. -/
theorem readCustomNonStatic_groups (text : String) (map : QVariantMap) :
    (RawSettings.readCustomNonStatic (textLines text) map).groupOrder
      = firstAppearance (((textLines text).filterMap groupNameOf).filter (fun g => g ≠ "")) ∧
    (RawSettings.readCustomNonStatic (textLines text) map).groupOrder.Nodup ∧
    (∀ g : String, g ∈ (RawSettings.readCustomNonStatic (textLines text) map).groupOrder ↔
      (g ≠ "" ∧ g ∈ (textLines text).filterMap groupNameOf)) ∧
    (∀ (st : RawSettingsState) (l : String), isCommentOrBlank l →
      RawSettings.readLine st l = st) ∧
    (∀ (pre : List String) (l key value : String), keyValueOf l = some (key, value) →
      (mostRecentGroup pre ≠ "" →
        (RawSettings.readCustomNonStatic (pre ++ [l]) map).map
          = QMap.insert (RawSettings.readCustomNonStatic pre map).map
              (mostRecentGroup pre ++ "/" ++ key) (.str value) ∧
        QMap.value (RawSettings.readCustomNonStatic (pre ++ [l]) map).map
          (mostRecentGroup pre ++ "/" ++ key) = .str value) ∧
      (mostRecentGroup pre = "" →
        (RawSettings.readCustomNonStatic (pre ++ [l]) map).map
          = QMap.insert (RawSettings.readCustomNonStatic pre map).map key (.str value) ∧
        QMap.value (RawSettings.readCustomNonStatic (pre ++ [l]) map).map key = .str value) ∧
      (RawSettings.readCustomNonStatic (pre ++ [l]) map).groupOrder
        = (RawSettings.readCustomNonStatic pre map).groupOrder) := by
  have hord := (readCustomNonStatic_spec (textLines text) map).1
  refine ⟨hord, ?_, ?_, readLine_comment, ?_⟩
  · rw [hord]
    exact firstAppearance_nodup _
  · intro g
    rw [hord, firstAppearance_mem, List.mem_filter]
    constructor
    · rintro ⟨h1, h2⟩
      exact ⟨by simpa using h2, h1⟩
    · rintro ⟨h1, h2⟩
      exact ⟨h2, by simpa using h1⟩
  · intro pre l key value hkv
    have hcur := (readCustomNonStatic_spec pre map).2
    have hstep := readLine_keyValue (RawSettings.readCustomNonStatic pre map) l key value hkv
    rw [← readCustomNonStatic_append, hcur] at hstep
    refine ⟨?_, ?_, ?_⟩
    · intro hne
      rw [hstep]
      constructor
      · simp [hne]
      · simp [hne, QMap.value_insert]
    · intro he
      rw [hstep]
      constructor
      · simp [he]
      · simp [he, QMap.value_insert]
    · rw [hstep]

/-- Witness of C34 as amended: a text with a comment, two groups, one of them named twice,
and a key in each. -/
theorem readCustomNonStatic_groups_witness :
    (RawSettings.readCustomNonStatic
      (textLines "# test\n[A]\nrequest=IGNORE\n\n[ B ]\nk = v\n[A]\nresponse=1") []).groupOrder
      = ["A", "B"] ∧
    (RawSettings.readCustomNonStatic
      (textLines "# test\n[A]\nrequest=IGNORE\n\n[ B ]\nk = v\n[A]\nresponse=1") []).map
      = [("A/request", .str "IGNORE"), ("A/response", .str "1"), ("B/k", .str " v")] :=
  ⟨(readCustomNonStatic_groups
      "# test\n[A]\nrequest=IGNORE\n\n[ B ]\nk = v\n[A]\nresponse=1" []).1, rfl⟩

/-- C34 fails on the code as stated: in the text "a=1" the line `a=1` has no group line
before it, and in the text "[x]\n[]\na=1" the most recent group line has an empty name; both
times the value is stored under "a", and the map has neither the key "/a" nor "x/a". -/
theorem key_outside_group_stored_bare :
    (RawSettings.readCustomNonStatic (textLines "a=1") []).map = [("a", .str "1")] ∧
    QMap.contains (RawSettings.readCustomNonStatic (textLines "a=1") []).map "/a" = false ∧
    (RawSettings.readCustomNonStatic (textLines "[x]\n[]\na=1") []).groupOrder = ["x"] ∧
    (RawSettings.readCustomNonStatic (textLines "[x]\n[]\na=1") []).map = [("a", .str "1")] ∧
    QMap.contains (RawSettings.readCustomNonStatic (textLines "[x]\n[]\na=1") []).map "x/a"
      = false ∧
    QMap.contains (RawSettings.readCustomNonStatic (textLines "[x]\n[]\na=1") []).map "/a"
      = false := by
  refine ⟨rfl, rfl, ?_, rfl, rfl, rfl⟩
  decide
